import Mathlib

/-!
# Incremental graph reconciliation in `webtool/static/js/sigma_network.js`

A shallow embedding of the page script that drives a sigma.js network view:
`change_network` (reconciliation of the displayed graph with a target
snapshot), `min_degree_filter`, and the playback functions
`start_animation` / `stop_animation` with the body of the interval callback.

Conventions of the embedding.

* The mutable world of the script (the sigma instance `s`, the globals of the
  file, the few DOM values it reads and writes) is one record, `Page`, passed
  explicitly.  A function that can throw returns an `Outcome`, which carries the
  page as the exception left it: statements executed before a `throw` are not
  undone in JavaScript.
* JavaScript numbers are modelled as rationals; the script only stores and
  compares them.
* `Math.random()` is an oracle `random : Nat → ℚ`; the page counts the draws.
* The sigma.js library is not part of the script.  Its graph store is modelled
  by `Graph` with the operations the script calls.
* The layout simulation moves nodes asynchronously while it runs; that activity
  is outside the script and is not modelled.  Every statement below is about
  what the functions of the script do in one call.
-/

namespace SigmaNetwork

/-! ## Values -/

/-- JavaScript exceptions that the script or the library can raise. -/
inductive JsError where
  | referenceError (name : String)
  | typeError (msg : String)
  | syntaxError (msg : String)
  | thrown (msg : String)
  deriving DecidableEq, Repr

/-- The few JavaScript values whose truthiness the script tests. -/
inductive JsValue where
  | undefined
  | boolean (b : Bool)
  | func (name : String)
  deriving DecidableEq, Repr

/-- JavaScript truthiness: a function object is always truthy. -/
def JsValue.truthy : JsValue → Bool
  | .undefined => false
  | .boolean b => b
  | .func _ => true

/-- A node of a snapshot, as found in `json["nodes"]`. -/
structure NodeRecord where
  id : String
  label : String
  size : ℚ
  deriving DecidableEq

/-- An edge of a snapshot, as found in `json["edges"]`. -/
structure EdgeRecord where
  id : String
  label : String
  size : ℚ
  source : String
  target : String
  deriving DecidableEq

/-- One graph of the time series: a value of `core_json`. -/
structure Snapshot where
  nodes : List NodeRecord
  edges : List EdgeRecord
  deriving DecidableEq

/-- A node held by the sigma graph.  A node read from a snapshot record has no
coordinates; a node added by the script has both. -/
structure Node where
  id : String
  label : String
  size : ℚ
  x : Option ℚ
  y : Option ℚ
  deriving DecidableEq

/-- An edge held by the sigma graph. -/
structure Edge where
  id : String
  label : String
  size : ℚ
  source : String
  target : String
  deriving DecidableEq

/-- Observable calls made on the sigma instance and on the timer, in order. -/
inductive Effect where
  | addNode (id : String)
  | dropNode (id : String)
  | setNodeSize (id : String)
  | addEdge (id : String)
  | setEdgeSize (id : String)
  | refresh
  | startForceAtlas2
  | stopForceAtlas2
  | killForceAtlas2
  | changeDate (index : Int)
  | setInterval
  | clearInterval
  deriving DecidableEq, Repr

/-! ## The sigma graph store -/

/-- Modelled from the spec: the graph store of the rendering collaborator
(sigma.js `s.graph`, section 6 of the specification: `addNode(record)`,
`removeNode(id)` (cascades edges), `addEdge(record)`, `degreeOf(id)`), which is
a library outside the script.  The arrays are in insertion order. -/
structure Graph where
  nodesArray : List Node
  edgesArray : List Edge
  deriving DecidableEq

/-- The expression `s.graph.nodes().map(value => value.id)`. -/
def Graph.nodeIds (g : Graph) : List String := g.nodesArray.map (·.id)

/-- The expression `s.graph.edges().map(value => value.id)`. -/
def Graph.edgeIds (g : Graph) : List String := g.edgesArray.map (·.id)

/-- The call `s.graph.nodes(id)`: the node registered under an id, if any. -/
def Graph.nodes (g : Graph) (id : String) : Option Node :=
  g.nodesArray.find? (fun n => n.id == id)

/-- The call `s.graph.edges(id)`: the edge registered under an id, if any. -/
def Graph.edges (g : Graph) (id : String) : Option Edge :=
  g.edgesArray.find? (fun e => e.id == id)

/-- Modelled from the spec: `addNode(record)` of the rendering collaborator.
As in sigma.js, an id that is already registered is refused with a throw. -/
def Graph.addNode (g : Graph) (n : Node) : Except JsError Graph :=
  if g.nodeIds.contains n.id then
    .error (.thrown "The node already exists.")
  else
    .ok { g with nodesArray := g.nodesArray ++ [n] }

/-- Modelled from the spec: `addEdge(record)` of the rendering collaborator.
As in sigma.js, the source and the target must be registered nodes and the
edge id must be new; otherwise the call throws. -/
def Graph.addEdge (g : Graph) (e : Edge) : Except JsError Graph :=
  if !g.nodeIds.contains e.source then
    .error (.thrown "The edge source must have an existing node id.")
  else if !g.nodeIds.contains e.target then
    .error (.thrown "The edge target must have an existing node id.")
  else if g.edgeIds.contains e.id then
    .error (.thrown "The edge already exists.")
  else
    .ok { g with edgesArray := g.edgesArray ++ [e] }

/-- Modelled from the spec: `removeNode(id)` (cascades edges) of the rendering
collaborator, sigma.js `dropNode`: the node is taken out of the array and
every edge having it as source or target is dropped; an unknown id throws. -/
def Graph.dropNode (g : Graph) (id : String) : Except JsError Graph :=
  if g.nodeIds.contains id then
    .ok { nodesArray := g.nodesArray.eraseP (fun n => n.id == id),
          edgesArray := g.edgesArray.filter
            (fun e => !(e.source == id || e.target == id)) }
  else
    .error (.thrown "The node does not exist.")

/-- Modelled from the spec: `degreeOf(id)` of the rendering collaborator,
sigma.js `degree`: every edge counts once for its source and once for its
target, so a self-loop counts twice. -/
def Graph.degree (g : Graph) (id : String) : Nat :=
  g.edgesArray.countP (fun e => e.source == id) +
    g.edgesArray.countP (fun e => e.target == id)

/-- The assignment `s.graph.nodes(id).size = v`; on an unknown id the read
gives `undefined` and the assignment is a TypeError. -/
def Graph.setNodeSize (g : Graph) (id : String) (v : ℚ) : Except JsError Graph :=
  if g.nodeIds.contains id then
    .ok { g with nodesArray :=
      g.nodesArray.map (fun n => if n.id == id then { n with size := v } else n) }
  else
    .error (.typeError "Cannot set properties of undefined (setting size)")

/-- The assignment `s.graph.edges(id).size = v`. -/
def Graph.setEdgeSize (g : Graph) (id : String) (v : ℚ) : Except JsError Graph :=
  if g.edgeIds.contains id then
    .ok { g with edgesArray :=
      g.edgesArray.map (fun e => if e.id == id then { e with size := v } else e) }
  else
    .error (.typeError "Cannot set properties of undefined (setting size)")

/-- What the display shows of a node apart from its size and label: its id and
its coordinates. -/
def Node.placed (n : Node) : String × Option ℚ × Option ℚ := (n.id, n.x, n.y)

/-- The empty graph of a fresh sigma instance. -/
def Graph.empty : Graph := { nodesArray := [], edgesArray := [] }

/-! ## The page -/

/-- The state the script works on.

* `graph`, `supervisor`: the sigma instance `s`; `supervisor` is the layout
  worker of the ForceAtlas2 add-on (`none`: no supervisor, `some r`: a
  supervisor whose `running` flag is `r`).
* `effects`: the calls made so far, oldest first.
* `random_calls`: the number of `Math.random()` draws made so far.
* `core_json`: the time series, in the order of `Object.keys`.
* `time_slider`, `network_name_box`, `force_button_running`, `slider_hidden`,
  `slider_max`: the DOM values the script reads or writes.
* `animation_running`, `graph_manipulation_disabled`: globals declared in the
  file.  `date_amount`, `current_date`, `animate_network`: globals created by
  assignment in `start_animation`; for `animate_network`, `none` is the
  unbound identifier and `some live` a timer handle with its liveness.
* `delete_node_ids`: the identifier used on line 110.  The file never declares
  or assigns it, so in a page that loads only this script it is unbound
  (`none`); `some ids` is a page that defines it elsewhere. -/
structure Page where
  graph : Graph
  supervisor : Option Bool
  effects : List Effect
  random_calls : Nat
  core_json : List (String × Snapshot)
  time_slider : Int
  network_name_box : String
  force_button_running : Bool
  slider_hidden : Bool
  slider_max : Option Int
  animation_running : Bool
  graph_manipulation_disabled : Bool
  date_amount : Int
  current_date : Int
  animate_network : Option Bool
  delete_node_ids : Option (List String)

/-- The result of running a function of the script: it returned a value, or
threw, and in both cases left a page behind. -/
inductive Outcome (α : Type) where
  | done (value : α) (page : Page)
  | threw (error : JsError) (page : Page)

/-- The page left behind. -/
def Outcome.page {α : Type} : Outcome α → Page
  | .done _ p => p
  | .threw _ p => p

/-- The exception raised, if any. -/
def Outcome.error {α : Type} : Outcome α → Option JsError
  | .done _ _ => none
  | .threw e _ => some e

/-- Whether the function ran to completion. -/
def Outcome.completed {α : Type} : Outcome α → Bool
  | .done _ _ => true
  | .threw _ _ => false

/-- Record a call in the log. -/
def Page.log (p : Page) (e : Effect) : Page := { p with effects := p.effects ++ [e] }

/-- The property read `s.isForceAtlas2Running` (no call): the method itself. -/
def Page.isForceAtlas2Running_property (_p : Page) : JsValue :=
  .func "isForceAtlas2Running"

/-- The call `s.isForceAtlas2Running()`. -/
def Page.isForceAtlas2Running (p : Page) : Bool := p.supervisor == some true

/-- The call `s.startForceAtlas2(fa2config)`: creates the supervisor when
there is none and starts it. -/
def Page.startForceAtlas2 (p : Page) : Page :=
  { p with supervisor := some true }.log .startForceAtlas2

/-- The call `s.stopForceAtlas2()`: pauses the supervisor when there is one. -/
def Page.stopForceAtlas2 (p : Page) : Page :=
  { p with supervisor := p.supervisor.map (fun _ => false) }.log .stopForceAtlas2

/-- The call `s.killForceAtlas2()`: stops and discards the supervisor. -/
def Page.killForceAtlas2 (p : Page) : Page :=
  { p with supervisor := none }.log .killForceAtlas2

/-- The call `s.refresh()`. -/
def Page.refresh (p : Page) : Page := p.log .refresh

/-- The call `s.graph.addNode(...)`. -/
def Page.addNode (p : Page) (n : Node) : Except JsError Page :=
  (p.graph.addNode n).map (fun g => { p with graph := g }.log (.addNode n.id))

/-- The call `s.graph.addEdge(...)`. -/
def Page.addEdge (p : Page) (e : Edge) : Except JsError Page :=
  (p.graph.addEdge e).map (fun g => { p with graph := g }.log (.addEdge e.id))

/-- The call `s.graph.dropNode(id)`. -/
def Page.dropNode (p : Page) (id : String) : Except JsError Page :=
  (p.graph.dropNode id).map (fun g => { p with graph := g }.log (.dropNode id))

/-- The statement `s.graph.nodes(id).size = v`. -/
def Page.setNodeSize (p : Page) (id : String) (v : ℚ) : Except JsError Page :=
  (p.graph.setNodeSize id v).map (fun g => { p with graph := g }.log (.setNodeSize id))

/-- The statement `s.graph.edges(id).size = v`. -/
def Page.setEdgeSize (p : Page) (id : String) (v : ℚ) : Except JsError Page :=
  (p.graph.setEdgeSize id v).map (fun g => { p with graph := g }.log (.setEdgeSize id))

/-- The builtin `parseFloat` on a number: the number itself. -/
def parseFloat (v : ℚ) : ℚ := v

/-! ## `stop_force_atlas`, `start_force_atlas`, `toggle_force_atlas` -/

/-- Lines 244-249. -/
def stop_force_atlas (p : Page) : Page :=
  { p with force_button_running := false }.stopForceAtlas2

/-- Lines 251-256. -/
def start_force_atlas (p : Page) : Page :=
  { p with force_button_running := true }.startForceAtlas2

/-- Lines 225-242: here the method is called, `s.isForceAtlas2Running()`. -/
def toggle_force_atlas (p : Page) : Page :=
  if p.isForceAtlas2Running then
    { p with force_button_running := false }.stopForceAtlas2
  else
    { p with force_button_running := true }.startForceAtlas2

/-! ## `render_new_network` and `init_network` -/

/-- The node object sigma keeps for a snapshot record. -/
def NodeRecord.toNode (n : NodeRecord) : Node :=
  { id := n.id, label := n.label, size := n.size, x := none, y := none }

/-- The edge object sigma keeps for a snapshot record. -/
def EdgeRecord.toEdge (e : EdgeRecord) : Edge :=
  { id := e.id, label := e.label, size := e.size, source := e.source, target := e.target }

/-- The node part of sigma `graph.read`: `addNode` on every record in order. -/
def Graph.readNodes : List NodeRecord → Graph → Except JsError Graph
  | [], g => .ok g
  | n :: rest, g =>
    match g.addNode n.toNode with
    | .ok g1 => Graph.readNodes rest g1
    | .error e => .error e

/-- The edge part of sigma `graph.read`: `addEdge` on every record in order. -/
def Graph.readEdges : List EdgeRecord → Graph → Except JsError Graph
  | [], g => .ok g
  | e :: rest, g =>
    match g.addEdge e.toEdge with
    | .ok g1 => Graph.readEdges rest g1
    | .error err => .error err

/-- The graph sigma holds after reading a snapshot without a throw. -/
def Snapshot.toGraph (json : Snapshot) : Graph :=
  { nodesArray := json.nodes.map NodeRecord.toNode,
    edgesArray := json.edges.map EdgeRecord.toEdge }

/-- Lines 47-60: `s = new sigma({graph: json, ...}); s.refresh()`.  The
constructor reads the nodes, then the edges, into an empty graph; when it
throws, `s` is not reassigned. -/
def render_new_network (json : Option Snapshot) (p : Page) : Outcome Unit :=
  let nodes := match json with
    | some j => j.nodes
    | none => []
  let edges := match json with
    | some j => j.edges
    | none => []
  match Graph.readNodes nodes Graph.empty with
  | .error e => .threw e p
  | .ok g1 =>
    match Graph.readEdges edges g1 with
    | .error e => .threw e p
    | .ok g2 => .done () ({ p with graph := g2, supervisor := none }.refresh)

/-- Indexing of a JavaScript array by a number: `undefined` out of range. -/
def arrayAt {α : Type} (xs : List α) (index : Int) : Option α :=
  if index < 0 then none else xs[index.toNat]?

/-- The expression `core_json[Object.keys(core_json)[index]]`; an index out of
range gives the key `undefined`, which is looked up as the string. -/
def core_json_at (core_json : List (String × Snapshot)) (index : Int) : Option Snapshot :=
  core_json.lookup ((arrayAt (core_json.map (·.1)) index).getD "undefined")

/-- Lines 212-223. -/
def create_slider (length : Int) (p : Page) : Page :=
  if length < 2 then { p with slider_hidden := true }
  else { p with slider_max := some length }

/-- Lines 35-45. -/
def init_network (core_json : List (String × Snapshot)) (p : Page) : Outcome Unit :=
  let p := create_slider core_json.length p
  let key := arrayAt (core_json.map (·.1)) 0
  match render_new_network (core_json.lookup (key.getD "undefined")) p with
  | .threw e p1 => .threw e p1
  | .done _ p1 =>
    match key with
    | some k => .done () { p1 with network_name_box := k }
    | none => .done () p1

/-! ## `change_network` -/

/-- Lines 85-105: the loop over `update_json["nodes"]`. -/
def change_network_nodes (random : Nat → ℚ) (existing_nodes_ids : List String) :
    List NodeRecord → List String → Page → Outcome (List String)
  | [], nodes_added, p => .done nodes_added p
  | node :: rest, nodes_added, p =>
    let nodes_added := nodes_added ++ [node.id]
    if !existing_nodes_ids.contains node.id then
      let x := random p.random_calls * 20
      let y := random (p.random_calls + 1) * 20
      let p := { p with random_calls := p.random_calls + 2 }
      match p.addNode { id := node.id, size := node.size, label := node.label,
                        x := some x, y := some y } with
      | .ok p1 => change_network_nodes random existing_nodes_ids rest nodes_added p1
      | .error e => .threw e p
    else
      match p.setNodeSize node.id (parseFloat node.size) with
      | .ok p1 => change_network_nodes random existing_nodes_ids rest nodes_added p1
      | .error e => .threw e p

/-- Lines 107-113: the loop over `existing_nodes_ids`.  Line 110 reads the
identifier `delete_node_ids`, a ReferenceError when it is unbound. -/
def change_network_clean (nodes_added : List String) :
    List String → Page → Outcome Unit
  | [], p => .done () p
  | node_id :: rest, p =>
    if !nodes_added.contains node_id then
      match p.delete_node_ids with
      | none => .threw (.referenceError "delete_node_ids") p
      | some ids =>
        let p := { p with delete_node_ids := some (ids ++ [node_id]) }
        match p.dropNode node_id with
        | .ok p1 => change_network_clean nodes_added rest p1
        | .error e => .threw e p
    else
      change_network_clean nodes_added rest p

/-- Lines 118-138: the loop over `update_json["edges"]`. -/
def change_network_edges (existing_edges_ids : List String) :
    List EdgeRecord → List String → Page → Outcome (List String)
  | [], edges_added, p => .done edges_added p
  | edge :: rest, edges_added, p =>
    let edges_added := edges_added ++ [edge.id]
    if !existing_edges_ids.contains edge.id then
      match p.addEdge { id := edge.id, label := edge.label, size := edge.size,
                        source := edge.source, target := edge.target } with
      | .ok p1 => change_network_edges existing_edges_ids rest edges_added p1
      | .error e => .threw e p
    else
      match p.setEdgeSize edge.id (parseFloat edge.size) with
      | .ok p1 => change_network_edges existing_edges_ids rest edges_added p1
      | .error e => .threw e p

/-- Lines 62-145.  The argument is `none` when the caller passes `undefined`
(an index outside the series), in which case `update_json["nodes"]` is a
TypeError. -/
def change_network (random : Nat → ℚ) (update_json : Option Snapshot) (p : Page) :
    Outcome Unit :=
  let existing_nodes_ids := p.graph.nodeIds
  let nodes_added : List String := []
  let edges_added : List String := []
  let restart_fa2 := false
  let (restart_fa2, p) :=
    if p.isForceAtlas2Running_property.truthy then (true, stop_force_atlas p)
    else (restart_fa2, p)
  let p := p.killForceAtlas2
  match update_json with
  | none => .threw (.typeError "Cannot read properties of undefined (reading nodes)") p
  | some update_json =>
    match change_network_nodes random existing_nodes_ids update_json.nodes nodes_added p with
    | .threw e p1 => .threw e p1
    | .done nodes_added p1 =>
      match change_network_clean nodes_added existing_nodes_ids p1 with
      | .threw e p2 => .threw e p2
      | .done _ p2 =>
        let existing_edges_ids := p2.graph.edgeIds
        match change_network_edges existing_edges_ids update_json.edges edges_added p2 with
        | .threw e p3 => .threw e p3
        | .done _ p3 =>
          let p4 := p3.refresh
          if restart_fa2 then .done () (start_force_atlas p4) else .done () p4

/-! ## `min_degree_filter` -/

/-- The value of a digit character in the given radix, if it is one. -/
def digitValue (radix : Nat) (c : Char) : Option Nat :=
  let v :=
    if '0' ≤ c ∧ c ≤ '9' then c.toNat - '0'.toNat
    else if 'a' ≤ c ∧ c ≤ 'z' then c.toNat - 'a'.toNat + 10
    else if 'A' ≤ c ∧ c ≤ 'Z' then c.toNat - 'A'.toNat + 10
    else radix
  if v < radix then some v else none

/-- The longest leading run of digits, read in the given radix. -/
def readDigits (radix : Nat) : List Char → Option Nat → Option Nat
  | [], acc => acc
  | c :: rest, acc =>
    match digitValue radix c with
    | none => acc
    | some v => readDigits radix rest (some (acc.getD 0 * radix + v))

/-- The white space and line terminator characters that `parseInt` skips. -/
def isStrWhiteSpaceChar (c : Char) : Bool :=
  let n := c.toNat
  n == 0x9 || n == 0xA || n == 0xB || n == 0xC || n == 0xD || n == 0x20 || n == 0xA0 ||
  n == 0x1680 || (decide (0x2000 ≤ n) && decide (n ≤ 0x200A)) || n == 0x2028 || n == 0x2029 ||
  n == 0x202F || n == 0x205F || n == 0x3000 || n == 0xFEFF

/-- The builtin `parseInt` with one argument, on a string: leading white space
is skipped, a sign and a `0x` marker are accepted, the longest run of digits is
read; `none` stands for `NaN`. -/
def parseInt (s : String) : Option Int :=
  let cs := s.data.dropWhile isStrWhiteSpaceChar
  let signed : Bool × List Char :=
    match cs with
    | '-' :: r => (true, r)
    | '+' :: r => (false, r)
    | _ => (false, cs)
  let based : Nat × List Char :=
    match signed.2 with
    | '0' :: 'x' :: r => (16, r)
    | '0' :: 'X' :: r => (16, r)
    | _ => (10, signed.2)
  match readDigits based.1 based.2 none with
  | none => none
  | some n => some (if signed.1 then - (n : Int) else (n : Int))

/-- The comparison `degree < min_degree`, false when `min_degree` is `NaN`. -/
def degree_below (degree : Nat) (min_degree : Option Int) : Bool :=
  match min_degree with
  | none => false
  | some m => decide ((degree : Int) < m)

/-- Lines 171-181: re-add the nodes of the base that are not displayed. -/
def min_degree_filter_nodes (random : Nat → ℚ) (nodes_there : List String) :
    List NodeRecord → Page → Outcome Unit
  | [], p => .done () p
  | n :: rest, p =>
    if !nodes_there.contains n.id then
      let x := random p.random_calls * 20
      let y := random (p.random_calls + 1) * 20
      let p := { p with random_calls := p.random_calls + 2 }
      match p.addNode { id := n.id, size := n.size, label := n.label,
                        x := some x, y := some y } with
      | .ok p1 => min_degree_filter_nodes random nodes_there rest p1
      | .error e => .threw e p
    else
      min_degree_filter_nodes random nodes_there rest p

/-- Lines 182-192: re-add the edges of the base that are not displayed. -/
def min_degree_filter_edges (edges_there : List String) :
    List EdgeRecord → Page → Outcome Unit
  | [], p => .done () p
  | e :: rest, p =>
    if !edges_there.contains e.id then
      match p.addEdge { id := e.id, label := e.label, size := e.size,
                        source := e.source, target := e.target } with
      | .ok p1 => min_degree_filter_edges edges_there rest p1
      | .error err => .threw err p
    else
      min_degree_filter_edges edges_there rest p

/-- Lines 206-208: drop the collected nodes. -/
def min_degree_filter_drop : List String → Page → Outcome Unit
  | [], p => .done () p
  | node_id :: rest, p =>
    match p.dropNode node_id with
    | .ok p1 => min_degree_filter_drop rest p1
    | .error e => .threw e p

/-- Lines 147-210.  The base is read from `core_json` at the slider position;
when there is no such snapshot, `JSON.parse(undefined)` throws. -/
def min_degree_filter (random : Nat → ℚ) (min_degree : String) (p : Page) :
    Outcome Unit :=
  let p :=
    if p.isForceAtlas2Running_property.truthy then stop_force_atlas p else p
  let p := p.killForceAtlas2
  let min_degree := parseInt min_degree
  let index := p.time_slider - 1
  match core_json_at p.core_json index with
  | none => .threw (.syntaxError "JSON.parse: unexpected input") p
  | some root_json =>
    let nodes_there := p.graph.nodeIds
    let edges_there := p.graph.edgeIds
    match min_degree_filter_nodes random nodes_there root_json.nodes p with
    | .threw e p1 => .threw e p1
    | .done _ p1 =>
      match min_degree_filter_edges edges_there root_json.edges p1 with
      | .threw e p2 => .threw e p2
      | .done _ p2 =>
        let nodes_to_drop :=
          (p2.graph.nodesArray.filter
            (fun node => degree_below (p2.graph.degree node.id) min_degree)).map (·.id)
        match min_degree_filter_drop nodes_to_drop p2 with
        | .threw e p3 => .threw e p3
        | .done _ p3 => .done () p3.refresh

/-! ## Playback -/

/-- Lines 258-266.  jQuery `.text(undefined)` is a read, so the name box is
written only when the key exists. -/
def change_date (random : Nat → ℚ) (index : Int) (p : Page) : Outcome Unit :=
  let p := p.log (.changeDate index)
  let key := arrayAt (p.core_json.map (·.1)) index
  let p :=
    match key with
    | some k => { p with network_name_box := k }
    | none => p
  change_network random (p.core_json.lookup (key.getD "undefined")) p

/-- Lines 300-310.  The flags are reset first; `clearInterval(animate_network)`
is a ReferenceError when no animation was ever started. -/
def stop_animation (p : Page) : Outcome Unit :=
  let p := { p with animation_running := false, graph_manipulation_disabled := false }
  match p.animate_network with
  | none => .threw (.referenceError "animate_network") p
  | some _ => .done () ({ p with animate_network := some false }.log .clearInterval)

/-- Lines 268-298, without the callback: the flags, the counters and the timer. -/
def start_animation (json : List (String × Snapshot)) (index : Int) (p : Page) : Page :=
  { p with
    animation_running := true
    graph_manipulation_disabled := true
    date_amount := json.length
    current_date := index
    animate_network := some true }.log .setInterval

/-- Lines 283-297: the body of the interval callback.  When `change_date`
throws, the rest of the body is skipped. -/
def animate_callback (random : Nat → ℚ) (p : Page) : Outcome Unit :=
  let p := { p with current_date := p.current_date + 1 }
  let p := { p with time_slider := p.current_date }
  match change_date random (p.current_date - 1) p with
  | .threw e p1 => .threw e p1
  | .done _ p1 =>
    if p1.current_date ≥ p1.date_amount then stop_animation p1 else .done () p1

/-- One period of the timer: the callback runs when the interval held by
`animate_network` is live; an exception ends that run only. -/
def tick (random : Nat → ℚ) (p : Page) : Page :=
  match p.animate_network with
  | some true => (animate_callback random p).page
  | _ => p

/-- The page after the given number of timer periods. -/
def ticks (random : Nat → ℚ) : Nat → Page → Page
  | 0, p => p
  | n + 1, p => ticks random n (tick random p)

/-- The indices passed to `change_date` so far, oldest first. -/
def Page.reconciled (p : Page) : List Int :=
  p.effects.filterMap (fun e => match e with
    | .changeDate i => some i
    | _ => none)

/-- The page after a sequence of reconciliations, one `change_network` call
per target, each starting from the page the previous one left. -/
def change_network_all (random : Nat → ℚ) : List Snapshot → Page → Page
  | [], p => p
  | t :: rest, p => change_network_all random rest (change_network random (some t) p).page

/-! ## Predicates used in the statements -/

/-- Every edge of the graph has its source and its target among the nodes. -/
def Graph.NoDangling (g : Graph) : Prop :=
  ∀ e ∈ g.edgesArray, e.source ∈ g.nodeIds ∧ e.target ∈ g.nodeIds

/-- The edges of the snapshot only reference its own nodes. -/
def Snapshot.Closed (t : Snapshot) : Prop :=
  ∀ e ∈ t.edges, e.source ∈ t.nodes.map (·.id) ∧ e.target ∈ t.nodes.map (·.id)

/-- A snapshot of the data model: ids unique among the nodes and among the
edges, and edges that only reference its own nodes. -/
def Snapshot.Valid (t : Snapshot) : Prop :=
  (t.nodes.map (·.id)).Nodup ∧ (t.edges.map (·.id)).Nodup ∧ t.Closed

/-- What the sigma graph store guarantees of itself: ids registered once, and
no dangling edge. -/
def Graph.WF (g : Graph) : Prop :=
  g.nodeIds.Nodup ∧ g.edgeIds.Nodup ∧ g.NoDangling

instance (g : Graph) : Decidable g.NoDangling := by
  unfold Graph.NoDangling; infer_instance

instance (t : Snapshot) : Decidable t.Closed := by
  unfold Snapshot.Closed; infer_instance

instance (t : Snapshot) : Decidable t.Valid := by
  unfold Snapshot.Valid; infer_instance

instance (g : Graph) : Decidable g.WF := by
  unfold Graph.WF; infer_instance

/-- The identity and the topology of a displayed edge. -/
def Edge.ends (e : Edge) : String × String × String := (e.id, e.source, e.target)

/-- The identity and the topology of a snapshot edge. -/
def EdgeRecord.ends (e : EdgeRecord) : String × String × String := (e.id, e.source, e.target)

/-- The displayed graph is a part of the base snapshot: every displayed node
has the id of a base node and every displayed edge is a base edge, with the
id, the source and the target it has in the base. -/
def Graph.Within (g : Graph) (base : Snapshot) : Prop :=
  (∀ n ∈ g.nodesArray, n.id ∈ base.nodes.map (·.id)) ∧
  (∀ e ∈ g.edgesArray, ∃ r ∈ base.edges, r.id = e.id ∧ r.source = e.source ∧ r.target = e.target)

instance (g : Graph) (base : Snapshot) : Decidable (g.Within base) := by
  unfold Graph.Within; infer_instance

/-- The degree of section 4.4 of the specification, counted over the edges of
the base snapshot: an edge counts once as source and once as target, so a
self-loop counts twice. -/
def DegreeFilter.degree (base : Snapshot) (id : String) : Nat :=
  base.edges.countP (fun e => e.source == id) + base.edges.countP (fun e => e.target == id)

/-- The filter of section 4.4 of the specification, in its words: retain the
nodes whose degree is at least `minDegree`, then retain only the edges whose
both endpoints survive. -/
def DegreeFilter.apply (base : Snapshot) (minDegree : Int) : Snapshot :=
  let nodes := base.nodes.filter
    (fun n => decide (minDegree ≤ (DegreeFilter.degree base n.id : Int)))
  { nodes := nodes,
    edges := base.edges.filter (fun e =>
      (nodes.map (·.id)).contains e.source && (nodes.map (·.id)).contains e.target) }

/-- An empty page around a graph, as after loading the script alone:
`delete_node_ids` and `animate_network` are unbound. -/
def Page.blank (g : Graph) (core_json : List (String × Snapshot)) : Page :=
  { graph := g, supervisor := none, effects := [], random_calls := 0,
    core_json := core_json, time_slider := 1, network_name_box := "",
    force_button_running := false, slider_hidden := false, slider_max := none,
    animation_running := false, graph_manipulation_disabled := false,
    date_amount := 0, current_date := 0, animate_network := none,
    delete_node_ids := none }

/-- Snapshot A of the scenario in section 8 of the specification. -/
def snapshotA : Snapshot :=
  { nodes := [{ id := "n1", label := "", size := 1 }, { id := "n2", label := "", size := 1 }],
    edges := [{ id := "e1", label := "", size := 1, source := "n1", target := "n2" }] }

/-- Snapshot B of the scenario in section 8 of the specification. -/
def snapshotB : Snapshot :=
  { nodes := [{ id := "n2", label := "", size := 2 }, { id := "n3", label := "", size := 1 }],
    edges := [{ id := "e2", label := "", size := 1, source := "n2", target := "n3" }] }

/-- The page showing snapshot A, rendered by `render_new_network`. -/
def pageA : Page :=
  (render_new_network (some snapshotA)
    (Page.blank Graph.empty [("t1", snapshotA), ("t2", snapshotB)])).page

/-- Snapshot A without its edge: the nodes n1 and n2 only. -/
def snapshotA_nodes : Snapshot := { nodes := snapshotA.nodes, edges := [] }

/-- A target with a dangling edge: node n1 and an edge from n1 to n9. -/
def danglingTarget : Snapshot :=
  { nodes := [{ id := "n1", label := "", size := 1 }],
    edges := [{ id := "e9", label := "", size := 1, source := "n1", target := "n9" }] }

/-- A target whose dangling edge reuses the id of a displayed edge: the nodes
of snapshot A and an edge e1 from n1 to n9. -/
def danglingResize : Snapshot :=
  { nodes := snapshotA.nodes,
    edges := [{ id := "e1", label := "", size := 3, source := "n1", target := "n9" }] }

/-- The page showing snapshot A inside a page that defines `delete_node_ids`
as an empty array. -/
def pageA_bound : Page := { pageA with delete_node_ids := some [] }

/-- A constant stand-in for `Math.random`. -/
def half : Nat → ℚ := fun _ => 1 / 2

/-! ## The handlers of the slider and of the animate button -/

/-- Lines 466-472: the change handler of the time slider, run after the user
moved the slider to `value`.  A running animation is stopped first. -/
def time_slider_change (random : Nat → ℚ) (value : Int) (p : Page) : Outcome Unit :=
  let p := { p with time_slider := value }
  if p.animation_running then
    match stop_animation p with
    | .threw e p1 => .threw e p1
    | .done _ p1 => change_date random (p1.time_slider - 1) p1
  else
    change_date random (p.time_slider - 1) p

/-- Lines 474-483: the click handler of the animate button.  The value of the
slider is handed to `start_animation` as it is; the first `current_date++`
turns the text into a number. -/
def animate_button_click (p : Page) : Outcome Unit :=
  if !p.animation_running then
    let slider_value := p.time_slider
    .done () (start_animation p.core_json slider_value p)
  else
    stop_animation p

/-- What `change_network` has no business with: the series, the DOM values of
the slider and of the name box, the playback globals, and the indices passed
to `change_date`. -/
def Page.frame (p : Page) :
    List (String × Snapshot) × Int × String × Bool × Bool × Int × Int × Option Bool × List Int :=
  (p.core_json, p.time_slider, p.network_name_box, p.animation_running,
    p.graph_manipulation_disabled, p.date_amount, p.current_date, p.animate_network,
    p.reconciled)

/-- The number of `s.refresh()` calls in a run of effects. -/
def refreshCount (es : List Effect) : Nat := es.count .refresh

/-- Whether an effect changes the displayed graph: an addition, a removal or a
size update of a node or an edge. -/
def Effect.mutates : Effect → Bool
  | .addNode _ => true
  | .dropNode _ => true
  | .setNodeSize _ => true
  | .addEdge _ => true
  | .setEdgeSize _ => true
  | _ => false

/-- The effects of a call: what it appended to the log of the page it started
from. -/
def effectsSince (before after : Page) : List Effect :=
  after.effects.drop before.effects.length

/-- A property of pages that the loops of `change_network` and of
`min_degree_filter` cannot break: it survives a change of the graph, the log
of a graph mutation, a draw of `Math.random` and a push on `delete_node_ids`. -/
structure LoopKept (J : Page → Prop) : Prop where
  graph : ∀ (p : Page) (g : Graph), J p → J { p with graph := g }
  log : ∀ (p : Page) (e : Effect), e.mutates = true → J p → J (p.log e)
  random_calls : ∀ (p : Page) (k : Nat), J p → J { p with random_calls := k }
  delete_node_ids : ∀ (p : Page) (ids : Option (List String)),
    J p → J { p with delete_node_ids := ids }

/-! ## `change_graph_settings` -/

/-- A JavaScript number as `parseFloat` returns it: `NaN`, an infinity, or a
finite value, modelled as a rational. -/
inductive JsNumber where
  | nan
  | infinity (negative : Bool)
  | finite (q : ℚ)
  deriving DecidableEq

/-- The builtin `isNaN` on a number. -/
def JsNumber.isNaN : JsNumber → Bool
  | .nan => true
  | _ => false

/-- The value of a run of decimal digits. -/
def decimalValue (cs : List Char) : Nat :=
  cs.foldl (fun acc c => acc * 10 + (c.toNat - '0'.toNat)) 0

/-- Whether the characters start with the given ones. -/
def startsWith : List Char → List Char → Bool
  | _, [] => true
  | [], _ :: _ => false
  | c :: cs, d :: ds => c == d && startsWith cs ds

/-- The exponent part of a decimal literal, `0` when there is none or when it
has no digit. -/
def exponentValue (cs : List Char) : Int :=
  let body : Option (List Char) :=
    match cs with
    | 'e' :: r => some r
    | 'E' :: r => some r
    | _ => none
  match body with
  | none => 0
  | some r =>
    let signed : Bool × List Char :=
      match r with
      | '-' :: r1 => (true, r1)
      | '+' :: r1 => (false, r1)
      | _ => (false, r)
    let digits := signed.2.takeWhile Char.isDigit
    if digits.isEmpty then 0
    else if signed.1 then - (decimalValue digits : Int) else (decimalValue digits : Int)

/-- The builtin `parseFloat` on a string: leading white space is skipped and
the longest leading decimal literal is read (sign, `Infinity`, digits, a
fraction, an exponent); without one the result is `NaN`. -/
def parseFloatText (s : String) : JsNumber :=
  let cs := s.data.dropWhile isStrWhiteSpaceChar
  let signed : Bool × List Char :=
    match cs with
    | '-' :: r => (true, r)
    | '+' :: r => (false, r)
    | _ => (false, cs)
  if startsWith signed.2 "Infinity".data then .infinity signed.1
  else
    let whole := signed.2.takeWhile Char.isDigit
    let afterWhole := signed.2.dropWhile Char.isDigit
    let fraction : List Char :=
      match afterWhole with
      | '.' :: r => r.takeWhile Char.isDigit
      | _ => []
    let afterFraction : List Char :=
      match afterWhole with
      | '.' :: r => r.dropWhile Char.isDigit
      | _ => afterWhole
    if whole.isEmpty && fraction.isEmpty then .nan
    else
      let mantissa : ℚ :=
        (decimalValue whole : ℚ) + (decimalValue fraction : ℚ) / (10 : ℚ) ^ fraction.length
      let value := mantissa * (10 : ℚ) ^ exponentValue afterFraction
      .finite (if signed.1 then - value else value)

/-- A value held by `fa2config` or by the settings of the sigma instance. -/
inductive SettingValue where
  | undefined
  | boolean (b : Bool)
  | number (n : JsNumber)
  | text (s : String)
  deriving DecidableEq

/-- The read `o[key]` on an object given as its entries in order. -/
def readKey (o : List (String × SettingValue)) (key : String) : SettingValue :=
  (o.lookup key).getD .undefined

/-- The assignment `o[key] = v`: an existing entry is overwritten in place, a
new one is appended. -/
def assignKey : List (String × SettingValue) → String → SettingValue →
    List (String × SettingValue)
  | [], key, v => [(key, v)]
  | (k, w) :: rest, key, v =>
    if k == key then (k, v) :: rest else (k, w) :: assignKey rest key v

/-- The input element handed to `change_graph_settings`: its `type`, `name`,
`value` and `checked` properties. -/
structure InputElement where
  type : String
  name : String
  value : String
  checked : Bool
  deriving DecidableEq

/-- The state `change_graph_settings` works on: the page, the global
`fa2config`, the settings of the sigma instance as set through `s.settings`,
the global `e_value` (created by the assignment on line 319; `none` is the
unbound identifier), the alert box with the number of timers set to clear it,
and the configuration last handed to the layout supervisor. -/
structure Panel where
  page : Page
  fa2config : List (String × SettingValue)
  settings : List (String × SettingValue)
  e_value : Option JsNumber
  parameter_alert_box : String
  alert_timers : Nat
  supervisor_config : Option (List (String × SettingValue))

/-- The result of `change_graph_settings`: it returned or threw, and left a
panel behind. -/
inductive PanelOutcome where
  | done (panel : Panel)
  | threw (error : JsError) (panel : Panel)

/-- The panel left behind. -/
def PanelOutcome.panel : PanelOutcome → Panel
  | .done w => w
  | .threw _ w => w

/-- Whether the function ran to completion. -/
def PanelOutcome.returned : PanelOutcome → Bool
  | .done _ => true
  | .threw _ _ => false

/-- The object `fa2config` of lines 18-28. -/
def fa2config_initial : List (String × SettingValue) :=
  [("worker", .boolean true), ("barnesHutOptimize", .boolean false),
   ("barnesHutTheta", .number (.finite (1 / 2))), ("edgeWeightInfluence", .number (.finite 0)),
   ("scalingRatio", .number (.finite 1)), ("startingIterations", .number (.finite 10)),
   ("iterationsPerRender", .number (.finite 10)), ("strongGravityMode", .boolean false),
   ("slowDown", .number (.finite 10))]

/-- The object `sigmaconfig` of lines 1-16, the settings the sigma instance is
created with.  A key that is absent falls back on the default of the library;
`drawLabels` is such a key. -/
def sigmaconfig : List (String × SettingValue) :=
  [("defaultLabelColor", .text "#0e0e0e"), ("defaultNodeColor", .text "#CE1B28"),
   ("edgeColor", .text "default"), ("defaultEdgeColor", .text "#FFA5AC"),
   ("enableHovering", .boolean false), ("defaultLabelAlignment", .text "right"),
   ("minEdgeSize", .number (.finite (1 / 10))), ("maxEdgeSize", .number (.finite 1)),
   ("minNodeSize", .number (.finite 2)), ("maxNodeSize", .number (.finite 20)),
   ("labelSize", .text "proportional"), ("labelSizeRatio", .number (.finite 1)),
   ("labelThreshold", .number (.finite 3)), ("verbose", .boolean true)]

/-- The panel around a page when the script has just been loaded. -/
def Panel.initial (p : Page) : Panel :=
  { page := p, fa2config := fa2config_initial, settings := sigmaconfig, e_value := none,
    parameter_alert_box := "", alert_timers := 0, supervisor_config := none }

/-- The statement `fa2config[key] = e_value`; reading `e_value` while it is
unbound is a ReferenceError. -/
def assign_fa2_e_value (key : String) (w : Panel) : PanelOutcome :=
  match w.e_value with
  | none => .threw (.referenceError "e_value") w
  | some v => .done { w with fa2config := assignKey w.fa2config key (.number v) }

/-- The statement `s.settings(key, e_value)`. -/
def assign_setting_e_value (key : String) (w : Panel) : PanelOutcome :=
  match w.e_value with
  | none => .threw (.referenceError "e_value") w
  | some v => .done { w with settings := assignKey w.settings key (.number v) }

/-- Lines 331-431: the `switch` on `e.name`.  The case `slow-down` (lines
370-371) has no `break`: control falls into the case `show-labels`. -/
def change_graph_settings_switch (random : Nat → ℚ) (e : InputElement) (w : Panel) :
    PanelOutcome :=
  match e.name with
  | "gravity" => assign_fa2_e_value "gravity" w
  | "strong-gravity" =>
    .done { w with fa2config := assignKey w.fa2config "strongGravityMode" (.boolean e.checked) }
  | "edge-weight-influence" => assign_fa2_e_value "edgeWeightInfluence" w
  | "scaling-ratio" => assign_fa2_e_value "scalingRatio" w
  | "linlog-mode" =>
    .done { w with fa2config := assignKey w.fa2config "linLogMode" (.boolean e.checked) }
  | "outbound-attraction-distribution" =>
    .done { w with
      fa2config := assignKey w.fa2config "outboundAttractionDistribution" (.boolean e.checked) }
  | "adjust-sizes" =>
    .done { w with fa2config := assignKey w.fa2config "adjustSizes" (.boolean e.checked) }
  | "barnes-hut-optimise" =>
    .done { w with fa2config := assignKey w.fa2config "barnesHutOptimize" (.boolean e.checked) }
  | "barnes-hut-theta" => assign_fa2_e_value "barnesHutTheta" w
  | "slow-down" =>
    match assign_fa2_e_value "slowDown" w with
    | .threw err w1 => .threw err w1
    | .done w1 =>
      .done { w1 with settings := assignKey w1.settings "drawLabels" (.boolean e.checked) }
  | "show-labels" =>
    .done { w with settings := assignKey w.settings "drawLabels" (.boolean e.checked) }
  | "label-size" =>
    .done { w with settings := assignKey w.settings "labelSizeRatio" (.text e.value) }
  | "label-size-type" =>
    if e.checked then
      .done { w with settings := assignKey w.settings "labelSize" (.text "proportional") }
    else
      .done { w with settings := assignKey w.settings "labelSize" (.text "fixed") }
  | "label-threshold" =>
    .done { w with settings := assignKey w.settings "labelThreshold" (.text e.value) }
  | "label-colour" =>
    .done { w with settings := assignKey w.settings "defaultLabelColor" (.text e.value) }
  | "min-degree" =>
    match min_degree_filter random e.value w.page with
    | .threw err p1 => .threw err { w with page := p1 }
    | .done _ p1 => .done { w with page := p1 }
  | "min-node-size" => assign_setting_e_value "minNodeSize" w
  | "max-node-size" => assign_setting_e_value "maxNodeSize" w
  | "min-edge-size" => assign_setting_e_value "minEdgeSize" w
  | "node-colour" =>
    .done { w with settings := assignKey w.settings "defaultNodeColor" (.text e.value) }
  | "edge-colour" =>
    .done { w with settings := assignKey w.settings "defaultEdgeColor" (.text e.value) }
  | _ => .done w

/-- Lines 433-435: `s.configForceAtlas2(fa2config); s.refresh()`.  As in the
ForceAtlas2 add-on, configuring creates the supervisor when there is none,
without starting it. -/
def reinitialise (w : Panel) : Panel :=
  { w with
    page := { w.page with supervisor := some (w.page.supervisor.getD false) }.refresh
    supervisor_config := some w.fa2config }

/-- Lines 312-437. -/
def change_graph_settings (random : Nat → ℚ) (e : InputElement) (w : Panel) : PanelOutcome :=
  let validated : Panel × Bool :=
    if e.type == "number" then
      let e_value := parseFloatText e.value
      let w := { w with e_value := some e_value }
      if e_value.isNaN then
        ({ w with parameter_alert_box := "Invalid value for " ++ e.name,
                  alert_timers := w.alert_timers + 1 }, true)
      else (w, false)
    else (w, false)
  if validated.2 then .done validated.1
  else
    match change_graph_settings_switch random e validated.1 with
    | .threw err w1 => .threw err w1
    | .done w1 => .done (reinitialise w1)

/-- The names that the `switch` of lines 331-431 has a case for. -/
def handledNames : List String :=
  ["gravity", "strong-gravity", "edge-weight-influence", "scaling-ratio", "linlog-mode",
   "outbound-attraction-distribution", "adjust-sizes", "barnes-hut-optimise", "barnes-hut-theta",
   "slow-down", "show-labels", "label-size", "label-size-type", "label-threshold", "label-colour",
   "min-degree", "min-node-size", "max-node-size", "min-edge-size", "node-colour", "edge-colour"]

/-- The second object reads as the first one at every key but at most one. -/
def OneKey (o o1 : List (String × SettingValue)) : Prop :=
  ∃ k, ∀ k1, k1 ≠ k → readKey o1 k1 = readKey o k1

/-! ## More pages used as inputs -/

/-- The page showing snapshot A with the layout running. -/
def pageA_running : Page := start_force_atlas pageA

/-- The page showing snapshot A while the animation plays from index 0. -/
def pageA_playing : Page := start_animation pageA.core_json 0 pageA

/-- The page after the user moved the slider to the last position, 2, of the
series A, B on the page showing A. -/
def pageAtLast : Page := (time_slider_change half 2 pageA).page

/-- The page after a click on the animate button with the slider on the last
position. -/
def playingFromLast : Page := (animate_button_click pageAtLast).page

/-- A number input named `slow-down` holding the text 5. -/
def slowDownInput : InputElement :=
  { type := "number", name := "slow-down", value := "5", checked := false }

/-- A number input named `gravity` holding a text that is no number. -/
def invalidGravityInput : InputElement :=
  { type := "number", name := "gravity", value := "abc", checked := false }

/-- A checked checkbox named `show-labels`. -/
def showLabelsInput : InputElement :=
  { type := "checkbox", name := "show-labels", value := "on", checked := true }

/-- The panel around the page showing snapshot A after the user switched the
labels on. -/
def panelLabelsOn : Panel :=
  (change_graph_settings half showLabelsInput (Panel.initial pageA)).panel

/-! ## The graph operations -/

theorem Graph.addNode_ok {g g1 : Graph} {n : Node} (h : g.addNode n = .ok g1) :
    n.id ∉ g.nodeIds ∧ g1.nodesArray = g.nodesArray ++ [n] ∧ g1.edgesArray = g.edgesArray := by
  unfold Graph.addNode at h
  split at h
  · cases h
  · rename_i hc
    cases h
    exact ⟨by simpa using hc, rfl, rfl⟩

theorem Graph.addNode_of_not_mem {g : Graph} {n : Node} (h : n.id ∉ g.nodeIds) :
    g.addNode n = .ok { g with nodesArray := g.nodesArray ++ [n] } := by
  unfold Graph.addNode
  rw [if_neg (by simpa using h)]

theorem Graph.setNodeSize_ok {g g1 : Graph} {id : String} {v : ℚ}
    (h : g.setNodeSize id v = .ok g1) :
    id ∈ g.nodeIds ∧
    g1.nodesArray = g.nodesArray.map (fun n => if n.id == id then { n with size := v } else n) ∧
    g1.edgesArray = g.edgesArray := by
  unfold Graph.setNodeSize at h
  split at h
  · rename_i hc
    cases h
    exact ⟨by simpa using hc, rfl, rfl⟩
  · cases h

theorem Graph.setNodeSize_of_mem {g : Graph} {id : String} (v : ℚ) (h : id ∈ g.nodeIds) :
    g.setNodeSize id v = .ok { g with nodesArray :=
      (g.nodesArray.map (fun n => if n.id == id then { n with size := v } else n)) } := by
  unfold Graph.setNodeSize
  rw [if_pos (by simpa using h)]

theorem Graph.dropNode_ok {g g1 : Graph} {id : String} (h : g.dropNode id = .ok g1) :
    id ∈ g.nodeIds ∧ g1.nodesArray = g.nodesArray.eraseP (fun n => n.id == id) ∧
    g1.edgesArray = g.edgesArray.filter (fun e => !(e.source == id || e.target == id)) := by
  unfold Graph.dropNode at h
  split at h
  · rename_i hc
    cases h
    exact ⟨by simpa using hc, rfl, rfl⟩
  · cases h

theorem Graph.dropNode_of_mem {g : Graph} {id : String} (h : id ∈ g.nodeIds) :
    g.dropNode id = .ok
      { nodesArray := g.nodesArray.eraseP (fun n => n.id == id),
        edgesArray := g.edgesArray.filter (fun e => !(e.source == id || e.target == id)) } := by
  unfold Graph.dropNode
  rw [if_pos (by simpa using h)]

theorem Graph.addEdge_ok {g g1 : Graph} {e : Edge} (h : g.addEdge e = .ok g1) :
    e.source ∈ g.nodeIds ∧ e.target ∈ g.nodeIds ∧ e.id ∉ g.edgeIds ∧
    g1.nodesArray = g.nodesArray ∧ g1.edgesArray = g.edgesArray ++ [e] := by
  unfold Graph.addEdge at h
  split at h
  · cases h
  · rename_i hs
    split at h
    · cases h
    · rename_i ht
      split at h
      · cases h
      · rename_i hi
        cases h
        exact ⟨by simpa using hs, by simpa using ht, by simpa using hi, rfl, rfl⟩

theorem Graph.addEdge_of_mem {g : Graph} {e : Edge} (hs : e.source ∈ g.nodeIds)
    (ht : e.target ∈ g.nodeIds) (hi : e.id ∉ g.edgeIds) :
    g.addEdge e = .ok { g with edgesArray := g.edgesArray ++ [e] } := by
  unfold Graph.addEdge
  rw [if_neg (by simpa using hs), if_neg (by simpa using ht), if_neg (by simpa using hi)]

theorem Graph.addEdge_dangling {g : Graph} {e : Edge}
    (h : e.source ∉ g.nodeIds ∨ e.target ∉ g.nodeIds) :
    ∃ err, g.addEdge e = .error err := by
  unfold Graph.addEdge
  by_cases hs : e.source ∈ g.nodeIds
  · have ht : e.target ∉ g.nodeIds := h.resolve_left (fun h1 => h1 hs)
    rw [if_neg (by simpa using hs), if_pos (by simpa using ht)]
    exact ⟨_, rfl⟩
  · rw [if_pos (by simpa using hs)]
    exact ⟨_, rfl⟩

theorem Graph.setEdgeSize_ok {g g1 : Graph} {id : String} {v : ℚ}
    (h : g.setEdgeSize id v = .ok g1) :
    id ∈ g.edgeIds ∧ g1.nodesArray = g.nodesArray ∧
    g1.edgesArray = g.edgesArray.map (fun e => if e.id == id then { e with size := v } else e) := by
  unfold Graph.setEdgeSize at h
  split at h
  · rename_i hc
    cases h
    exact ⟨by simpa using hc, rfl, rfl⟩
  · cases h

theorem Graph.setEdgeSize_of_mem {g : Graph} {id : String} (v : ℚ) (h : id ∈ g.edgeIds) :
    g.setEdgeSize id v = .ok { g with edgesArray :=
      (g.edgesArray.map (fun e => if e.id == id then { e with size := v } else e)) } := by
  unfold Graph.setEdgeSize
  rw [if_pos (by simpa using h)]

/-! ## The page operations -/

theorem Page.addNode_page_ok {p p1 : Page} {n : Node} (h : p.addNode n = .ok p1) :
    ∃ g, p.graph.addNode n = .ok g ∧ p1 = { p with graph := g }.log (.addNode n.id) := by
  unfold Page.addNode at h
  cases hg : p.graph.addNode n with
  | error e => rw [hg] at h; cases h
  | ok g => rw [hg] at h; cases h; exact ⟨g, rfl, rfl⟩

theorem Page.setNodeSize_page_ok {p p1 : Page} {id : String} {v : ℚ}
    (h : p.setNodeSize id v = .ok p1) :
    ∃ g, p.graph.setNodeSize id v = .ok g ∧ p1 = { p with graph := g }.log (.setNodeSize id) := by
  unfold Page.setNodeSize at h
  cases hg : p.graph.setNodeSize id v with
  | error e => rw [hg] at h; cases h
  | ok g => rw [hg] at h; cases h; exact ⟨g, rfl, rfl⟩

theorem Page.dropNode_page_ok {p p1 : Page} {id : String} (h : p.dropNode id = .ok p1) :
    ∃ g, p.graph.dropNode id = .ok g ∧ p1 = { p with graph := g }.log (.dropNode id) := by
  unfold Page.dropNode at h
  cases hg : p.graph.dropNode id with
  | error e => rw [hg] at h; cases h
  | ok g => rw [hg] at h; cases h; exact ⟨g, rfl, rfl⟩

theorem Page.addEdge_page_ok {p p1 : Page} {e : Edge} (h : p.addEdge e = .ok p1) :
    ∃ g, p.graph.addEdge e = .ok g ∧ p1 = { p with graph := g }.log (.addEdge e.id) := by
  unfold Page.addEdge at h
  cases hg : p.graph.addEdge e with
  | error err => rw [hg] at h; cases h
  | ok g => rw [hg] at h; cases h; exact ⟨g, rfl, rfl⟩

theorem Page.setEdgeSize_page_ok {p p1 : Page} {id : String} {v : ℚ}
    (h : p.setEdgeSize id v = .ok p1) :
    ∃ g, p.graph.setEdgeSize id v = .ok g ∧ p1 = { p with graph := g }.log (.setEdgeSize id) := by
  unfold Page.setEdgeSize at h
  cases hg : p.graph.setEdgeSize id v with
  | error e => rw [hg] at h; cases h
  | ok g => rw [hg] at h; cases h; exact ⟨g, rfl, rfl⟩

/-! ## Properties of the graph kept by every step of `change_network` -/

theorem change_network_nodes_inv (random : Nat → ℚ) (I : Graph → Prop) (E : List String)
    (all : List NodeRecord)
    (hAdd : ∀ g r k g1, r ∈ all → r.id ∉ E →
      g.addNode { id := r.id, size := r.size, label := r.label,
                  x := some (random k * 20), y := some (random (k + 1) * 20) } = .ok g1 →
      I g → I g1)
    (hSet : ∀ g r g1, r ∈ all → r.id ∈ E →
      g.setNodeSize r.id (parseFloat r.size) = .ok g1 → I g → I g1) :
    ∀ (recs : List NodeRecord) (acc : List String) (p : Page),
      (∀ r ∈ recs, r ∈ all) → I p.graph →
      I (change_network_nodes random E recs acc p).page.graph := by
  intro recs
  induction recs with
  | nil => intro acc p _ h; simpa [change_network_nodes, Outcome.page] using h
  | cons r rest ih =>
    intro acc p hall h
    have hr : r ∈ all := hall r (List.mem_cons_self _ _)
    have hrest : ∀ r1 ∈ rest, r1 ∈ all := fun r1 h1 => hall r1 (List.mem_cons_of_mem _ h1)
    simp only [change_network_nodes]
    split
    · rename_i hc
      split
      · rename_i p1 hp1
        obtain ⟨g, hg, rfl⟩ := Page.addNode_page_ok hp1
        exact ih _ _ hrest (hAdd _ r _ _ hr (by simpa using hc) hg h)
      · simpa [Outcome.page] using h
    · rename_i hc
      split
      · rename_i p1 hp1
        obtain ⟨g, hg, rfl⟩ := Page.setNodeSize_page_ok hp1
        exact ih _ _ hrest (hSet _ r _ hr (by simpa using hc) hg h)
      · simpa [Outcome.page] using h

theorem change_network_clean_inv (I : Graph → Prop) (added : List String)
    (hDrop : ∀ g id g1, id ∉ added → g.dropNode id = .ok g1 → I g → I g1) :
    ∀ (ids : List String) (p : Page), I p.graph →
      I (change_network_clean added ids p).page.graph := by
  intro ids
  induction ids with
  | nil => intro p h; simpa [change_network_clean, Outcome.page] using h
  | cons id rest ih =>
    intro p h
    simp only [change_network_clean]
    split
    · rename_i hc
      split
      · simpa [Outcome.page] using h
      · split
        · rename_i p1 hp1
          obtain ⟨g, hg, rfl⟩ := Page.dropNode_page_ok hp1
          exact ih _ (hDrop _ id _ (by simpa using hc) hg h)
        · simpa [Outcome.page] using h
    · exact ih _ h

theorem change_network_edges_inv (I : Graph → Prop) (existing : List String)
    (all : List EdgeRecord)
    (hAdd : ∀ g r g1, r ∈ all → r.id ∉ existing → g.addEdge r.toEdge = .ok g1 → I g → I g1)
    (hSet : ∀ g r g1, r ∈ all → r.id ∈ existing →
      g.setEdgeSize r.id (parseFloat r.size) = .ok g1 → I g → I g1) :
    ∀ (recs : List EdgeRecord) (acc : List String) (p : Page),
      (∀ r ∈ recs, r ∈ all) → I p.graph →
      I (change_network_edges existing recs acc p).page.graph := by
  intro recs
  induction recs with
  | nil => intro acc p _ h; simpa [change_network_edges, Outcome.page] using h
  | cons r rest ih =>
    intro acc p hall h
    have hr : r ∈ all := hall r (List.mem_cons_self _ _)
    have hrest : ∀ r1 ∈ rest, r1 ∈ all := fun r1 h1 => hall r1 (List.mem_cons_of_mem _ h1)
    simp only [change_network_edges]
    split
    · rename_i hc
      split
      · rename_i p1 hp1
        obtain ⟨g, hg, rfl⟩ := Page.addEdge_page_ok hp1
        exact ih _ _ hrest (hAdd _ r _ hr (by simpa using hc) hg h)
      · simpa [Outcome.page] using h
    · rename_i hc
      split
      · rename_i p1 hp1
        obtain ⟨g, hg, rfl⟩ := Page.setEdgeSize_page_ok hp1
        exact ih _ _ hrest (hSet _ r _ hr (by simpa using hc) hg h)
      · simpa [Outcome.page] using h

/-- The body of `change_network`, with the test of the property
`s.isForceAtlas2Running` evaluated: the method is a function object, the test
succeeds whatever the state of the layout. -/
theorem change_network_eq (random : Nat → ℚ) (t : Snapshot) (p : Page) :
    change_network random (some t) p =
      match change_network_nodes random p.graph.nodeIds t.nodes []
          (stop_force_atlas p).killForceAtlas2 with
      | .threw e p1 => .threw e p1
      | .done nodes_added p1 =>
        match change_network_clean nodes_added p.graph.nodeIds p1 with
        | .threw e p2 => .threw e p2
        | .done _ p2 =>
          match change_network_edges p2.graph.edgeIds t.edges [] p2 with
          | .threw e p3 => .threw e p3
          | .done _ p3 => .done () (start_force_atlas p3.refresh) := rfl

theorem change_network_nodes_added (random : Nat → ℚ) (E : List String) :
    ∀ (recs : List NodeRecord) (acc : List String) (p p1 : Page) (added : List String),
      change_network_nodes random E recs acc p = .done added p1 →
      added = acc ++ recs.map (·.id) := by
  intro recs
  induction recs with
  | nil =>
    intro acc p p1 added h
    simp only [change_network_nodes] at h
    cases h
    simp
  | cons r rest ih =>
    intro acc p p1 added h
    simp only [change_network_nodes] at h
    split at h
    · split at h
      · rw [ih _ _ _ _ h]; simp
      · cases h
    · split at h
      · rw [ih _ _ _ _ h]; simp
      · cases h

/-- A property of the graph that every mutation made by `change_network` keeps
holds of the graph the call leaves, whether it returns or throws.  The
mutations are given with what is known at their call site. -/
theorem change_network_graph_inv (random : Nat → ℚ) (I : Graph → Prop) (t : Snapshot) (p : Page)
    (hAddN : ∀ g r k g1, r ∈ t.nodes → r.id ∉ p.graph.nodeIds →
      g.addNode { id := r.id, size := r.size, label := r.label,
                  x := some (random k * 20), y := some (random (k + 1) * 20) } = .ok g1 →
      I g → I g1)
    (hSetN : ∀ g r g1, r ∈ t.nodes → r.id ∈ p.graph.nodeIds →
      g.setNodeSize r.id (parseFloat r.size) = .ok g1 → I g → I g1)
    (hDrop : ∀ g id g1, id ∉ t.nodes.map (·.id) → g.dropNode id = .ok g1 → I g → I g1)
    (hAddE : ∀ g r g1, r ∈ t.edges → g.addEdge r.toEdge = .ok g1 → I g → I g1)
    (hSetE : ∀ g r g1, r ∈ t.edges →
      g.setEdgeSize r.id (parseFloat r.size) = .ok g1 → I g → I g1)
    (h : I p.graph) :
    I (change_network random (some t) p).page.graph := by
  rw [change_network_eq]
  have h1 := change_network_nodes_inv random I p.graph.nodeIds t.nodes hAddN hSetN
    t.nodes [] (stop_force_atlas p).killForceAtlas2 (fun _ hr => hr) h
  cases hn : change_network_nodes random p.graph.nodeIds t.nodes []
      (stop_force_atlas p).killForceAtlas2 with
  | threw e p1 => rw [hn] at h1; exact h1
  | done added p1 =>
    rw [hn] at h1
    have hadded := change_network_nodes_added random _ _ _ _ _ _ hn
    simp only [List.nil_append] at hadded
    subst hadded
    have h2 := change_network_clean_inv I (t.nodes.map (·.id)) hDrop p.graph.nodeIds p1 h1
    cases hc : change_network_clean (t.nodes.map (·.id)) p.graph.nodeIds p1 with
    | threw e p2 => rw [hc] at h2; simpa only [hc] using h2
    | done u p2 =>
      rw [hc] at h2
      have h3 := change_network_edges_inv I p2.graph.edgeIds t.edges
        (fun g r g1 hr _ => hAddE g r g1 hr) (fun g r g1 hr _ => hSetE g r g1 hr)
        t.edges [] p2 (fun _ hr => hr) h2
      cases he : change_network_edges p2.graph.edgeIds t.edges [] p2 with
      | threw e p3 => rw [he] at h3; simpa only [hc, he] using h3
      | done u3 p3 => rw [he] at h3; simpa only [hc, he] using h3

/-! ## No dangling edges -/

theorem Graph.noDangling_addNode {g g1 : Graph} {n : Node} (h : g.addNode n = .ok g1)
    (hg : g.NoDangling) : g1.NoDangling := by
  obtain ⟨_, hn, he⟩ := Graph.addNode_ok h
  intro e hmem
  rw [he] at hmem
  have := hg e hmem
  simp only [Graph.nodeIds, hn, List.map_append, List.mem_append]
  exact ⟨Or.inl this.1, Or.inl this.2⟩

theorem Graph.setNodeSize_nodeIds {g g1 : Graph} {id : String} {v : ℚ}
    (h : g.setNodeSize id v = .ok g1) : g1.nodeIds = g.nodeIds := by
  obtain ⟨_, hn, _⟩ := Graph.setNodeSize_ok h
  simp only [Graph.nodeIds, hn, List.map_map]
  apply List.map_congr_left
  intro n _
  simp only [Function.comp]
  split <;> rfl

theorem Graph.setEdgeSize_edgeIds {g g1 : Graph} {id : String} {v : ℚ}
    (h : g.setEdgeSize id v = .ok g1) : g1.edgeIds = g.edgeIds := by
  obtain ⟨_, _, he⟩ := Graph.setEdgeSize_ok h
  simp only [Graph.edgeIds, he, List.map_map]
  apply List.map_congr_left
  intro n _
  simp only [Function.comp]
  split <;> rfl

theorem Graph.noDangling_setNodeSize {g g1 : Graph} {id : String} {v : ℚ}
    (h : g.setNodeSize id v = .ok g1) (hg : g.NoDangling) : g1.NoDangling := by
  intro e hmem
  rw [Graph.setNodeSize_nodeIds h]
  rw [(Graph.setNodeSize_ok h).2.2] at hmem
  exact hg e hmem

theorem Graph.dropNode_mem_nodeIds {g g1 : Graph} {id x : String}
    (h : g.dropNode id = .ok g1) (hx : x ∈ g.nodeIds) (hne : x ≠ id) : x ∈ g1.nodeIds := by
  obtain ⟨_, hn, _⟩ := Graph.dropNode_ok h
  simp only [Graph.nodeIds, List.mem_map] at hx ⊢
  obtain ⟨n, hnmem, rfl⟩ := hx
  refine ⟨n, ?_, rfl⟩
  rw [hn]
  exact (List.mem_eraseP_of_neg (by simpa using hne)).2 hnmem

theorem Graph.noDangling_dropNode {g g1 : Graph} {id : String}
    (h : g.dropNode id = .ok g1) (hg : g.NoDangling) : g1.NoDangling := by
  intro e hmem
  rw [(Graph.dropNode_ok h).2.2] at hmem
  simp only [List.mem_filter, Bool.not_eq_true', Bool.or_eq_false_iff, beq_eq_false_iff_ne,
    ne_eq] at hmem
  obtain ⟨hmem, hs, ht⟩ := hmem
  exact ⟨Graph.dropNode_mem_nodeIds h (hg e hmem).1 hs,
    Graph.dropNode_mem_nodeIds h (hg e hmem).2 ht⟩

theorem Graph.noDangling_addEdge {g g1 : Graph} {e : Edge} (h : g.addEdge e = .ok g1)
    (hg : g.NoDangling) : g1.NoDangling := by
  obtain ⟨hs, ht, _, hn, he⟩ := Graph.addEdge_ok h
  intro e1 hmem
  simp only [Graph.nodeIds, hn]
  rw [he, List.mem_append, List.mem_singleton] at hmem
  rcases hmem with hmem | rfl
  · exact hg e1 hmem
  · exact ⟨hs, ht⟩

theorem Graph.noDangling_setEdgeSize {g g1 : Graph} {id : String} {v : ℚ}
    (h : g.setEdgeSize id v = .ok g1) (hg : g.NoDangling) : g1.NoDangling := by
  obtain ⟨_, hn, he⟩ := Graph.setEdgeSize_ok h
  intro e1 hmem
  simp only [Graph.nodeIds, hn]
  rw [he, List.mem_map] at hmem
  obtain ⟨e0, hmem0, rfl⟩ := hmem
  have := hg e0 hmem0
  split <;> exact this

theorem change_network_noDangling (random : Nat → ℚ) (t : Snapshot) (p : Page)
    (h : p.graph.NoDangling) : (change_network random (some t) p).page.graph.NoDangling :=
  change_network_graph_inv random Graph.NoDangling t p
    (fun _ _ _ _ _ _ hg => Graph.noDangling_addNode hg)
    (fun _ _ _ _ _ hg => Graph.noDangling_setNodeSize hg)
    (fun _ _ _ _ hg => Graph.noDangling_dropNode hg)
    (fun _ _ _ _ hg => Graph.noDangling_addEdge hg)
    (fun _ _ _ _ hg => Graph.noDangling_setEdgeSize hg) h

theorem change_network_all_noDangling (random : Nat → ℚ) :
    ∀ (ts : List Snapshot) (p : Page), p.graph.NoDangling →
      (change_network_all random ts p).graph.NoDangling := by
  intro ts
  induction ts with
  | nil => intro p h; exact h
  | cons t rest ih =>
    intro p h
    exact ih _ (change_network_noDangling random t p h)

/-! ## Rendering a snapshot -/

theorem Graph.readNodes_ok :
    ∀ (recs : List NodeRecord) (g : Graph), (recs.map (·.id)).Nodup →
      (∀ r ∈ recs, r.id ∉ g.nodeIds) →
      Graph.readNodes recs g = .ok { g with nodesArray := g.nodesArray ++ recs.map (·.toNode) } := by
  intro recs
  induction recs with
  | nil => intro g _ _; simp [Graph.readNodes]
  | cons r rest ih =>
    intro g hnd hnew
    rw [List.map_cons, List.nodup_cons] at hnd
    have hr : r.toNode.id ∉ g.nodeIds := hnew r (List.mem_cons_self _ _)
    simp only [Graph.readNodes, Graph.addNode_of_not_mem hr]
    rw [ih _ hnd.2]
    · simp
    · intro r1 hr1
      simp only [Graph.nodeIds, List.map_append, List.mem_append, List.map_cons, List.map_nil,
        List.mem_singleton, not_or]
      refine ⟨hnew r1 (List.mem_cons_of_mem _ hr1), ?_⟩
      intro heq
      exact hnd.1 (List.mem_map.2 ⟨r1, hr1, heq⟩)

theorem Graph.readEdges_ok :
    ∀ (recs : List EdgeRecord) (g : Graph), (recs.map (·.id)).Nodup →
      (∀ r ∈ recs, r.id ∉ g.edgeIds) →
      (∀ r ∈ recs, r.source ∈ g.nodeIds ∧ r.target ∈ g.nodeIds) →
      Graph.readEdges recs g = .ok { g with edgesArray := g.edgesArray ++ recs.map (·.toEdge) } := by
  intro recs
  induction recs with
  | nil => intro g _ _ _; simp [Graph.readEdges]
  | cons r rest ih =>
    intro g hnd hnew hcl
    rw [List.map_cons, List.nodup_cons] at hnd
    have hr : r.toEdge.id ∉ g.edgeIds := hnew r (List.mem_cons_self _ _)
    have hst := hcl r (List.mem_cons_self _ _)
    simp only [Graph.readEdges, Graph.addEdge_of_mem (e := r.toEdge) hst.1 hst.2 hr]
    rw [ih _ hnd.2]
    · simp
    · intro r1 hr1
      simp only [Graph.edgeIds, List.map_append, List.mem_append, List.map_cons, List.map_nil,
        List.mem_singleton, not_or]
      refine ⟨hnew r1 (List.mem_cons_of_mem _ hr1), ?_⟩
      intro heq
      exact hnd.1 (List.mem_map.2 ⟨r1, hr1, heq⟩)
    · intro r1 hr1
      exact hcl r1 (List.mem_cons_of_mem _ hr1)

/-- The graph sigma holds after reading a snapshot. -/
theorem render_new_network_valid (json : Snapshot) (p : Page) (h : json.Valid) :
    render_new_network (some json) p =
      .done () ({ p with graph := json.toGraph, supervisor := none }.refresh) := by
  obtain ⟨hn, he, hc⟩ := h
  have h1 := Graph.readNodes_ok json.nodes Graph.empty hn (by simp [Graph.empty, Graph.nodeIds])
  have h2 := Graph.readEdges_ok json.edges
    { Graph.empty with nodesArray := Graph.empty.nodesArray ++ json.nodes.map (·.toNode) } he
    (by simp [Graph.empty, Graph.edgeIds])
    (by
      intro r hr
      have := hc r hr
      simpa [Graph.empty, Graph.nodeIds, NodeRecord.toNode, Function.comp] using this)
  simp only [render_new_network, h1, h2]
  simp [Graph.empty, Snapshot.toGraph]

theorem rendered_noDangling (json : Snapshot) (h : json.Closed) :
    json.toGraph.NoDangling := by
  intro e he
  simp only [Snapshot.toGraph, List.mem_map] at he
  obtain ⟨r, hr, rfl⟩ := he
  have := h r hr
  simpa [Snapshot.toGraph, Graph.nodeIds, NodeRecord.toNode, EdgeRecord.toEdge,
    Function.comp] using this

/-! ## When the loops of `change_network` run to their end -/

theorem Page.addNode_page_of_not_mem {p : Page} {n : Node} (h : n.id ∉ p.graph.nodeIds) :
    p.addNode n = .ok ({ p with graph :=
      { p.graph with nodesArray := p.graph.nodesArray ++ [n] } }.log (.addNode n.id)) := by
  unfold Page.addNode
  rw [Graph.addNode_of_not_mem h]
  rfl

theorem Page.setNodeSize_page_of_mem {p : Page} {id : String} (v : ℚ)
    (h : id ∈ p.graph.nodeIds) :
    p.setNodeSize id v = .ok ({ p with graph :=
      { p.graph with nodesArray :=
        (p.graph.nodesArray.map (fun (n : Node) => if n.id == id then { n with size := v } else n)) } }.log
      (.setNodeSize id)) := by
  unfold Page.setNodeSize
  rw [Graph.setNodeSize_of_mem v h]
  rfl

theorem Page.dropNode_page_of_mem {p : Page} {id : String} (h : id ∈ p.graph.nodeIds) :
    p.dropNode id = .ok ({ p with graph :=
      { nodesArray := p.graph.nodesArray.eraseP (fun n => n.id == id),
        edgesArray := p.graph.edgesArray.filter
          (fun e => !(e.source == id || e.target == id)) } }.log (.dropNode id)) := by
  unfold Page.dropNode
  rw [Graph.dropNode_of_mem h]
  rfl

theorem Page.addEdge_page_of_mem {p : Page} {e : Edge} (hs : e.source ∈ p.graph.nodeIds)
    (ht : e.target ∈ p.graph.nodeIds) (hi : e.id ∉ p.graph.edgeIds) :
    p.addEdge e = .ok ({ p with graph :=
      { p.graph with edgesArray := p.graph.edgesArray ++ [e] } }.log (.addEdge e.id)) := by
  unfold Page.addEdge
  rw [Graph.addEdge_of_mem hs ht hi]
  rfl

theorem Page.setEdgeSize_page_of_mem {p : Page} {id : String} (v : ℚ)
    (h : id ∈ p.graph.edgeIds) :
    p.setEdgeSize id v = .ok ({ p with graph :=
      { p.graph with edgesArray :=
        (p.graph.edgesArray.map (fun (e : Edge) => if e.id == id then { e with size := v } else e)) } }.log
      (.setEdgeSize id)) := by
  unfold Page.setEdgeSize
  rw [Graph.setEdgeSize_of_mem v h]
  rfl

theorem Graph.nodeIds_eq_placed (g : Graph) :
    g.nodeIds = (g.nodesArray.map Node.placed).map (·.1) := by
  simp [Graph.nodeIds, Node.placed, Function.comp]

theorem placed_map_setSize (l : List Node) (id : String) (v : ℚ) :
    (l.map (fun (n : Node) => if n.id == id then { n with size := v } else n)).map Node.placed
      = l.map Node.placed := by
  rw [List.map_map]
  apply List.map_congr_left
  intro n _
  simp only [Function.comp]
  split <;> rfl

theorem edgeIds_map_setSize (l : List Edge) (id : String) (v : ℚ) :
    (l.map (fun (e : Edge) => if e.id == id then { e with size := v } else e)).map (·.id)
      = l.map (·.id) := by
  rw [List.map_map]
  apply List.map_congr_left
  intro n _
  simp only [Function.comp]
  split <;> rfl

theorem nodeIds_map_setSize (l : List Node) (id : String) (v : ℚ) :
    (l.map (fun (n : Node) => if n.id == id then { n with size := v } else n)).map (·.id)
      = l.map (·.id) := by
  rw [List.map_map]
  apply List.map_congr_left
  intro n _
  simp only [Function.comp]
  split <;> rfl

/-- The node loop runs to its end when the ids it has to add are new to the
graph and distinct; it appends the new nodes and resizes the others, and leaves
ids and coordinates of the nodes already there, and all edges, as they were. -/
theorem change_network_nodes_done (random : Nat → ℚ) (E : List String) :
    ∀ (recs : List NodeRecord) (acc : List String) (p : Page),
      (∀ id ∈ E, id ∈ p.graph.nodeIds) →
      (∀ r ∈ recs, r.id ∉ E → r.id ∉ p.graph.nodeIds) →
      ((recs.filter (fun r => !E.contains r.id)).map (·.id)).Nodup →
      ∃ p1 extra, change_network_nodes random E recs acc p
          = .done (acc ++ recs.map (·.id)) p1 ∧
        p1.graph.nodesArray.map Node.placed = p.graph.nodesArray.map Node.placed ++ extra ∧
        extra.map (·.1) = (recs.filter (fun r => !E.contains r.id)).map (·.id) ∧
        p1.graph.edgesArray = p.graph.edgesArray ∧
        p1.delete_node_ids = p.delete_node_ids := by
  intro recs
  induction recs with
  | nil =>
    intro acc p _ _ _
    exact ⟨p, [], by simp [change_network_nodes], by simp, by simp, rfl, rfl⟩
  | cons r rest ih =>
    intro acc p hE hnew hnd
    by_cases hr : r.id ∈ E
    · have hin : r.id ∈ p.graph.nodeIds := hE _ hr
      have hf : (List.filter (fun r => !E.contains r.id) (r :: rest))
          = List.filter (fun r => !E.contains r.id) rest := by
        rw [List.filter_cons_of_neg (by simpa using hr)]
      rw [hf] at hnd
      obtain ⟨p1, extra, h1, h2, h3, h4, h5⟩ := ih (acc ++ [r.id])
        ({ p with graph := { p.graph with nodesArray :=
            (p.graph.nodesArray.map
              (fun (n : Node) =>
                if n.id == r.id then { n with size := parseFloat r.size } else n)) } }.log
          (.setNodeSize r.id))
        (by
          intro id hid
          simpa only [Page.log, Graph.nodeIds, nodeIds_map_setSize] using hE id hid)
        (by
          intro r1 hr1 hr1E
          simpa only [Page.log, Graph.nodeIds, nodeIds_map_setSize]
            using hnew r1 (List.mem_cons_of_mem _ hr1) hr1E)
        hnd
      refine ⟨p1, extra, ?_, ?_, ?_, ?_, ?_⟩
      · simp only [change_network_nodes]
        rw [if_neg (by simpa using hr), Page.setNodeSize_page_of_mem _ hin]
        simpa using h1
      · simpa only [Page.log, placed_map_setSize] using h2
      · rw [hf]; exact h3
      · simpa only [Page.log] using h4
      · simpa only [Page.log] using h5
    · have hnot : r.id ∉ p.graph.nodeIds := hnew r (List.mem_cons_self _ _) hr
      have hf : (List.filter (fun r => !E.contains r.id) (r :: rest))
          = r :: List.filter (fun r => !E.contains r.id) rest := by
        rw [List.filter_cons_of_pos (by simpa using hr)]
      rw [hf, List.map_cons, List.nodup_cons] at hnd
      obtain ⟨p1, extra, h1, h2, h3, h4, h5⟩ := ih (acc ++ [r.id])
        ({ { p with random_calls := p.random_calls + 2 } with graph :=
            { p.graph with nodesArray := p.graph.nodesArray ++
              [({ id := r.id, size := r.size, label := r.label,
                  x := some (random p.random_calls * 20),
                  y := some (random (p.random_calls + 1) * 20) } : Node)] } }.log (.addNode r.id))
        (by
          intro id hid
          simp only [Page.log, Graph.nodeIds, List.map_append, List.mem_append]
          exact Or.inl (hE id hid))
        (by
          intro r1 hr1 hr1E
          have h1 := hnew r1 (List.mem_cons_of_mem _ hr1) hr1E
          have h2 : r1.id ≠ r.id := by
            intro heq
            apply hnd.1
            rw [← heq]
            exact List.mem_map_of_mem _ (List.mem_filter.2 ⟨hr1, by simpa using hr1E⟩)
          simp only [Page.log, Graph.nodeIds, List.map_append, List.mem_append, List.map_cons,
            List.map_nil, List.mem_singleton, not_or]
          exact ⟨h1, h2⟩)
        hnd.2
      refine ⟨p1, (r.id, some (random p.random_calls * 20),
        some (random (p.random_calls + 1) * 20)) :: extra, ?_, ?_, ?_, ?_, ?_⟩
      · simp only [change_network_nodes]
        rw [if_pos (by simpa using hr)]
        rw [Page.addNode_page_of_not_mem (p := { p with random_calls := p.random_calls + 2 })
          (by simpa using hnot)]
        simpa using h1
      · simpa only [Page.log, List.map_append, List.map_cons, List.map_nil,
          List.append_assoc, List.singleton_append] using h2
      · rw [hf]; simp [h3, Node.placed]
      · simpa only [Page.log] using h4
      · simpa only [Page.log] using h5

theorem nodeIds_eraseP (l : List Node) (id : String) :
    (l.eraseP (fun n => n.id == id)).map (·.id) = (l.map (·.id)).erase id := by
  induction l with
  | nil => rfl
  | cons n rest ih =>
    by_cases h : n.id = id
    · simp [List.eraseP_cons, List.erase_cons, h]
    · simp [List.eraseP_cons, List.erase_cons, h, ih]

theorem Graph.dropNode_nodeIds {g g1 : Graph} {id : String} (h : g.dropNode id = .ok g1) :
    g1.nodeIds = g.nodeIds.erase id := by
  simp only [Graph.nodeIds, (Graph.dropNode_ok h).2.1, nodeIds_eraseP]

/-- With `delete_node_ids` unbound the cleaning loop changes nothing: it
returns when no displayed id is missing from the target and throws at the
first one that is, before the drop. -/
theorem change_network_clean_unbound (added : List String) :
    ∀ (ids : List String) (p : Page), p.delete_node_ids = none →
      (change_network_clean added ids p).page = p ∧
      ((change_network_clean added ids p).completed = true ↔ ∀ id ∈ ids, id ∈ added) := by
  intro ids
  induction ids with
  | nil => intro p _; simp [change_network_clean, Outcome.page, Outcome.completed]
  | cons id rest ih =>
    intro p hp
    by_cases hid : id ∈ added
    · simp only [change_network_clean]
      rw [if_neg (by simpa using hid)]
      refine ⟨(ih p hp).1, ?_⟩
      rw [(ih p hp).2]
      simp [hid]
    · simp only [change_network_clean]
      rw [if_pos (by simpa using hid)]
      simp [hp, Outcome.page, Outcome.completed, hid]

/-- When every displayed id is in the target the cleaning loop returns at once. -/
theorem change_network_clean_nothing (added : List String) :
    ∀ (ids : List String) (p : Page), (∀ id ∈ ids, id ∈ added) →
      change_network_clean added ids p = .done () p := by
  intro ids
  induction ids with
  | nil => intro p _; simp [change_network_clean]
  | cons id rest ih =>
    intro p h
    simp only [change_network_clean]
    rw [if_neg (by simpa using h id (List.mem_cons_self _ _))]
    exact ih p (fun x hx => h x (List.mem_cons_of_mem _ hx))

/-- With `delete_node_ids` bound the cleaning loop returns, having dropped
exactly the listed nodes that are missing from the target. -/
theorem change_network_clean_bound (added : List String) :
    ∀ (ids : List String) (p : Page), p.delete_node_ids.isSome = true →
      p.graph.nodeIds.Nodup → ids.Nodup → (∀ id ∈ ids, id ∈ p.graph.nodeIds) →
      ∃ p2, change_network_clean added ids p = .done () p2 ∧
        p2.delete_node_ids.isSome = true ∧ p2.graph.nodeIds.Nodup ∧
        (∀ x, x ∈ p2.graph.nodeIds ↔ x ∈ p.graph.nodeIds ∧ (x ∈ ids → x ∈ added)) ∧
        (∀ e ∈ p2.graph.edgesArray, e ∈ p.graph.edgesArray) := by
  intro ids
  induction ids with
  | nil =>
    intro p hp hnd _ _
    exact ⟨p, by simp [change_network_clean], hp, hnd, by simp, fun e he => he⟩
  | cons id rest ih =>
    intro p hp hnd hids hmem
    rw [List.nodup_cons] at hids
    by_cases hid : id ∈ added
    · obtain ⟨p2, h1, h2, h3, h4, h5⟩ := ih p hp hnd hids.2
        (fun x hx => hmem x (List.mem_cons_of_mem _ hx))
      refine ⟨p2, ?_, h2, h3, ?_, h5⟩
      · simp only [change_network_clean]
        rw [if_neg (by simpa using hid)]
        exact h1
      · intro x
        rw [h4 x]
        constructor
        · rintro ⟨hx, hrest⟩
          refine ⟨hx, ?_⟩
          intro hx1
          rcases List.mem_cons.1 hx1 with rfl | hx2
          · exact hid
          · exact hrest hx2
        · rintro ⟨hx, hrest⟩
          exact ⟨hx, fun hx2 => hrest (List.mem_cons_of_mem _ hx2)⟩
    · obtain ⟨ids0, hids0⟩ := Option.isSome_iff_exists.1 hp
      have hin : id ∈ p.graph.nodeIds := hmem id (List.mem_cons_self _ _)
      have hdrop := Graph.dropNode_of_mem hin
      have hids1 := Graph.dropNode_nodeIds hdrop
      obtain ⟨p2, h1, h2, h3, h4, h5⟩ := ih
        ({ { p with delete_node_ids := some (ids0 ++ [id]) } with graph :=
            { nodesArray := p.graph.nodesArray.eraseP (fun n => n.id == id),
              edgesArray := p.graph.edgesArray.filter
                (fun e => !(e.source == id || e.target == id)) } }.log (.dropNode id))
        (by simp [Page.log])
        (by
          simp only [Page.log]
          rw [hids1]
          exact hnd.erase _)
        hids.2
        (by
          intro x hx
          simp only [Page.log]
          rw [hids1, hnd.mem_erase_iff]
          refine ⟨?_, hmem x (List.mem_cons_of_mem _ hx)⟩
          rintro rfl
          exact hids.1 hx)
      refine ⟨p2, ?_, h2, h3, ?_, ?_⟩
      · simp only [change_network_clean]
        rw [if_pos (by simpa using hid)]
        simp only [hids0]
        rw [Page.dropNode_page_of_mem (p := { p with delete_node_ids := some (ids0 ++ [id]) })
          (by simpa using hin)]
        exact h1
      · intro x
        rw [h4 x]
        simp only [Page.log]
        rw [hids1, hnd.mem_erase_iff]
        constructor
        · rintro ⟨⟨hne, hx⟩, hrest⟩
          refine ⟨hx, ?_⟩
          intro hx1
          rcases List.mem_cons.1 hx1 with rfl | hx2
          · exact absurd rfl hne
          · exact hrest hx2
        · rintro ⟨hx, hrest⟩
          refine ⟨⟨?_, hx⟩, fun hx2 => hrest (List.mem_cons_of_mem _ hx2)⟩
          rintro rfl
          exact hid (hrest (List.mem_cons_self _ _))
      · intro e he
        have := h5 e he
        simp only [Page.log] at this
        exact (List.mem_filter.1 this).1

/-- The edge loop runs to its end when the ids it has to add are new to the
graph and distinct and the endpoints of the edges to add are displayed; it
leaves the nodes as they were and appends the new edge ids. -/
theorem change_network_edges_done (existing : List String) :
    ∀ (recs : List EdgeRecord) (acc : List String) (p : Page),
      (∀ id ∈ existing, id ∈ p.graph.edgeIds) →
      (∀ r ∈ recs, r.id ∉ existing → r.id ∉ p.graph.edgeIds) →
      ((recs.filter (fun r => !existing.contains r.id)).map (·.id)).Nodup →
      (∀ r ∈ recs, r.id ∉ existing →
        r.source ∈ p.graph.nodeIds ∧ r.target ∈ p.graph.nodeIds) →
      ∃ p3, change_network_edges existing recs acc p = .done (acc ++ recs.map (·.id)) p3 ∧
        p3.graph.nodesArray = p.graph.nodesArray ∧
        p3.graph.edgeIds = p.graph.edgeIds ++
          (recs.filter (fun r => !existing.contains r.id)).map (·.id) ∧
        p3.delete_node_ids = p.delete_node_ids := by
  intro recs
  induction recs with
  | nil =>
    intro acc p _ _ _ _
    exact ⟨p, by simp [change_network_edges], rfl, by simp, rfl⟩
  | cons r rest ih =>
    intro acc p hE hnew hnd hcl
    by_cases hr : r.id ∈ existing
    · have hin : r.id ∈ p.graph.edgeIds := hE _ hr
      have hf : (List.filter (fun r => !existing.contains r.id) (r :: rest))
          = List.filter (fun r => !existing.contains r.id) rest := by
        rw [List.filter_cons_of_neg (by simpa using hr)]
      rw [hf] at hnd
      obtain ⟨p3, h1, h2, h3, h4⟩ := ih (acc ++ [r.id])
        ({ p with graph := { p.graph with edgesArray :=
            (p.graph.edgesArray.map
              (fun (e : Edge) =>
                if e.id == r.id then { e with size := parseFloat r.size } else e)) } }.log
          (.setEdgeSize r.id))
        (by
          intro id hid
          simpa only [Page.log, Graph.edgeIds, edgeIds_map_setSize] using hE id hid)
        (by
          intro r1 hr1 hr1E
          simpa only [Page.log, Graph.edgeIds, edgeIds_map_setSize]
            using hnew r1 (List.mem_cons_of_mem _ hr1) hr1E)
        hnd
        (by
          intro r1 hr1 hr1E
          simpa only [Page.log, Graph.nodeIds] using hcl r1 (List.mem_cons_of_mem _ hr1) hr1E)
      refine ⟨p3, ?_, ?_, ?_, ?_⟩
      · simp only [change_network_edges]
        rw [if_neg (by simpa using hr), Page.setEdgeSize_page_of_mem _ hin]
        simpa using h1
      · simpa only [Page.log] using h2
      · rw [hf, h3]
        simp only [Page.log, Graph.edgeIds, edgeIds_map_setSize]
      · simpa only [Page.log] using h4
    · have hnot : r.id ∉ p.graph.edgeIds := hnew r (List.mem_cons_self _ _) hr
      have hst := hcl r (List.mem_cons_self _ _) hr
      have hf : (List.filter (fun r => !existing.contains r.id) (r :: rest))
          = r :: List.filter (fun r => !existing.contains r.id) rest := by
        rw [List.filter_cons_of_pos (by simpa using hr)]
      rw [hf, List.map_cons, List.nodup_cons] at hnd
      obtain ⟨p3, h1, h2, h3, h4⟩ := ih (acc ++ [r.id])
        ({ p with graph := { p.graph with edgesArray := p.graph.edgesArray ++
              [({ id := r.id, label := r.label, size := r.size, source := r.source,
                  target := r.target } : Edge)] } }.log (.addEdge r.id))
        (by
          intro id hid
          simp only [Page.log, Graph.edgeIds, List.map_append, List.mem_append]
          exact Or.inl (hE id hid))
        (by
          intro r1 hr1 hr1E
          have h1 := hnew r1 (List.mem_cons_of_mem _ hr1) hr1E
          have h2 : r1.id ≠ r.id := by
            intro heq
            apply hnd.1
            rw [← heq]
            exact List.mem_map_of_mem _ (List.mem_filter.2 ⟨hr1, by simpa using hr1E⟩)
          simp only [Page.log, Graph.edgeIds, List.map_append, List.mem_append, List.map_cons,
            List.map_nil, List.mem_singleton, not_or]
          exact ⟨h1, h2⟩)
        hnd.2
        (by
          intro r1 hr1 hr1E
          simpa only [Page.log, Graph.nodeIds] using hcl r1 (List.mem_cons_of_mem _ hr1) hr1E)
      refine ⟨p3, ?_, ?_, ?_, ?_⟩
      · simp only [change_network_edges]
        rw [if_pos (by simpa using hr)]
        have hadd := Page.addEdge_page_of_mem (p := p) (e := r.toEdge) hst.1 hst.2 hnot
        simp only [EdgeRecord.toEdge] at hadd
        rw [hadd]
        simpa using h1
      · simpa only [Page.log] using h2
      · rw [hf, h3]
        simp [Page.log, Graph.edgeIds]
      · simpa only [Page.log] using h4

/-- The edge loop throws when it meets an edge to add whose source or target
is not displayed; it never gets past such an edge. -/
theorem change_network_edges_dangling (existing : List String) :
    ∀ (recs : List EdgeRecord) (acc : List String) (p : Page),
      (∃ r ∈ recs, r.id ∉ existing ∧
        (r.source ∉ p.graph.nodeIds ∨ r.target ∉ p.graph.nodeIds)) →
      (change_network_edges existing recs acc p).completed = false := by
  intro recs
  induction recs with
  | nil => intro acc p h; obtain ⟨r, hr, _⟩ := h; cases hr
  | cons r0 rest ih =>
    intro acc p h
    obtain ⟨r, hr, hnew, hdang⟩ := h
    simp only [change_network_edges]
    split
    · rename_i hc
      split
      · rename_i p1 hp1
        obtain ⟨g, hg, rfl⟩ := Page.addEdge_page_ok hp1
        rcases List.mem_cons.1 hr with rfl | hr1
        · obtain ⟨err, herr⟩ := Graph.addEdge_dangling (g := p.graph) (e := r.toEdge) hdang
          simp only [EdgeRecord.toEdge] at herr
          rw [herr] at hg
          cases hg
        · apply ih
          refine ⟨r, hr1, hnew, ?_⟩
          simpa only [Page.log, Graph.nodeIds, (Graph.addEdge_ok hg).2.2.2.1] using hdang
      · rfl
    · rename_i hc
      split
      · rename_i p1 hp1
        obtain ⟨g, hg, rfl⟩ := Page.setEdgeSize_page_ok hp1
        rcases List.mem_cons.1 hr with rfl | hr1
        · exact absurd (by simpa using hc) hnew
        · apply ih
          refine ⟨r, hr1, hnew, ?_⟩
          simpa only [Page.log, Graph.nodeIds, (Graph.setEdgeSize_ok hg).2.1] using hdang
      · rfl

/-! ## One call of `change_network` on a valid target -/

theorem outcome_of_page_completed {α : Type} (o : Outcome α) (p : Page)
    (hp : o.page = p) (hc : o.completed = false) : ∃ e, o = .threw e p := by
  cases o with
  | done v q => cases hc
  | threw e q => exact ⟨e, by rw [show q = p from hp]⟩

/-- What one call of `change_network` on a valid target leaves behind.  Every
target node is displayed.  When the call returns, the displayed node ids are
target ids and every target edge id is displayed.  When it throws, it throws
at line 110: `delete_node_ids` is unbound and a displayed node is missing from
the target. -/
theorem change_network_summary (random : Nat → ℚ) (p : Page) (t : Snapshot)
    (hwf : p.graph.nodeIds.Nodup) (ht : t.Valid) :
    (∀ r ∈ t.nodes, r.id ∈ (change_network random (some t) p).page.graph.nodeIds) ∧
    ((change_network random (some t) p).completed = true →
      (∀ id ∈ (change_network random (some t) p).page.graph.nodeIds,
        id ∈ t.nodes.map (·.id)) ∧
      (∀ r ∈ t.edges, r.id ∈ (change_network random (some t) p).page.graph.edgeIds)) ∧
    ((change_network random (some t) p).completed = false →
      (change_network random (some t) p).error = some (.referenceError "delete_node_ids") ∧
      p.delete_node_ids = none ∧
      (change_network random (some t) p).page.delete_node_ids = none ∧
      ∃ id ∈ p.graph.nodeIds,
        id ∈ (change_network random (some t) p).page.graph.nodeIds ∧
        id ∉ t.nodes.map (·.id)) := by
  obtain ⟨hnd, hed, hcl⟩ := ht
  have hsubn : ((t.nodes.filter (fun r => !p.graph.nodeIds.contains r.id)).map (·.id)).Nodup :=
    hnd.sublist (List.Sublist.map _ (List.filter_sublist _))
  obtain ⟨p1, extra, h1, h2, h3, h4, h5⟩ := change_network_nodes_done random p.graph.nodeIds
    t.nodes [] (stop_force_atlas p).killForceAtlas2 (fun _ h => h) (fun _ _ h => h) hsubn
  have hids1 : p1.graph.nodeIds = p.graph.nodeIds ++
      (t.nodes.filter (fun r => !p.graph.nodeIds.contains r.id)).map (·.id) := by
    rw [Graph.nodeIds_eq_placed, h2, List.map_append, h3, ← Graph.nodeIds_eq_placed]
    rfl
  have hdel1 : p1.delete_node_ids = p.delete_node_ids := h5
  have hT1 : ∀ r ∈ t.nodes, r.id ∈ p1.graph.nodeIds := by
    intro r hr
    rw [hids1, List.mem_append]
    by_cases h : r.id ∈ p.graph.nodeIds
    · exact Or.inl h
    · exact Or.inr (List.mem_map_of_mem _ (List.mem_filter.2 ⟨hr, by simpa using h⟩))
  have hnew1 : ∀ x ∈ p1.graph.nodeIds, x ∉ p.graph.nodeIds → x ∈ t.nodes.map (·.id) := by
    intro x hx hnot
    rw [hids1, List.mem_append] at hx
    rcases hx with hx | hx
    · exact absurd hx hnot
    · obtain ⟨r, hr, rfl⟩ := List.mem_map.1 hx
      exact List.mem_map_of_mem _ (List.mem_filter.1 hr).1
  -- what follows a cleaning loop that returned
  have after_clean : ∀ p2 : Page,
      change_network_clean (t.nodes.map (·.id)) p.graph.nodeIds p1 = .done () p2 →
      (∀ r ∈ t.nodes, r.id ∈ p2.graph.nodeIds) →
      (∀ x ∈ p2.graph.nodeIds, x ∈ t.nodes.map (·.id)) →
      (∀ r ∈ t.nodes, r.id ∈ (change_network random (some t) p).page.graph.nodeIds) ∧
      (change_network random (some t) p).completed = true ∧
      (∀ id ∈ (change_network random (some t) p).page.graph.nodeIds,
        id ∈ t.nodes.map (·.id)) ∧
      (∀ r ∈ t.edges, r.id ∈ (change_network random (some t) p).page.graph.edgeIds) := by
    intro p2 hc hin hout
    have hsube : ((t.edges.filter (fun r => !p2.graph.edgeIds.contains r.id)).map (·.id)).Nodup :=
      hed.sublist (List.Sublist.map _ (List.filter_sublist _))
    obtain ⟨p3, e1, e2, e3, _⟩ := change_network_edges_done p2.graph.edgeIds t.edges [] p2
      (fun _ h => h) (fun _ _ h => h) hsube
      (by
        intro r hr _
        obtain ⟨hs, htg⟩ := hcl r hr
        obtain ⟨rs, hrs, hrs1⟩ := List.mem_map.1 hs
        obtain ⟨rt, hrt, hrt1⟩ := List.mem_map.1 htg
        exact ⟨hrs1 ▸ hin rs hrs, hrt1 ▸ hin rt hrt⟩)
    have hfinal : change_network random (some t) p = .done () (start_force_atlas p3.refresh) := by
      rw [change_network_eq, h1]
      simp only [List.nil_append, hc, e1]
    rw [hfinal]
    have hg : (start_force_atlas p3.refresh).graph = p3.graph := rfl
    simp only [Outcome.page, Outcome.completed, hg]
    have hn3 : p3.graph.nodeIds = p2.graph.nodeIds := by simp only [Graph.nodeIds, e2]
    refine ⟨?_, trivial, ?_, ?_⟩
    · intro r hr; rw [hn3]; exact hin r hr
    · intro x hx; rw [hn3] at hx; exact hout x hx
    · intro r hr
      rw [e3, List.mem_append]
      by_cases h : r.id ∈ p2.graph.edgeIds
      · exact Or.inl h
      · exact Or.inr (List.mem_map_of_mem _ (List.mem_filter.2 ⟨hr, by simpa using h⟩))
  by_cases hall : ∀ id ∈ p.graph.nodeIds, id ∈ t.nodes.map (·.id)
  · -- nothing to drop
    have hc := change_network_clean_nothing (t.nodes.map (·.id)) p.graph.nodeIds p1 hall
    obtain ⟨a1, a2, a3, a4⟩ := after_clean p1 hc hT1
      (by
        intro x hx
        by_cases h : x ∈ p.graph.nodeIds
        · exact hall x h
        · exact hnew1 x hx h)
    exact ⟨a1, fun _ => ⟨a3, a4⟩, fun h => (by rw [a2] at h; cases h)⟩
  · cases hdel : p.delete_node_ids with
    | none =>
      have hdel1n : p1.delete_node_ids = none := by rw [hdel1, hdel]
      obtain ⟨c1, c2⟩ := change_network_clean_unbound (t.nodes.map (·.id)) p.graph.nodeIds p1
        hdel1n
      have c3 : (change_network_clean (t.nodes.map (·.id)) p.graph.nodeIds p1).completed
          = false := by
        cases hcc : (change_network_clean (t.nodes.map (·.id)) p.graph.nodeIds p1).completed
        · rfl
        · exact absurd (c2.1 hcc) hall
      have c4 : (change_network_clean (t.nodes.map (·.id)) p.graph.nodeIds p1).error
          = some (.referenceError "delete_node_ids") := by
        clear c1 c2 hall
        revert c3
        generalize p.graph.nodeIds = ids
        induction ids with
        | nil => intro c3; simp [change_network_clean, Outcome.completed] at c3
        | cons id rest ih =>
          intro c3
          simp only [change_network_clean] at c3 ⊢
          split
          · simp [hdel1n, Outcome.error]
          · rename_i hc
            simp only [hc] at c3
            exact ih c3
      cases hcl2 : change_network_clean (t.nodes.map (·.id)) p.graph.nodeIds p1 with
      | done u q => rw [hcl2] at c3; cases c3
      | threw e q =>
        rw [hcl2] at c1 c4
        have hq : q = p1 := c1
        have he : e = .referenceError "delete_node_ids" := by
          simpa [Outcome.error] using c4
        subst hq
        have hfinal : change_network random (some t) p = .threw e q := by
          rw [change_network_eq, h1]
          simp only [List.nil_append, hcl2]
        rw [hfinal]
        simp only [Outcome.page, Outcome.completed, Outcome.error]
        refine ⟨hT1, fun h => (by cases h), fun _ => ⟨by rw [he], trivial, hdel1n, ?_⟩⟩
        push_neg at hall
        obtain ⟨id, hid, hnot⟩ := hall
        exact ⟨id, hid, by rw [hids1]; exact List.mem_append_left _ hid, hnot⟩
    | some ids0 =>
      have hnd1 : p1.graph.nodeIds.Nodup := by
        rw [hids1]
        refine List.Nodup.append hwf hsubn ?_
        intro x hx hx2
        obtain ⟨r, hr, rfl⟩ := List.mem_map.1 hx2
        have := (List.mem_filter.1 hr).2
        exact (by simpa using this : r.id ∉ p.graph.nodeIds) hx
      obtain ⟨p2, b1, _, _, b4, _⟩ := change_network_clean_bound (t.nodes.map (·.id))
        p.graph.nodeIds p1 (by rw [hdel1, hdel]; rfl) hnd1 hwf
        (by intro id hid; rw [hids1]; exact List.mem_append_left _ hid)
      obtain ⟨a1, a2, a3, a4⟩ := after_clean p2 b1
        (by
          intro r hr
          rw [b4]
          exact ⟨hT1 r hr, fun _ => List.mem_map_of_mem _ hr⟩)
        (by
          intro x hx
          rw [b4] at hx
          by_cases h : x ∈ p.graph.nodeIds
          · exact hx.2 h
          · exact hnew1 x hx.1 h)
      exact ⟨a1, fun _ => ⟨a3, a4⟩, fun h => (by rw [a2] at h; cases h)⟩

/-- A call of `change_network` on a page where every target node is already
displayed, and where either the display holds nothing but target nodes and
holds every target edge id, or the cleaning loop is bound to throw: the call
adds nothing, drops nothing and moves nothing. -/
theorem change_network_settled (random : Nat → ℚ) (p : Page) (t : Snapshot)
    (hn : ∀ r ∈ t.nodes, r.id ∈ p.graph.nodeIds)
    (h : ((∀ id ∈ p.graph.nodeIds, id ∈ t.nodes.map (·.id)) ∧
          (∀ r ∈ t.edges, r.id ∈ p.graph.edgeIds)) ∨
        (p.delete_node_ids = none ∧ ∃ id ∈ p.graph.nodeIds, id ∉ t.nodes.map (·.id))) :
    (change_network random (some t) p).page.graph.nodesArray.map Node.placed
        = p.graph.nodesArray.map Node.placed ∧
    (change_network random (some t) p).page.graph.edgeIds = p.graph.edgeIds := by
  have hfn : t.nodes.filter (fun r => !p.graph.nodeIds.contains r.id) = [] := by
    rw [List.filter_eq_nil_iff]
    intro r hr
    simpa using hn r hr
  obtain ⟨p1, extra, h1, h2, h3, h4, h5⟩ := change_network_nodes_done random p.graph.nodeIds
    t.nodes [] (stop_force_atlas p).killForceAtlas2 (fun _ h => h) (fun _ _ h => h)
    (by rw [hfn]; exact List.nodup_nil)
  rw [hfn, List.map_nil, List.map_eq_nil_iff] at h3
  subst h3
  rw [List.append_nil] at h2
  have h2 : p1.graph.nodesArray.map Node.placed = p.graph.nodesArray.map Node.placed := h2
  have h4 : p1.graph.edgesArray = p.graph.edgesArray := h4
  rcases h with ⟨hall, hedges⟩ | ⟨hdel, hex⟩
  · have hc := change_network_clean_nothing (t.nodes.map (·.id)) p.graph.nodeIds p1 hall
    have hfe : t.edges.filter (fun r => !p1.graph.edgeIds.contains r.id) = [] := by
      rw [List.filter_eq_nil_iff]
      intro r hr
      simp only [Graph.edgeIds, h4]
      simpa [Graph.edgeIds] using hedges r hr
    obtain ⟨p3, e1, e2, e3, _⟩ := change_network_edges_done p1.graph.edgeIds t.edges [] p1
      (fun _ h => h) (fun _ _ h => h) (by rw [hfe]; exact List.nodup_nil)
      (by
        intro r hr hnot
        exfalso
        apply List.filter_eq_nil_iff.1 hfe r hr
        simpa using hnot)
    have hfinal : change_network random (some t) p = .done () (start_force_atlas p3.refresh) := by
      rw [change_network_eq, h1]
      simp only [List.nil_append, hc, e1]
    rw [hfinal]
    have hg : (start_force_atlas p3.refresh).graph = p3.graph := rfl
    simp only [Outcome.page, hg]
    refine ⟨by rw [e2, h2], ?_⟩
    rw [e3, hfe, List.map_nil, List.append_nil]
    simp only [Graph.edgeIds, h4]
  · have hdel1 : p1.delete_node_ids = none := by rw [h5]; exact hdel
    obtain ⟨c1, c2⟩ := change_network_clean_unbound (t.nodes.map (·.id)) p.graph.nodeIds p1 hdel1
    have c3 : (change_network_clean (t.nodes.map (·.id)) p.graph.nodeIds p1).completed
        = false := by
      cases hcc : (change_network_clean (t.nodes.map (·.id)) p.graph.nodeIds p1).completed
      · rfl
      · obtain ⟨id, hid, hnot⟩ := hex
        exact absurd (c2.1 hcc id hid) hnot
    obtain ⟨e, he⟩ := outcome_of_page_completed _ p1 c1 c3
    have hfinal : change_network random (some t) p = .threw e p1 := by
      rw [change_network_eq, h1]
      simp only [List.nil_append, he]
    rw [hfinal]
    simp only [Outcome.page]
    exact ⟨h2, by simp only [Graph.edgeIds, h4]⟩

/-! ## Claims about `change_network` -/

/-- C3: a node displayed before the call whose id is in the target is still
displayed after `change_network`, with the coordinates it had; every node
displayed after the call whose id was displayed before carries the coordinates
of a node displayed before under that id; a node whose id was not displayed
before is a target node placed at coordinates drawn from `Math.random`.  This
holds of the page the call leaves, whether it returns or throws. -/
theorem change_network_keeps_positions (random : Nat → ℚ) (p : Page) (t : Snapshot) (n : Node)
    (hn : n ∈ p.graph.nodesArray) (ht : n.id ∈ t.nodes.map (·.id)) :
    (∃ n1 ∈ (change_network random (some t) p).page.graph.nodesArray,
        n1.id = n.id ∧ n1.x = n.x ∧ n1.y = n.y) ∧
    (∀ m1 ∈ (change_network random (some t) p).page.graph.nodesArray,
        m1.id ∈ p.graph.nodeIds →
        ∃ m ∈ p.graph.nodesArray, m.id = m1.id ∧ m1.x = m.x ∧ m1.y = m.y) ∧
    (∀ m1 ∈ (change_network random (some t) p).page.graph.nodesArray,
        m1.id ∉ p.graph.nodeIds →
        m1.id ∈ t.nodes.map (·.id) ∧
        ∃ k, m1.x = some (random k * 20) ∧ m1.y = some (random (k + 1) * 20)) := by
  have part1 := change_network_graph_inv random
    (fun g => ∃ n1 ∈ g.nodesArray, n1.id = n.id ∧ n1.x = n.x ∧ n1.y = n.y) t p
    (by
      rintro g r k g1 _ _ hg ⟨n1, h1, h2⟩
      refine ⟨n1, ?_, h2⟩
      rw [(Graph.addNode_ok hg).2.1]
      exact List.mem_append_left _ h1)
    (by
      rintro g r g1 _ _ hg ⟨n1, h1, h2⟩
      rw [(Graph.setNodeSize_ok hg).2.1]
      refine ⟨_, List.mem_map_of_mem _ h1, ?_⟩
      split <;> exact h2)
    (by
      rintro g id g1 hid hg ⟨n1, h1, h2⟩
      refine ⟨n1, ?_, h2⟩
      rw [(Graph.dropNode_ok hg).2.1]
      refine (List.mem_eraseP_of_neg ?_).2 h1
      intro heq
      have : n1.id = id := by simpa using heq
      apply hid
      rw [← this, h2.1]
      exact ht)
    (by
      rintro g r g1 _ hg ⟨n1, h1, h2⟩
      exact ⟨n1, by rw [(Graph.addEdge_ok hg).2.2.2.1]; exact h1, h2⟩)
    (by
      rintro g r g1 _ hg ⟨n1, h1, h2⟩
      exact ⟨n1, by rw [(Graph.setEdgeSize_ok hg).2.1]; exact h1, h2⟩)
    ⟨n, hn, rfl, rfl, rfl⟩
  have part2 := change_network_graph_inv random
    (fun g => ∀ m1 ∈ g.nodesArray,
      (∃ m ∈ p.graph.nodesArray, m.id = m1.id ∧ m1.x = m.x ∧ m1.y = m.y) ∨
      (m1.id ∉ p.graph.nodeIds ∧ m1.id ∈ t.nodes.map (·.id) ∧
        ∃ k, m1.x = some (random k * 20) ∧ m1.y = some (random (k + 1) * 20))) t p
    (by
      intro g r k g1 hr hnew hg h m1 hm1
      rw [(Graph.addNode_ok hg).2.1, List.mem_append, List.mem_singleton] at hm1
      rcases hm1 with hm1 | rfl
      · exact h m1 hm1
      · exact Or.inr ⟨hnew, List.mem_map_of_mem _ hr, k, rfl, rfl⟩)
    (by
      intro g r g1 _ _ hg h m1 hm1
      rw [(Graph.setNodeSize_ok hg).2.1, List.mem_map] at hm1
      obtain ⟨m0, hm0, rfl⟩ := hm1
      have := h m0 hm0
      split <;> exact this)
    (by
      intro g id g1 _ hg h m1 hm1
      rw [(Graph.dropNode_ok hg).2.1] at hm1
      exact h m1 (List.mem_of_mem_eraseP hm1))
    (by
      intro g r g1 _ hg h m1 hm1
      rw [(Graph.addEdge_ok hg).2.2.2.1] at hm1
      exact h m1 hm1)
    (by
      intro g r g1 _ hg h m1 hm1
      rw [(Graph.setEdgeSize_ok hg).2.1] at hm1
      exact h m1 hm1)
    (fun m1 hm1 => Or.inl ⟨m1, hm1, rfl, rfl, rfl⟩)
  refine ⟨part1, ?_, ?_⟩
  · intro m1 hm1 hold
    rcases part2 m1 hm1 with h | h
    · exact h
    · exact absurd hold h.1
  · intro m1 hm1 hnew
    rcases part2 m1 hm1 with h | h
    · obtain ⟨m, hm, hid, _⟩ := h
      exact absurd (hid ▸ List.mem_map_of_mem (·.id) hm) hnew
    · exact h.2

/-- The witness of C3: node n2 of the scenario of section 8, displayed in
snapshot A and present in snapshot B. -/
theorem change_network_keeps_positions_witness :
    (({ id := "n2", label := "", size := 1, x := none, y := none } : Node)
        ∈ pageA.graph.nodesArray ∧
      "n2" ∈ snapshotB.nodes.map (·.id)) ∧
    ∃ n1 ∈ (change_network half (some snapshotB) pageA).page.graph.nodesArray,
      n1.id = "n2" ∧ n1.x = none ∧ n1.y = none :=
  ⟨⟨by decide, by decide⟩,
    (change_network_keeps_positions half pageA snapshotB
      { id := "n2", label := "", size := 1, x := none, y := none }
      (by decide) (by decide)).1⟩

/-- C4: no dangling edges is an invariant of `change_network`.  If no
displayed edge is dangling and the edges of the target only reference its own
nodes, no displayed edge is dangling after `change_network(target)`; the same
holds after any sequence of such calls, in particular one that starts from the
page rendered by `render_new_network` from a valid snapshot, which renders
without a throw. -/
theorem no_dangling_edges_invariant (random : Nat → ℚ) (p q : Page) (t json : Snapshot)
    (ts : List Snapshot) (hp : p.graph.NoDangling) (_ht : t.Closed)
    (_hts : ∀ t1 ∈ ts, t1.Closed) (hjson : json.Valid) :
    (change_network random (some t) p).page.graph.NoDangling ∧
    (change_network_all random ts p).graph.NoDangling ∧
    (render_new_network (some json) q).completed = true ∧
    (render_new_network (some json) q).page.graph.NoDangling ∧
    (change_network_all random ts (render_new_network (some json) q).page).graph.NoDangling := by
  have hr : (render_new_network (some json) q).page.graph.NoDangling := by
    rw [render_new_network_valid json q hjson]
    exact rendered_noDangling json hjson.2.2
  refine ⟨change_network_noDangling random t p hp, change_network_all_noDangling random ts p hp,
    ?_, hr, change_network_all_noDangling random ts _ hr⟩
  rw [render_new_network_valid json q hjson]
  rfl

/-- The witness of C4: the scenario of section 8, from the page showing
snapshot A to snapshot B and back. -/
theorem no_dangling_edges_invariant_witness :
    (pageA.graph.NoDangling ∧ snapshotB.Closed ∧
      (∀ t1 ∈ [snapshotB, snapshotA], t1.Closed) ∧ snapshotA.Valid) ∧
    (change_network half (some snapshotB) pageA).page.graph.NoDangling ∧
    (change_network_all half [snapshotB, snapshotA] pageA).graph.NoDangling :=
  ⟨⟨by decide, by decide, by decide, by decide⟩,
    (no_dangling_edges_invariant half pageA pageA snapshotB snapshotA [snapshotB, snapshotA]
      (by decide) (by decide) (by decide) (by decide)).1,
    (no_dangling_edges_invariant half pageA pageA snapshotB snapshotA [snapshotB, snapshotA]
      (by decide) (by decide) (by decide) (by decide)).2.1⟩

/-- C1, the code on the scenario of section 8 (page showing A, target B, in
a page that loads this script only): the node loop resizes n2 and adds n3, then
line 110 throws a ReferenceError before `dropNode`; n1 and e1 stay displayed and
e2 is never added. -/
theorem change_network_A_to_B_throws :
    (change_network half (some snapshotB) pageA).error
        = some (.referenceError "delete_node_ids") ∧
    (change_network half (some snapshotB) pageA).page.graph.nodeIds = ["n1", "n2", "n3"] ∧
    (change_network half (some snapshotB) pageA).page.graph.edgeIds = ["e1"] := by
  decide

/-- The scenario of section 8 in a page that defines `delete_node_ids`: the
call returns, n1 is dropped with e1, and the display is snapshot B. -/
theorem change_network_A_to_B_when_bound :
    (change_network half (some snapshotB) pageA_bound).completed = true ∧
    (change_network half (some snapshotB) pageA_bound).page.graph.nodeIds = ["n2", "n3"] ∧
    (change_network half (some snapshotB) pageA_bound).page.graph.edgeIds = ["e2"] := by
  decide

/-- C2, the code on a target that keeps both endpoints of a displayed edge and
drops the edge: the call returns and e1 is still displayed. -/
theorem change_network_keeps_absent_edge :
    snapshotA_nodes.Valid ∧ snapshotA_nodes.edges.map (·.id) = [] ∧
    pageA.graph.edgeIds = ["e1"] ∧
    (change_network half (some snapshotA_nodes) pageA).completed = true ∧
    (change_network half (some snapshotA_nodes) pageA).page.graph.edgeIds = ["e1"] := by
  decide

/-- C5, the code on a page whose layout is stopped: after a reconciliation
that returns, the layout is running. -/
theorem change_network_starts_stopped_layout :
    pageA.isForceAtlas2Running = false ∧
    (change_network half (some snapshotA) pageA).completed = true ∧
    (change_network half (some snapshotA) pageA).page.isForceAtlas2Running = true := by
  decide

/-- C8, the code on the series A, B played from index 0 on the page showing A:
the second tick is the last of the series, its reconciliation throws at line
110 and the rest of the callback, with the call of `stop_animation`, is
skipped; the animation is still running with a live timer, and a third tick
calls `change_date` with index 2, outside the series. -/
theorem playback_does_not_stop_after_throw :
    (animate_callback half (ticks half 1 (start_animation pageA.core_json 0 pageA))).error
      = some (.referenceError "delete_node_ids") ∧
    (ticks half 2 (start_animation pageA.core_json 0 pageA)).animation_running = true ∧
    (ticks half 2 (start_animation pageA.core_json 0 pageA)).animate_network = some true ∧
    (ticks half 2 (start_animation pageA.core_json 0 pageA)).reconciled = [0, 1] ∧
    (ticks half 3 (start_animation pageA.core_json 0 pageA)).reconciled = [0, 1, 2] := by
  decide

/-- C10: reconciliation is idempotent.  For every displayed graph with
distinct node ids and every valid target, a second `change_network` with the
same target leaves the displayed node ids, the coordinates of every node and
the displayed edge ids exactly as the first call left them (the lists are
equal, in order), whether the calls return or throw. -/
theorem change_network_idempotent (random : Nat → ℚ) (p : Page) (s : Snapshot)
    (hp : p.graph.nodeIds.Nodup) (hs : s.Valid) :
    (change_network random (some s) (change_network random (some s) p).page).page.graph.nodeIds
      = (change_network random (some s) p).page.graph.nodeIds ∧
    (change_network random (some s) (change_network random (some s) p).page).page.graph.edgeIds
      = (change_network random (some s) p).page.graph.edgeIds ∧
    (change_network random (some s)
        (change_network random (some s) p).page).page.graph.nodesArray.map Node.placed
      = (change_network random (some s) p).page.graph.nodesArray.map Node.placed := by
  obtain ⟨h1, h2, h3⟩ := change_network_summary random p s hp hs
  have hcases :
      ((∀ id ∈ (change_network random (some s) p).page.graph.nodeIds, id ∈ s.nodes.map (·.id)) ∧
        (∀ r ∈ s.edges, r.id ∈ (change_network random (some s) p).page.graph.edgeIds)) ∨
      ((change_network random (some s) p).page.delete_node_ids = none ∧
        ∃ id ∈ (change_network random (some s) p).page.graph.nodeIds,
          id ∉ s.nodes.map (·.id)) := by
    cases hc : (change_network random (some s) p).completed
    · right
      obtain ⟨_, _, hdel, id, _, hid, hnot⟩ := h3 hc
      exact ⟨hdel, id, hid, hnot⟩
    · left
      exact h2 hc
  obtain ⟨k1, k2⟩ := change_network_settled random _ s h1 hcases
  refine ⟨?_, k2, k1⟩
  rw [Graph.nodeIds_eq_placed, k1, ← Graph.nodeIds_eq_placed]

/-- The witness of C10: the page showing snapshot A and the target B. -/
theorem change_network_idempotent_witness :
    (pageA.graph.nodeIds.Nodup ∧ snapshotB.Valid) ∧
    (change_network half (some snapshotB)
        (change_network half (some snapshotB) pageA).page).page.graph.nodeIds
      = (change_network half (some snapshotB) pageA).page.graph.nodeIds :=
  ⟨⟨by decide, by decide⟩,
    (change_network_idempotent half pageA snapshotB (by decide) (by decide)).1⟩

/-- The series A, B played from index 0 in a page that defines
`delete_node_ids`: the second tick reconciles to B and stops the animation, and
later ticks do nothing. -/
theorem playback_stops_when_bound :
    (ticks half 2 (start_animation pageA_bound.core_json 0 pageA_bound)).animation_running
      = false ∧
    (ticks half 2 (start_animation pageA_bound.core_json 0 pageA_bound)).animate_network
      = some false ∧
    (ticks half 2 (start_animation pageA_bound.core_json 0 pageA_bound)).reconciled = [0, 1] ∧
    (ticks half 5 (start_animation pageA_bound.core_json 0 pageA_bound)).reconciled = [0, 1] := by
  decide

/-- What the node loop keeps of a graph with distinct node ids, whether it
runs to its end or throws. -/
theorem change_network_nodes_keeps (random : Nat → ℚ) (t : Snapshot) (p : Page)
    (hwf : p.graph.nodeIds.Nodup) :
    (change_network_nodes random p.graph.nodeIds t.nodes []
        (stop_force_atlas p).killForceAtlas2).page.graph.nodeIds.Nodup ∧
    (∀ x ∈ p.graph.nodeIds, x ∈ (change_network_nodes random p.graph.nodeIds t.nodes []
        (stop_force_atlas p).killForceAtlas2).page.graph.nodeIds) ∧
    (∀ x ∈ (change_network_nodes random p.graph.nodeIds t.nodes []
        (stop_force_atlas p).killForceAtlas2).page.graph.nodeIds,
      x ∈ p.graph.nodeIds ∨ x ∈ t.nodes.map (·.id)) ∧
    (change_network_nodes random p.graph.nodeIds t.nodes []
        (stop_force_atlas p).killForceAtlas2).page.graph.edgesArray = p.graph.edgesArray := by
  refine change_network_nodes_inv random
    (fun g => g.nodeIds.Nodup ∧ (∀ x ∈ p.graph.nodeIds, x ∈ g.nodeIds) ∧
      (∀ x ∈ g.nodeIds, x ∈ p.graph.nodeIds ∨ x ∈ t.nodes.map (·.id)) ∧
      g.edgesArray = p.graph.edgesArray)
    p.graph.nodeIds t.nodes ?_ ?_ t.nodes [] (stop_force_atlas p).killForceAtlas2
    (fun _ h => h) ⟨hwf, fun _ h => h, fun _ h => Or.inl h, rfl⟩
  · rintro g r k g1 hr _ hg ⟨i1, i2, i3, i4⟩
    obtain ⟨hnot, hn, he⟩ := Graph.addNode_ok hg
    have hids : g1.nodeIds = g.nodeIds ++ [r.id] := by simp [Graph.nodeIds, hn]
    refine ⟨?_, ?_, ?_, by rw [he, i4]⟩
    · rw [hids]
      refine List.Nodup.append i1 (List.nodup_singleton _) ?_
      intro x hx hx1
      rw [List.mem_singleton] at hx1
      subst hx1
      exact hnot hx
    · intro x hx; rw [hids]; exact List.mem_append_left _ (i2 x hx)
    · intro x hx
      rw [hids, List.mem_append, List.mem_singleton] at hx
      rcases hx with hx | rfl
      · exact i3 x hx
      · exact Or.inr (List.mem_map_of_mem _ hr)
  · rintro g r g1 _ _ hg ⟨i1, i2, i3, i4⟩
    have hids := Graph.setNodeSize_nodeIds hg
    refine ⟨by rw [hids]; exact i1, by rw [hids]; exact i2, by rw [hids]; exact i3, ?_⟩
    rw [(Graph.setNodeSize_ok hg).2.2, i4]

/-- C9 as amended: a target with an edge whose id is not displayed and whose
source or target is not among the target nodes makes `change_network` throw,
and the throw leaves no dangling edge displayed when none was displayed
before.  Nothing is said of the rest of the display: the node loop and the
cleaning loop run before the edges are looked at. -/
theorem change_network_throws_on_new_dangling_edge (random : Nat → ℚ) (p : Page)
    (t : Snapshot) (e : EdgeRecord) (hwf : p.graph.nodeIds.Nodup) (he : e ∈ t.edges)
    (hnew : e.id ∉ p.graph.edgeIds)
    (hd : e.source ∉ t.nodes.map (·.id) ∨ e.target ∉ t.nodes.map (·.id)) :
    (change_network random (some t) p).completed = false ∧
    (p.graph.NoDangling → (change_network random (some t) p).page.graph.NoDangling) := by
  refine ⟨?_, change_network_noDangling random t p⟩
  obtain ⟨k1, k2, k3, k4⟩ := change_network_nodes_keeps random t p hwf
  rw [change_network_eq]
  cases hn : change_network_nodes random p.graph.nodeIds t.nodes []
      (stop_force_atlas p).killForceAtlas2 with
  | threw err p1 => rfl
  | done added p1 =>
    rw [hn] at k1 k2 k3 k4
    simp only [Outcome.page] at k1 k2 k3 k4
    have hadded := change_network_nodes_added random _ _ _ _ _ _ hn
    simp only [List.nil_append] at hadded
    subst hadded
    simp only []
    -- the graph after a cleaning loop that returned
    have hclean : ∀ p2 : Page,
        change_network_clean (t.nodes.map (·.id)) p.graph.nodeIds p1 = .done () p2 →
        (∀ x ∈ p2.graph.nodeIds, x ∈ t.nodes.map (·.id)) ∧
        (∀ x ∈ p2.graph.edgeIds, x ∈ p.graph.edgeIds) := by
      intro p2 hc
      cases hdel : p1.delete_node_ids with
      | none =>
        obtain ⟨c1, c2⟩ := change_network_clean_unbound (t.nodes.map (·.id)) p.graph.nodeIds
          p1 hdel
        rw [hc] at c1 c2
        have c1 : p2 = p1 := c1
        subst c1
        have hall := c2.1 rfl
        refine ⟨?_, ?_⟩
        · intro x hx
          rcases k3 x hx with h | h
          · exact hall x h
          · exact h
        · intro x hx
          simpa only [Graph.edgeIds, k4] using hx
      | some ids0 =>
        obtain ⟨q, b1, _, _, b4, b5⟩ := change_network_clean_bound (t.nodes.map (·.id))
          p.graph.nodeIds p1 (by rw [hdel]; rfl) k1 hwf k2
        rw [hc] at b1
        cases b1
        refine ⟨?_, ?_⟩
        · intro x hx
          rw [b4] at hx
          rcases k3 x hx.1 with h | h
          · exact hx.2 h
          · exact h
        · intro x hx
          obtain ⟨e1, he1, rfl⟩ := List.mem_map.1 hx
          have := b5 e1 he1
          rw [k4] at this
          exact List.mem_map_of_mem _ this
    cases hc : change_network_clean (t.nodes.map (·.id)) p.graph.nodeIds p1 with
    | threw err p2 => rfl
    | done u p2 =>
      obtain ⟨d1, d2⟩ := hclean p2 hc
      have hfail := change_network_edges_dangling p2.graph.edgeIds t.edges [] p2
        ⟨e, he, fun h => hnew (d2 _ h), by
          rcases hd with h | h
          · exact Or.inl (fun h1 => h (d1 _ h1))
          · exact Or.inr (fun h1 => h (d1 _ h1))⟩
      simp only []
      cases hed : change_network_edges p2.graph.edgeIds t.edges [] p2 with
      | threw err p3 => rfl
      | done u3 p3 => rw [hed] at hfail; cases hfail

/-- The witness of C9 as amended: the empty display and the target with node
n1 and the edge e9 from n1 to n9. -/
theorem change_network_throws_on_new_dangling_edge_witness :
    ((Page.blank Graph.empty []).graph.nodeIds.Nodup ∧
      (⟨"e9", "", 1, "n1", "n9"⟩ : EdgeRecord) ∈ danglingTarget.edges ∧
      "e9" ∉ (Page.blank Graph.empty []).graph.edgeIds ∧
      ("n1" ∉ danglingTarget.nodes.map (·.id) ∨ "n9" ∉ danglingTarget.nodes.map (·.id))) ∧
    (change_network half (some danglingTarget) (Page.blank Graph.empty [])).completed = false :=
  ⟨⟨by decide, by decide, by decide, by decide⟩,
    (change_network_throws_on_new_dangling_edge half (Page.blank Graph.empty []) danglingTarget
      ⟨"e9", "", 1, "n1", "n9"⟩ (by decide) (by decide) (by decide) (by decide)).1⟩

/-- C9 as stated fails.  On the empty display, the target with node n1 and the
dangling edge e9 makes the call throw only after n1 has been added: the
display is not what it was.  On the page showing snapshot A, the target whose
dangling edge reuses the displayed id e1 does not make the call throw at all:
e1 is resized. -/
theorem change_network_not_fail_fast :
    (¬ danglingTarget.Closed ∧
      (change_network half (some danglingTarget) (Page.blank Graph.empty [])).completed = false ∧
      (Page.blank Graph.empty []).graph.nodeIds = [] ∧
      (change_network half (some danglingTarget)
        (Page.blank Graph.empty [])).page.graph.nodeIds = ["n1"]) ∧
    (¬ danglingResize.Closed ∧
      (change_network half (some danglingResize) pageA).completed = true) := by
  decide

/-! ## `min_degree_filter` -/

/-- The body of `min_degree_filter`, with the test of the property
`s.isForceAtlas2Running` evaluated. -/
theorem min_degree_filter_eq (random : Nat → ℚ) (v : String) (p : Page) :
    min_degree_filter random v p =
      match core_json_at p.core_json (p.time_slider - 1) with
      | none => .threw (.syntaxError "JSON.parse: unexpected input")
          (stop_force_atlas p).killForceAtlas2
      | some root_json =>
        match min_degree_filter_nodes random p.graph.nodeIds root_json.nodes
            (stop_force_atlas p).killForceAtlas2 with
        | .threw e p1 => .threw e p1
        | .done _ p1 =>
          match min_degree_filter_edges p.graph.edgeIds root_json.edges p1 with
          | .threw e p2 => .threw e p2
          | .done _ p2 =>
            match min_degree_filter_drop
                ((p2.graph.nodesArray.filter (fun node =>
                  degree_below (p2.graph.degree node.id) (parseInt v))).map (·.id)) p2 with
            | .threw e p3 => .threw e p3
            | .done _ p3 => .done () p3.refresh := rfl

/-- The loop that puts back the nodes of the base runs to its end when the
missing ids are new to the graph and distinct; the nodes already displayed
are untouched and the missing ones are appended. -/
theorem min_degree_filter_nodes_done (random : Nat → ℚ) (there : List String) :
    ∀ (recs : List NodeRecord) (p : Page),
      (∀ r ∈ recs, r.id ∉ there → r.id ∉ p.graph.nodeIds) →
      ((recs.filter (fun r => !there.contains r.id)).map (·.id)).Nodup →
      ∃ p1 extra, min_degree_filter_nodes random there recs p = .done () p1 ∧
        p1.graph.nodesArray = p.graph.nodesArray ++ extra ∧
        extra.map (·.id) = (recs.filter (fun r => !there.contains r.id)).map (·.id) ∧
        p1.graph.edgesArray = p.graph.edgesArray ∧
        p1.core_json = p.core_json ∧ p1.time_slider = p.time_slider := by
  intro recs
  induction recs with
  | nil =>
    intro p _ _
    exact ⟨p, [], by simp [min_degree_filter_nodes], by simp, by simp, rfl, rfl, rfl⟩
  | cons r rest ih =>
    intro p hnew hnd
    by_cases hr : r.id ∈ there
    · have hf : (List.filter (fun r => !there.contains r.id) (r :: rest))
          = List.filter (fun r => !there.contains r.id) rest := by
        rw [List.filter_cons_of_neg (by simpa using hr)]
      rw [hf] at hnd
      obtain ⟨p1, extra, h1, h2, h3, h4, h5, h6⟩ := ih p
        (fun r1 hr1 => hnew r1 (List.mem_cons_of_mem _ hr1)) hnd
      refine ⟨p1, extra, ?_, h2, by rw [hf]; exact h3, h4, h5, h6⟩
      simp only [min_degree_filter_nodes]
      rw [if_neg (by simpa using hr)]
      exact h1
    · have hnot : r.id ∉ p.graph.nodeIds := hnew r (List.mem_cons_self _ _) hr
      have hf : (List.filter (fun r => !there.contains r.id) (r :: rest))
          = r :: List.filter (fun r => !there.contains r.id) rest := by
        rw [List.filter_cons_of_pos (by simpa using hr)]
      rw [hf, List.map_cons, List.nodup_cons] at hnd
      obtain ⟨p1, extra, h1, h2, h3, h4, h5, h6⟩ := ih
        ({ { p with random_calls := p.random_calls + 2 } with graph :=
            { p.graph with nodesArray := p.graph.nodesArray ++
              [({ id := r.id, size := r.size, label := r.label,
                  x := some (random p.random_calls * 20),
                  y := some (random (p.random_calls + 1) * 20) } : Node)] } }.log (.addNode r.id))
        (by
          intro r1 hr1 hr1E
          have h1 := hnew r1 (List.mem_cons_of_mem _ hr1) hr1E
          have h2 : r1.id ≠ r.id := by
            intro heq
            apply hnd.1
            rw [← heq]
            exact List.mem_map_of_mem _ (List.mem_filter.2 ⟨hr1, by simpa using hr1E⟩)
          simp only [Page.log, Graph.nodeIds, List.map_append, List.mem_append, List.map_cons,
            List.map_nil, List.mem_singleton, not_or]
          exact ⟨h1, h2⟩)
        hnd.2
      refine ⟨p1, ({ id := r.id, size := r.size, label := r.label,
                     x := some (random p.random_calls * 20),
                     y := some (random (p.random_calls + 1) * 20) } : Node) :: extra,
        ?_, ?_, ?_, ?_, ?_, ?_⟩
      · simp only [min_degree_filter_nodes]
        rw [if_pos (by simpa using hr)]
        rw [Page.addNode_page_of_not_mem (p := { p with random_calls := p.random_calls + 2 })
          (by simpa using hnot)]
        exact h1
      · simpa only [Page.log, List.append_assoc, List.singleton_append] using h2
      · rw [hf]; simp [h3]
      · simpa only [Page.log] using h4
      · simpa only [Page.log] using h5
      · simpa only [Page.log] using h6

/-- The loop that puts back the edges of the base runs to its end when the
missing ids are new to the graph and distinct and the endpoints of the missing
edges are displayed; the missing edges are appended as the base gives them. -/
theorem min_degree_filter_edges_done (there : List String) :
    ∀ (recs : List EdgeRecord) (p : Page),
      (∀ r ∈ recs, r.id ∉ there → r.id ∉ p.graph.edgeIds) →
      ((recs.filter (fun r => !there.contains r.id)).map (·.id)).Nodup →
      (∀ r ∈ recs, r.id ∉ there →
        r.source ∈ p.graph.nodeIds ∧ r.target ∈ p.graph.nodeIds) →
      ∃ p2, min_degree_filter_edges there recs p = .done () p2 ∧
        p2.graph.nodesArray = p.graph.nodesArray ∧
        p2.graph.edgesArray = p.graph.edgesArray ++
          (recs.filter (fun r => !there.contains r.id)).map EdgeRecord.toEdge ∧
        p2.core_json = p.core_json ∧ p2.time_slider = p.time_slider := by
  intro recs
  induction recs with
  | nil =>
    intro p _ _ _
    exact ⟨p, by simp [min_degree_filter_edges], rfl, by simp, rfl, rfl⟩
  | cons r rest ih =>
    intro p hnew hnd hcl
    by_cases hr : r.id ∈ there
    · have hf : (List.filter (fun r => !there.contains r.id) (r :: rest))
          = List.filter (fun r => !there.contains r.id) rest := by
        rw [List.filter_cons_of_neg (by simpa using hr)]
      rw [hf] at hnd
      obtain ⟨p2, h1, h2, h3, h4, h5⟩ := ih p
        (fun r1 hr1 => hnew r1 (List.mem_cons_of_mem _ hr1)) hnd
        (fun r1 hr1 => hcl r1 (List.mem_cons_of_mem _ hr1))
      refine ⟨p2, ?_, h2, by rw [hf]; exact h3, h4, h5⟩
      simp only [min_degree_filter_edges]
      rw [if_neg (by simpa using hr)]
      exact h1
    · have hnot : r.id ∉ p.graph.edgeIds := hnew r (List.mem_cons_self _ _) hr
      have hst := hcl r (List.mem_cons_self _ _) hr
      have hf : (List.filter (fun r => !there.contains r.id) (r :: rest))
          = r :: List.filter (fun r => !there.contains r.id) rest := by
        rw [List.filter_cons_of_pos (by simpa using hr)]
      rw [hf, List.map_cons, List.nodup_cons] at hnd
      obtain ⟨p2, h1, h2, h3, h4, h5⟩ := ih
        ({ p with graph := { p.graph with edgesArray := p.graph.edgesArray ++ [r.toEdge] } }.log
          (.addEdge r.id))
        (by
          intro r1 hr1 hr1E
          have h1 := hnew r1 (List.mem_cons_of_mem _ hr1) hr1E
          have h2 : r1.id ≠ r.id := by
            intro heq
            apply hnd.1
            rw [← heq]
            exact List.mem_map_of_mem _ (List.mem_filter.2 ⟨hr1, by simpa using hr1E⟩)
          simp only [Page.log, Graph.edgeIds, List.map_append, List.mem_append, List.map_cons,
            List.map_nil, List.mem_singleton, not_or]
          exact ⟨h1, h2⟩)
        hnd.2
        (by
          intro r1 hr1 hr1E
          simpa only [Page.log, Graph.nodeIds] using hcl r1 (List.mem_cons_of_mem _ hr1) hr1E)
      refine ⟨p2, ?_, ?_, ?_, ?_, ?_⟩
      · simp only [min_degree_filter_edges]
        rw [if_pos (by simpa using hr)]
        have hadd := Page.addEdge_page_of_mem (p := p) (e := r.toEdge) hst.1 hst.2 hnot
        simp only [EdgeRecord.toEdge] at hadd
        rw [hadd]
        exact h1
      · simpa only [Page.log] using h2
      · rw [hf, h3]
        simp [Page.log]
      · simpa only [Page.log] using h4
      · simpa only [Page.log] using h5

theorem mem_eraseP_id_iff (l : List Node) (x : String) (hnd : (l.map (·.id)).Nodup)
    (n : Node) : n ∈ l.eraseP (fun m => m.id == x) ↔ n ∈ l ∧ n.id ≠ x := by
  constructor
  · intro h
    refine ⟨List.mem_of_mem_eraseP h, ?_⟩
    intro heq
    have h1 : n.id ∈ (l.eraseP (fun m => m.id == x)).map (·.id) := List.mem_map_of_mem _ h
    rw [nodeIds_eraseP, heq] at h1
    exact hnd.not_mem_erase h1
  · rintro ⟨h, hne⟩
    exact (List.mem_eraseP_of_neg (by simpa using hne)).2 h

/-- The loop that drops the collected nodes runs to its end when they are
distinct displayed nodes; it removes exactly these nodes and the edges that
touch one of them. -/
theorem min_degree_filter_drop_done :
    ∀ (drops : List String) (p : Page), drops.Nodup → (∀ x ∈ drops, x ∈ p.graph.nodeIds) →
      p.graph.nodeIds.Nodup →
      ∃ p3, min_degree_filter_drop drops p = .done () p3 ∧
        (∀ n, n ∈ p3.graph.nodesArray ↔ n ∈ p.graph.nodesArray ∧ n.id ∉ drops) ∧
        (∀ e, e ∈ p3.graph.edgesArray ↔
          e ∈ p.graph.edgesArray ∧ e.source ∉ drops ∧ e.target ∉ drops) ∧
        p3.graph.nodeIds.Nodup ∧
        (p.graph.edgeIds.Nodup → p3.graph.edgeIds.Nodup) ∧
        (p.graph.NoDangling → p3.graph.NoDangling) ∧
        p3.core_json = p.core_json ∧ p3.time_slider = p.time_slider := by
  intro drops
  induction drops with
  | nil =>
    intro p _ _ hnd
    exact ⟨p, by simp [min_degree_filter_drop], by simp, by simp, hnd, id, id, rfl, rfl⟩
  | cons x rest ih =>
    intro p hdrops hmem hnd
    rw [List.nodup_cons] at hdrops
    have hin : x ∈ p.graph.nodeIds := hmem x (List.mem_cons_self _ _)
    have hdrop := Graph.dropNode_of_mem hin
    have hids1 := Graph.dropNode_nodeIds hdrop
    obtain ⟨p3, h1, h2, h3, h4, h5, h6, h7, h8⟩ := ih
      ({ p with graph :=
          { nodesArray := p.graph.nodesArray.eraseP (fun n => n.id == x),
            edgesArray := p.graph.edgesArray.filter
              (fun e => !(e.source == x || e.target == x)) } }.log (.dropNode x))
      hdrops.2
      (by
        intro y hy
        simp only [Page.log]
        rw [hids1, hnd.mem_erase_iff]
        refine ⟨?_, hmem y (List.mem_cons_of_mem _ hy)⟩
        rintro rfl
        exact hdrops.1 hy)
      (by
        simp only [Page.log]
        rw [hids1]
        exact hnd.erase _)
    refine ⟨p3, ?_, ?_, ?_, h4, ?_, ?_, ?_, ?_⟩
    · simp only [min_degree_filter_drop]
      rw [Page.dropNode_page_of_mem hin]
      exact h1
    · intro n
      rw [h2 n]
      simp only [Page.log]
      rw [mem_eraseP_id_iff _ _ hnd]
      simp only [List.mem_cons, not_or]
      tauto
    · intro e
      rw [h3 e]
      simp only [Page.log, List.mem_filter, Bool.not_eq_true', Bool.or_eq_false_iff,
        beq_eq_false_iff_ne, ne_eq, List.mem_cons, not_or]
      tauto
    · intro he
      apply h5
      simp only [Page.log, Graph.edgeIds]
      exact he.sublist (List.Sublist.map _ (List.filter_sublist _))
    · intro hdang
      apply h6
      exact Graph.noDangling_dropNode hdrop hdang
    · simpa only [Page.log] using h7
    · simpa only [Page.log] using h8

/-- The displayed edges that are part of the base are, up to order, the base
edges whose id is displayed. -/
theorem ends_perm_of_within (edges : List Edge) (base : List EdgeRecord)
    (hsub : ∀ e ∈ edges, ∃ r ∈ base, r.id = e.id ∧ r.source = e.source ∧ r.target = e.target)
    (hg : (edges.map (·.id)).Nodup) (hb : (base.map (·.id)).Nodup) :
    (edges.map Edge.ends).Perm
      ((base.filter (fun r => (edges.map (·.id)).contains r.id)).map EdgeRecord.ends) := by
  have hbf : ((base.filter (fun r => (edges.map (·.id)).contains r.id)).map (·.id)).Nodup :=
    hb.sublist (List.Sublist.map _ (List.filter_sublist _))
  have n1 : (edges.map Edge.ends).Nodup := by
    apply List.Nodup.of_map (fun k => k.1)
    simpa [Edge.ends, Function.comp] using hg
  have n2 : ((base.filter (fun r => (edges.map (·.id)).contains r.id)).map
      EdgeRecord.ends).Nodup := by
    apply List.Nodup.of_map (fun k => k.1)
    simpa [EdgeRecord.ends, Function.comp] using hbf
  rw [List.perm_ext_iff_of_nodup n1 n2]
  intro k
  simp only [List.mem_map, List.mem_filter, List.elem_eq_mem, List.contains, decide_eq_true_eq]
  constructor
  · rintro ⟨e, he, rfl⟩
    obtain ⟨r, hr, h1, h2, h3⟩ := hsub e he
    exact ⟨r, ⟨hr, ⟨e, he, h1.symm⟩⟩, by simp [Edge.ends, EdgeRecord.ends, h1, h2, h3]⟩
  · rintro ⟨r, ⟨hr, e, he, hid⟩, rfl⟩
    obtain ⟨r1, hr1, h1, h2, h3⟩ := hsub e he
    have : r1 = r := List.inj_on_of_nodup_map hb hr1 hr (by rw [h1, hid])
    subst this
    exact ⟨e, he, by simp [Edge.ends, EdgeRecord.ends, h1, h2, h3]⟩

/-- Counting over the displayed edges with the missing base edges put back is
counting over the base edges, for any test that only looks at the id, the
source and the target. -/
theorem countP_readded (edges : List Edge) (base : List EdgeRecord)
    (hsub : ∀ e ∈ edges, ∃ r ∈ base, r.id = e.id ∧ r.source = e.source ∧ r.target = e.target)
    (hg : (edges.map (·.id)).Nodup) (hb : (base.map (·.id)).Nodup)
    (f : String × String × String → Bool) :
    (edges ++ (base.filter (fun r => !(edges.map (·.id)).contains r.id)).map
        EdgeRecord.toEdge).countP (fun e => f e.ends)
      = base.countP (fun r => f r.ends) := by
  have hperm := ends_perm_of_within edges base hsub hg hb
  have e1 : edges.countP (fun e => f e.ends)
      = (base.filter (fun r => (edges.map (·.id)).contains r.id)).countP (fun r => f r.ends) := by
    have := hperm.countP_eq f
    simpa only [List.countP_map, Function.comp] using this
  have e2 : ((base.filter (fun r => !(edges.map (·.id)).contains r.id)).map
        EdgeRecord.toEdge).countP (fun e => f e.ends)
      = (base.filter (fun r => !(edges.map (·.id)).contains r.id)).countP
          (fun r => f r.ends) := by
    rw [List.countP_map]
    rfl
  rw [List.countP_append, e1, e2, ← List.countP_append]
  exact (List.filter_append_perm _ base).countP_eq _

/-- What `min_degree_filter` does on a display that is a part of the valid
base snapshot at the slider position: it returns; the displayed nodes are the
base nodes of degree at least the threshold, the degree being counted over all
base edges; the displayed edges are the base edges with both endpoints kept;
the display is again a well-formed part of the base. -/
theorem min_degree_filter_spec (random : Nat → ℚ) (p : Page) (base : Snapshot) (v : String)
    (m : Int) (hbase : core_json_at p.core_json (p.time_slider - 1) = some base)
    (hvalid : base.Valid) (hwf : p.graph.WF) (hsub : p.graph.Within base)
    (hm : parseInt v = some m) :
    ∃ p3, min_degree_filter random v p = .done () p3 ∧
      (∀ id, id ∈ p3.graph.nodeIds ↔
        id ∈ base.nodes.map (·.id) ∧ m ≤ (DegreeFilter.degree base id : Int)) ∧
      (∀ id, id ∈ p3.graph.edgeIds ↔ ∃ r ∈ base.edges, r.id = id ∧
        (r.source ∈ base.nodes.map (·.id) ∧ m ≤ (DegreeFilter.degree base r.source : Int)) ∧
        (r.target ∈ base.nodes.map (·.id) ∧ m ≤ (DegreeFilter.degree base r.target : Int))) ∧
      p3.graph.WF ∧ p3.graph.Within base ∧
      p3.core_json = p.core_json ∧ p3.time_slider = p.time_slider := by
  obtain ⟨hbn, hbe, hbc⟩ := hvalid
  obtain ⟨hgn, hge, hgd⟩ := hwf
  obtain ⟨hsn, hse⟩ := hsub
  -- the nodes of the base are put back
  have hsubn : ((base.nodes.filter (fun r => !p.graph.nodeIds.contains r.id)).map (·.id)).Nodup :=
    hbn.sublist (List.Sublist.map _ (List.filter_sublist _))
  obtain ⟨p1, extra, a1, a2, a3, a4, a5, a6⟩ := min_degree_filter_nodes_done random
    p.graph.nodeIds base.nodes (stop_force_atlas p).killForceAtlas2 (fun _ _ h => h) hsubn
  have a2 : p1.graph.nodesArray = p.graph.nodesArray ++ extra := a2
  have a4 : p1.graph.edgesArray = p.graph.edgesArray := a4
  have hids1 : p1.graph.nodeIds = p.graph.nodeIds ++
      (base.nodes.filter (fun r => !p.graph.nodeIds.contains r.id)).map (·.id) := by
    simp only [Graph.nodeIds, a2, List.map_append, a3]
  have hnd1 : p1.graph.nodeIds.Nodup := by
    rw [hids1]
    refine List.Nodup.append hgn hsubn ?_
    intro x hx hx2
    obtain ⟨r, hr, rfl⟩ := List.mem_map.1 hx2
    exact (by simpa using (List.mem_filter.1 hr).2 : r.id ∉ p.graph.nodeIds) hx
  have hmem1 : ∀ x, x ∈ p1.graph.nodeIds ↔ x ∈ base.nodes.map (·.id) := by
    intro x
    rw [hids1, List.mem_append]
    constructor
    · rintro (hx | hx)
      · obtain ⟨n, hn, rfl⟩ := List.mem_map.1 hx
        exact hsn n hn
      · obtain ⟨r, hr, rfl⟩ := List.mem_map.1 hx
        exact List.mem_map_of_mem _ (List.mem_filter.1 hr).1
    · intro hx
      by_cases h : x ∈ p.graph.nodeIds
      · exact Or.inl h
      · obtain ⟨r, hr, rfl⟩ := List.mem_map.1 hx
        exact Or.inr (List.mem_map_of_mem _ (List.mem_filter.2 ⟨hr, by simpa using h⟩))
  -- the edges of the base are put back
  have hsube : ((base.edges.filter (fun r => !p.graph.edgeIds.contains r.id)).map (·.id)).Nodup :=
    hbe.sublist (List.Sublist.map _ (List.filter_sublist _))
  obtain ⟨p2, b1, b2, b3, b4, b5⟩ := min_degree_filter_edges_done p.graph.edgeIds base.edges p1
    (by intro r _ h; simpa only [Graph.edgeIds, a4] using h) hsube
    (by
      intro r hr _
      exact ⟨(hmem1 _).2 (hbc r hr).1, (hmem1 _).2 (hbc r hr).2⟩)
  rw [a4] at b3
  have hids2 : p2.graph.nodeIds = p1.graph.nodeIds := by simp only [Graph.nodeIds, b2]
  have hmem2 : ∀ x, x ∈ p2.graph.nodeIds ↔ x ∈ base.nodes.map (·.id) := by
    intro x; rw [hids2]; exact hmem1 x
  have hW2 : ∀ e ∈ p2.graph.edgesArray,
      ∃ r ∈ base.edges, r.id = e.id ∧ r.source = e.source ∧ r.target = e.target := by
    intro e he
    rw [b3, List.mem_append] at he
    rcases he with he | he
    · exact hse e he
    · obtain ⟨r, hr, rfl⟩ := List.mem_map.1 he
      exact ⟨r, (List.mem_filter.1 hr).1, rfl, rfl, rfl⟩
  have hcover : ∀ r ∈ base.edges,
      ∃ e ∈ p2.graph.edgesArray, e.id = r.id ∧ e.source = r.source ∧ e.target = r.target := by
    intro r hr
    by_cases h : r.id ∈ p.graph.edgeIds
    · obtain ⟨e, he, hid⟩ := List.mem_map.1 h
      obtain ⟨r1, hr1, h1, h2, h3⟩ := hse e he
      have : r1 = r := List.inj_on_of_nodup_map hbe hr1 hr (by rw [h1, hid])
      subst this
      exact ⟨e, by rw [b3]; exact List.mem_append_left _ he, h1.symm, h2.symm, h3.symm⟩
    · refine ⟨r.toEdge, ?_, rfl, rfl, rfl⟩
      rw [b3]
      exact List.mem_append_right _
        (List.mem_map_of_mem _ (List.mem_filter.2 ⟨hr, by simpa using h⟩))
  have hed2 : p2.graph.edgeIds.Nodup := by
    have hnewids : ((base.edges.filter (fun r => !p.graph.edgeIds.contains r.id)).map
        EdgeRecord.toEdge).map (·.id)
        = (base.edges.filter (fun r => !p.graph.edgeIds.contains r.id)).map (·.id) := by
      rw [List.map_map]
      rfl
    have hids_e2 : p2.graph.edgeIds = p.graph.edgeIds ++
        (base.edges.filter (fun r => !p.graph.edgeIds.contains r.id)).map (·.id) := by
      show p2.graph.edgesArray.map (·.id) = _
      rw [b3, List.map_append, hnewids]
      rfl
    rw [hids_e2]
    refine List.Nodup.append hge hsube ?_
    intro x hx hx2
    obtain ⟨r, hr, rfl⟩ := List.mem_map.1 hx2
    have hnot : r.id ∉ p.graph.edgeIds := by
      have := (List.mem_filter.1 hr).2
      intro hin
      rw [Bool.not_eq_true', ← Bool.not_eq_true] at this
      exact this (List.elem_eq_true_of_mem hin)
    exact hnot hx
  have hdang2 : p2.graph.NoDangling := by
    intro e he
    obtain ⟨r, hr, _, h2, h3⟩ := hW2 e he
    rw [← h2, ← h3]
    exact ⟨(hmem2 _).2 (hbc r hr).1, (hmem2 _).2 (hbc r hr).2⟩
  have hdeg : ∀ x, p2.graph.degree x = DegreeFilter.degree base x := by
    intro x
    have c1 := countP_readded p.graph.edgesArray base.edges hse hge hbe (fun k => k.2.1 == x)
    have c2 := countP_readded p.graph.edgesArray base.edges hse hge hbe (fun k => k.2.2 == x)
    have c1 : p2.graph.edgesArray.countP (fun e => e.source == x)
        = base.edges.countP (fun r => r.source == x) := by rw [b3]; exact c1
    have c2 : p2.graph.edgesArray.countP (fun e => e.target == x)
        = base.edges.countP (fun r => r.target == x) := by rw [b3]; exact c2
    simp only [Graph.degree, DegreeFilter.degree, c1, c2]
  -- the nodes of low degree are dropped
  have hdrops_nd : ((p2.graph.nodesArray.filter (fun node =>
      degree_below (p2.graph.degree node.id) (parseInt v))).map (·.id)).Nodup := by
    rw [hids2] at *
    exact List.Nodup.sublist (List.Sublist.map _ (List.filter_sublist _))
      (by simpa only [Graph.nodeIds, b2] using hnd1)
  have hdrops_iff : ∀ x, x ∈ (p2.graph.nodesArray.filter (fun node =>
      degree_below (p2.graph.degree node.id) (parseInt v))).map (·.id) ↔
      x ∈ p2.graph.nodeIds ∧ (DegreeFilter.degree base x : Int) < m := by
    intro x
    simp only [List.mem_map, List.mem_filter, Graph.nodeIds, hm, degree_below, hdeg,
      decide_eq_true_eq]
    constructor
    · rintro ⟨n, ⟨hn, hlt⟩, rfl⟩
      exact ⟨⟨n, hn, rfl⟩, hlt⟩
    · rintro ⟨⟨n, hn, rfl⟩, hlt⟩
      exact ⟨n, ⟨hn, hlt⟩, rfl⟩
  obtain ⟨p3, d1, d2, d3, d4, d5, d6, d7, d8⟩ := min_degree_filter_drop_done _ p2 hdrops_nd
    (fun x hx => ((hdrops_iff x).1 hx).1) (by rw [hids2]; exact hnd1)
  have hkeep : ∀ x, x ∈ base.nodes.map (·.id) →
      (x ∉ (p2.graph.nodesArray.filter (fun node =>
        degree_below (p2.graph.degree node.id) (parseInt v))).map (·.id) ↔
      m ≤ (DegreeFilter.degree base x : Int)) := by
    intro x hx
    rw [hdrops_iff x]
    constructor
    · intro h
      by_contra hlt
      exact h ⟨(hmem2 x).2 hx, not_le.1 hlt⟩
    · rintro h ⟨_, hlt⟩
      exact absurd h (not_le.2 hlt)
  have hn3 : ∀ x, x ∈ p3.graph.nodeIds ↔
      x ∈ base.nodes.map (·.id) ∧ m ≤ (DegreeFilter.degree base x : Int) := by
    intro x
    constructor
    · intro hx
      obtain ⟨n, hn, rfl⟩ := List.mem_map.1 hx
      obtain ⟨hn2, hnot⟩ := (d2 n).1 hn
      have hb : n.id ∈ base.nodes.map (·.id) := (hmem2 _).1 (List.mem_map_of_mem _ hn2)
      exact ⟨hb, (hkeep _ hb).1 hnot⟩
    · rintro ⟨hb, hle⟩
      obtain ⟨n, hn, rfl⟩ := List.mem_map.1 ((hmem2 x).2 hb)
      exact List.mem_map_of_mem _ ((d2 n).2 ⟨hn, (hkeep _ hb).2 hle⟩)
  have he3 : ∀ x, x ∈ p3.graph.edgeIds ↔ ∃ r ∈ base.edges, r.id = x ∧
      (r.source ∈ base.nodes.map (·.id) ∧ m ≤ (DegreeFilter.degree base r.source : Int)) ∧
      (r.target ∈ base.nodes.map (·.id) ∧ m ≤ (DegreeFilter.degree base r.target : Int)) := by
    intro x
    constructor
    · intro hx
      obtain ⟨e, he, rfl⟩ := List.mem_map.1 hx
      obtain ⟨he2, hs, ht⟩ := (d3 e).1 he
      obtain ⟨r, hr, h1, h2, h3⟩ := hW2 e he2
      have hbs := (hbc r hr).1
      have hbt := (hbc r hr).2
      refine ⟨r, hr, h1, ⟨hbs, (hkeep _ hbs).1 ?_⟩, ⟨hbt, (hkeep _ hbt).1 ?_⟩⟩
      · rw [h2]; exact hs
      · rw [h3]; exact ht
    · rintro ⟨r, hr, rfl, ⟨hbs, hls⟩, ⟨hbt, hlt⟩⟩
      obtain ⟨e, he, h1, h2, h3⟩ := hcover r hr
      rw [← h1]
      refine List.mem_map_of_mem _ ((d3 e).2 ⟨he, ?_, ?_⟩)
      · rw [h2]; exact (hkeep _ hbs).2 hls
      · rw [h3]; exact (hkeep _ hbt).2 hlt
  refine ⟨p3.refresh, ?_, hn3, he3, ⟨d4, d5 hed2, d6 hdang2⟩, ⟨?_, ?_⟩, ?_, ?_⟩
  · rw [min_degree_filter_eq, hbase]
    simp only [a1, b1, d1]
  · intro n hn
    exact (hmem2 _).1 (List.mem_map_of_mem _ ((d2 n).1 hn).1)
  · intro e he
    exact hW2 e ((d3 e).1 he).1
  · show p3.core_json = p.core_json
    rw [d7, b4, a5]
    rfl
  · show p3.time_slider = p.time_slider
    rw [d8, b5, a6]
    rfl

theorem DegreeFilter.apply_nodes_iff (base : Snapshot) (m : Int) (id : String) :
    id ∈ (DegreeFilter.apply base m).nodes.map (·.id) ↔
      id ∈ base.nodes.map (·.id) ∧ m ≤ (DegreeFilter.degree base id : Int) := by
  simp only [DegreeFilter.apply, List.mem_map, List.mem_filter, decide_eq_true_eq]
  constructor
  · rintro ⟨n, ⟨hn, hle⟩, rfl⟩
    exact ⟨⟨n, hn, rfl⟩, hle⟩
  · rintro ⟨⟨n, hn, rfl⟩, hle⟩
    exact ⟨n, ⟨hn, hle⟩, rfl⟩

theorem DegreeFilter.apply_edges_iff (base : Snapshot) (m : Int) (id : String) :
    id ∈ (DegreeFilter.apply base m).edges.map (·.id) ↔
      ∃ r ∈ base.edges, r.id = id ∧
        (r.source ∈ base.nodes.map (·.id) ∧ m ≤ (DegreeFilter.degree base r.source : Int)) ∧
        (r.target ∈ base.nodes.map (·.id) ∧ m ≤ (DegreeFilter.degree base r.target : Int)) := by
  have hn := DegreeFilter.apply_nodes_iff base m
  constructor
  · intro h
    obtain ⟨r, hr, rfl⟩ := List.mem_map.1 h
    have hr2 := List.mem_filter.1 hr
    have hboth := hr2.2
    rw [Bool.and_eq_true] at hboth
    exact ⟨r, hr2.1, rfl, (hn _).1 (List.mem_of_elem_eq_true hboth.1),
      (hn _).1 (List.mem_of_elem_eq_true hboth.2)⟩
  · rintro ⟨r, hr, rfl, hs, ht⟩
    refine List.mem_map_of_mem _ (List.mem_filter.2 ⟨hr, ?_⟩)
    rw [Bool.and_eq_true]
    exact ⟨List.elem_eq_true_of_mem ((hn _).2 hs), List.elem_eq_true_of_mem ((hn _).2 ht)⟩

theorem Snapshot.toGraph_wf (base : Snapshot) (h : base.Valid) :
    base.toGraph.WF ∧ base.toGraph.Within base := by
  obtain ⟨hn, he, hc⟩ := h
  refine ⟨⟨?_, ?_, rendered_noDangling base hc⟩, ?_, ?_⟩
  · simpa [Graph.nodeIds, Snapshot.toGraph, Function.comp, NodeRecord.toNode] using hn
  · simpa [Graph.edgeIds, Snapshot.toGraph, Function.comp, EdgeRecord.toEdge] using he
  · intro n hnm
    obtain ⟨r, hr, rfl⟩ := List.mem_map.1 hnm
    exact List.mem_map_of_mem _ hr
  · intro e hem
    obtain ⟨r, hr, rfl⟩ := List.mem_map.1 hem
    exact ⟨r, hr, rfl, rfl, rfl⟩

/-- C6: `min_degree_filter` computes the filter from the base snapshot at the
slider position, whatever part of that base is displayed.  For a display that
is a part of the valid base and a threshold text that parses to `m`, the call
returns; the displayed node ids are those of the filter of section 4.4 applied
to the base (degree at least `m`, counted over all base edges) and the
displayed edge ids are those of the base edges with both endpoints kept.  In
particular, filtering after an earlier filter with any other threshold gives
the same node and edge ids as filtering the freshly rendered base. -/
theorem min_degree_filter_from_base (random : Nat → ℚ) (p : Page) (base : Snapshot)
    (v : String) (m : Int)
    (hbase : core_json_at p.core_json (p.time_slider - 1) = some base)
    (hvalid : base.Valid) (hwf : p.graph.WF) (hsub : p.graph.Within base)
    (hm : parseInt v = some m) :
    (min_degree_filter random v p).completed = true ∧
    (∀ id, id ∈ (min_degree_filter random v p).page.graph.nodeIds ↔
      id ∈ (DegreeFilter.apply base m).nodes.map (·.id)) ∧
    (∀ id, id ∈ (min_degree_filter random v p).page.graph.edgeIds ↔
      id ∈ (DegreeFilter.apply base m).edges.map (·.id)) ∧
    (∀ (v1 : String) (m1 : Int), parseInt v1 = some m1 →
      (∀ id, id ∈ (min_degree_filter random v
            (min_degree_filter random v1 p).page).page.graph.nodeIds ↔
          id ∈ (min_degree_filter random v
            (render_new_network (some base) p).page).page.graph.nodeIds) ∧
      (∀ id, id ∈ (min_degree_filter random v
            (min_degree_filter random v1 p).page).page.graph.edgeIds ↔
          id ∈ (min_degree_filter random v
            (render_new_network (some base) p).page).page.graph.edgeIds)) := by
  obtain ⟨p3, h1, h2, h3, _, _, _, _⟩ :=
    min_degree_filter_spec random p base v m hbase hvalid hwf hsub hm
  refine ⟨by rw [h1]; rfl, ?_, ?_, ?_⟩
  · intro id
    rw [h1, DegreeFilter.apply_nodes_iff]
    exact h2 id
  · intro id
    rw [h1, DegreeFilter.apply_edges_iff]
    exact h3 id
  · intro v1 m1 hm1
    obtain ⟨pa, a1, _, _, a4, a5, a6, a7⟩ :=
      min_degree_filter_spec random p base v1 m1 hbase hvalid hwf hsub hm1
    obtain ⟨pa3, c1, c2, c3, _⟩ := min_degree_filter_spec random pa base v m
      (by rw [a6, a7]; exact hbase) hvalid a4 a5 hm
    have hr := render_new_network_valid base p hvalid
    obtain ⟨w1, w2⟩ := Snapshot.toGraph_wf base hvalid
    obtain ⟨pb3, e1, e2, e3, _⟩ := min_degree_filter_spec random
      ({ p with graph := base.toGraph, supervisor := none }.refresh) base v m
      hbase hvalid w1 w2 hm
    rw [a1, hr]
    simp only [Outcome.page]
    rw [c1, e1]
    simp only [Outcome.page]
    refine ⟨fun id => ?_, fun id => ?_⟩
    · rw [c2, e2]
    · rw [c3, e3]

/-- The witness of C6: the page showing snapshot A, whose slider is on A, and
the threshold text 1. -/
theorem min_degree_filter_from_base_witness :
    (core_json_at pageA.core_json (pageA.time_slider - 1) = some snapshotA ∧
      snapshotA.Valid ∧ pageA.graph.WF ∧ pageA.graph.Within snapshotA ∧
      parseInt "1" = some 1) ∧
    (min_degree_filter half "1" pageA).completed = true :=
  ⟨⟨by decide, by decide, by decide, by decide, by decide⟩,
    (min_degree_filter_from_base half pageA snapshotA "1" 1
      (by decide) (by decide) (by decide) (by decide) (by decide)).1⟩

/-- C7: the degree filter is monotone in its threshold.  For a display that is
a part of the valid base at the slider position and threshold texts that parse
to `t1 < t2`, every node id displayed after `min_degree_filter` with `t2` is
displayed after `min_degree_filter` with `t1`. -/
theorem min_degree_filter_monotone (random : Nat → ℚ) (p : Page) (base : Snapshot)
    (v1 v2 : String) (t1 t2 : Int)
    (hbase : core_json_at p.core_json (p.time_slider - 1) = some base)
    (hvalid : base.Valid) (hwf : p.graph.WF) (hsub : p.graph.Within base)
    (h1 : parseInt v1 = some t1) (h2 : parseInt v2 = some t2) (hlt : t1 < t2) :
    ∀ id, id ∈ (min_degree_filter random v2 p).page.graph.nodeIds →
      id ∈ (min_degree_filter random v1 p).page.graph.nodeIds := by
  obtain ⟨pa, a1, a2, _⟩ := min_degree_filter_spec random p base v1 t1 hbase hvalid hwf hsub h1
  obtain ⟨pb, b1, b2, _⟩ := min_degree_filter_spec random p base v2 t2 hbase hvalid hwf hsub h2
  intro id hid
  rw [b1] at hid
  rw [a1]
  simp only [Outcome.page] at hid ⊢
  obtain ⟨hb, hle⟩ := (b2 id).1 hid
  exact (a2 id).2 ⟨hb, le_trans (le_of_lt hlt) hle⟩

/-- The witness of C7: the page showing snapshot A and the thresholds 1 and 2. -/
theorem min_degree_filter_monotone_witness :
    (core_json_at pageA.core_json (pageA.time_slider - 1) = some snapshotA ∧
      snapshotA.Valid ∧ pageA.graph.WF ∧ pageA.graph.Within snapshotA ∧
      parseInt "1" = some 1 ∧ parseInt "2" = some 2 ∧ (1 : Int) < 2) ∧
    ∀ id, id ∈ (min_degree_filter half "2" pageA).page.graph.nodeIds →
      id ∈ (min_degree_filter half "1" pageA).page.graph.nodeIds :=
  ⟨⟨by decide, by decide, by decide, by decide, by decide, by decide, by decide⟩,
    min_degree_filter_monotone half pageA snapshotA "1" "2" 1 2
      (by decide) (by decide) (by decide) (by decide) (by decide) (by decide) (by decide)⟩

/-! ## What the loops leave alone -/

theorem Page.addNode_kept {J : Page → Prop} (hJ : LoopKept J) {p p1 : Page} {n : Node}
    (h : p.addNode n = .ok p1) (hp : J p) : J p1 := by
  obtain ⟨g, _, rfl⟩ := Page.addNode_page_ok h
  exact hJ.log _ _ rfl (hJ.graph p g hp)

theorem Page.setNodeSize_kept {J : Page → Prop} (hJ : LoopKept J) {p p1 : Page} {id : String}
    {v : ℚ} (h : p.setNodeSize id v = .ok p1) (hp : J p) : J p1 := by
  obtain ⟨g, _, rfl⟩ := Page.setNodeSize_page_ok h
  exact hJ.log _ _ rfl (hJ.graph p g hp)

theorem Page.dropNode_kept {J : Page → Prop} (hJ : LoopKept J) {p p1 : Page} {id : String}
    (h : p.dropNode id = .ok p1) (hp : J p) : J p1 := by
  obtain ⟨g, _, rfl⟩ := Page.dropNode_page_ok h
  exact hJ.log _ _ rfl (hJ.graph p g hp)

theorem Page.addEdge_kept {J : Page → Prop} (hJ : LoopKept J) {p p1 : Page} {e : Edge}
    (h : p.addEdge e = .ok p1) (hp : J p) : J p1 := by
  obtain ⟨g, _, rfl⟩ := Page.addEdge_page_ok h
  exact hJ.log _ _ rfl (hJ.graph p g hp)

theorem Page.setEdgeSize_kept {J : Page → Prop} (hJ : LoopKept J) {p p1 : Page} {id : String}
    {v : ℚ} (h : p.setEdgeSize id v = .ok p1) (hp : J p) : J p1 := by
  obtain ⟨g, _, rfl⟩ := Page.setEdgeSize_page_ok h
  exact hJ.log _ _ rfl (hJ.graph p g hp)

theorem change_network_nodes_kept (random : Nat → ℚ) {J : Page → Prop} (hJ : LoopKept J)
    (E : List String) :
    ∀ (recs : List NodeRecord) (acc : List String) (p : Page), J p →
      J (change_network_nodes random E recs acc p).page := by
  intro recs
  induction recs with
  | nil => intro acc p h; simpa [change_network_nodes, Outcome.page] using h
  | cons r rest ih =>
    intro acc p h
    simp only [change_network_nodes]
    split
    · split
      · rename_i p1 hp1
        exact ih _ _ (Page.addNode_kept hJ hp1 (hJ.random_calls p _ h))
      · exact hJ.random_calls p _ h
    · split
      · rename_i p1 hp1
        exact ih _ _ (Page.setNodeSize_kept hJ hp1 h)
      · exact h

theorem change_network_clean_kept {J : Page → Prop} (hJ : LoopKept J) (added : List String) :
    ∀ (ids : List String) (p : Page), J p → J (change_network_clean added ids p).page := by
  intro ids
  induction ids with
  | nil => intro p h; simpa [change_network_clean, Outcome.page] using h
  | cons id rest ih =>
    intro p h
    simp only [change_network_clean]
    split
    · split
      · exact h
      · split
        · rename_i p1 hp1
          exact ih _ (Page.dropNode_kept hJ hp1 (hJ.delete_node_ids p _ h))
        · exact hJ.delete_node_ids p _ h
    · exact ih _ h

theorem change_network_edges_kept {J : Page → Prop} (hJ : LoopKept J) (existing : List String) :
    ∀ (recs : List EdgeRecord) (acc : List String) (p : Page), J p →
      J (change_network_edges existing recs acc p).page := by
  intro recs
  induction recs with
  | nil => intro acc p h; simpa [change_network_edges, Outcome.page] using h
  | cons r rest ih =>
    intro acc p h
    simp only [change_network_edges]
    split
    · split
      · rename_i p1 hp1
        exact ih _ _ (Page.addEdge_kept hJ hp1 h)
      · exact h
    · split
      · rename_i p1 hp1
        exact ih _ _ (Page.setEdgeSize_kept hJ hp1 h)
      · exact h

theorem min_degree_filter_nodes_kept (random : Nat → ℚ) {J : Page → Prop} (hJ : LoopKept J)
    (there : List String) :
    ∀ (recs : List NodeRecord) (p : Page), J p →
      J (min_degree_filter_nodes random there recs p).page := by
  intro recs
  induction recs with
  | nil => intro p h; simpa [min_degree_filter_nodes, Outcome.page] using h
  | cons r rest ih =>
    intro p h
    simp only [min_degree_filter_nodes]
    split
    · split
      · rename_i p1 hp1
        exact ih _ (Page.addNode_kept hJ hp1 (hJ.random_calls p _ h))
      · exact hJ.random_calls p _ h
    · exact ih _ h

theorem min_degree_filter_edges_kept {J : Page → Prop} (hJ : LoopKept J)
    (there : List String) :
    ∀ (recs : List EdgeRecord) (p : Page), J p →
      J (min_degree_filter_edges there recs p).page := by
  intro recs
  induction recs with
  | nil => intro p h; simpa [min_degree_filter_edges, Outcome.page] using h
  | cons r rest ih =>
    intro p h
    simp only [min_degree_filter_edges]
    split
    · split
      · rename_i p1 hp1
        exact ih _ (Page.addEdge_kept hJ hp1 h)
      · exact h
    · exact ih _ h

theorem min_degree_filter_drop_kept {J : Page → Prop} (hJ : LoopKept J) :
    ∀ (drops : List String) (p : Page), J p → J (min_degree_filter_drop drops p).page := by
  intro drops
  induction drops with
  | nil => intro p h; simpa [min_degree_filter_drop, Outcome.page] using h
  | cons x rest ih =>
    intro p h
    simp only [min_degree_filter_drop]
    split
    · rename_i p1 hp1
      exact ih _ (Page.dropNode_kept hJ hp1 h)
    · exact h

/-- A property of pages that the loops cannot break, and that the statements
around them keep, holds of the page `change_network` leaves, whether it returns
or throws, also when it is called with `undefined`. -/
theorem change_network_kept (random : Nat → ℚ) {J : Page → Prop} (hJ : LoopKept J)
    (hpre : ∀ p, J p → J (stop_force_atlas p).killForceAtlas2)
    (hpost : ∀ p, J p → J (start_force_atlas p.refresh))
    (u : Option Snapshot) (p : Page) (h : J p) : J (change_network random u p).page := by
  cases u with
  | none => exact hpre p h
  | some t =>
    rw [change_network_eq]
    have h1 := change_network_nodes_kept random hJ p.graph.nodeIds t.nodes []
      (stop_force_atlas p).killForceAtlas2 (hpre p h)
    cases hn : change_network_nodes random p.graph.nodeIds t.nodes []
        (stop_force_atlas p).killForceAtlas2 with
    | threw e p1 => rw [hn] at h1; exact h1
    | done added p1 =>
      rw [hn] at h1
      have h2 := change_network_clean_kept hJ added p.graph.nodeIds p1 h1
      cases hc : change_network_clean added p.graph.nodeIds p1 with
      | threw e p2 => rw [hc] at h2; simpa only [hc] using h2
      | done u2 p2 =>
        rw [hc] at h2
        have h3 := change_network_edges_kept hJ p2.graph.edgeIds t.edges [] p2 h2
        cases he : change_network_edges p2.graph.edgeIds t.edges [] p2 with
        | threw e p3 => rw [he] at h3; simpa only [hc, he] using h3
        | done u3 p3 =>
          rw [he] at h3
          simp only [hc, he]
          exact hpost p3 h3

theorem Page.reconciled_log (p : Page) (e : Effect) (h : ∀ i, e ≠ .changeDate i) :
    (p.log e).reconciled = p.reconciled := by
  simp only [Page.reconciled, Page.log, List.filterMap_append]
  cases e <;> simp_all

theorem Page.frame_log (p : Page) (e : Effect) (h : ∀ i, e ≠ .changeDate i) :
    (p.log e).frame = p.frame := by
  simp only [Page.frame, Page.reconciled_log p e h]
  rfl

theorem frame_loopKept (c : List (String × Snapshot) × Int × String × Bool × Bool × Int × Int ×
    Option Bool × List Int) : LoopKept (fun p => p.frame = c) where
  graph := fun _ _ h => h
  log := fun p e he h => by
    rw [Page.frame_log p e (by intro i hi; subst hi; cases he)]
    exact h
  random_calls := fun _ _ h => h
  delete_node_ids := fun _ _ h => h

theorem frame_stopForceAtlas2 (p : Page) : p.stopForceAtlas2.frame = p.frame := by
  show (Page.log _ Effect.stopForceAtlas2).frame = _
  rw [Page.frame_log _ _ (by intro i hi; cases hi)]
  rfl

theorem frame_killForceAtlas2 (p : Page) : p.killForceAtlas2.frame = p.frame := by
  show (Page.log _ Effect.killForceAtlas2).frame = _
  rw [Page.frame_log _ _ (by intro i hi; cases hi)]
  rfl

theorem frame_startForceAtlas2 (p : Page) : p.startForceAtlas2.frame = p.frame := by
  show (Page.log _ Effect.startForceAtlas2).frame = _
  rw [Page.frame_log _ _ (by intro i hi; cases hi)]
  rfl

theorem frame_refresh (p : Page) : p.refresh.frame = p.frame :=
  Page.frame_log p _ (by intro i hi; cases hi)

/-- A call of `change_network` leaves the series, the slider, the name box,
the playback globals and the list of indices passed to `change_date` as they
were. -/
theorem change_network_frame (random : Nat → ℚ) (u : Option Snapshot) (p : Page) :
    (change_network random u p).page.frame = p.frame := by
  refine change_network_kept random (frame_loopKept p.frame) ?_ ?_ u p rfl
  · intro q hq
    rw [← hq, frame_killForceAtlas2]
    exact frame_stopForceAtlas2 _
  · intro q hq
    rw [← hq]
    show (Page.startForceAtlas2 _).frame = _
    rw [frame_startForceAtlas2, ← frame_refresh q]
    rfl

/-! ## Playback and the handlers -/

theorem change_date_eq (random : Nat → ℚ) (index : Int) (p : Page) :
    change_date random index p =
      change_network random
        ((match arrayAt (p.core_json.map Prod.fst) index with
          | some k => { p.log (.changeDate index) with network_name_box := k }
          | none => p.log (.changeDate index)).core_json.lookup
            ((arrayAt (p.core_json.map Prod.fst) index).getD "undefined"))
        (match arrayAt (p.core_json.map Prod.fst) index with
          | some k => { p.log (.changeDate index) with network_name_box := k }
          | none => p.log (.changeDate index)) := rfl

/-- A call of `change_date` passes its index on once, and leaves the series,
the slider and the playback globals as they were. -/
theorem change_date_frame (random : Nat → ℚ) (index : Int) (p : Page) :
    (change_date random index p).page.reconciled = p.reconciled ++ [index] ∧
    (change_date random index p).page.animation_running = p.animation_running ∧
    (change_date random index p).page.animate_network = p.animate_network ∧
    (change_date random index p).page.core_json = p.core_json ∧
    (change_date random index p).page.date_amount = p.date_amount ∧
    (change_date random index p).page.current_date = p.current_date ∧
    (change_date random index p).page.time_slider = p.time_slider := by
  have hlog : (p.log (.changeDate index)).reconciled = p.reconciled ++ [index] := by
    simp [Page.reconciled, Page.log, List.filterMap_append]
  rw [change_date_eq]
  cases hk : arrayAt (p.core_json.map Prod.fst) index with
  | none =>
    have hf := change_network_frame random
      ((p.log (Effect.changeDate index)).core_json.lookup
        ((none : Option String).getD "undefined"))
      (p.log (Effect.changeDate index))
    simp only [Page.frame, Prod.mk.injEq] at hf
    obtain ⟨f1, f2, _, f4, _, f6, f7, f8, f9⟩ := hf
    exact ⟨by rw [f9, hlog], f4, f8, f1, f6, f7, f2⟩
  | some k =>
    have hf := change_network_frame random
      ((p.log (Effect.changeDate index)).core_json.lookup ((some k).getD "undefined"))
      { p.log (Effect.changeDate index) with network_name_box := k }
    simp only [Page.frame, Prod.mk.injEq] at hf
    obtain ⟨f1, f2, _, f4, _, f6, f7, f8, f9⟩ := hf
    exact ⟨by rw [f9]; exact hlog, f4, f8, f1, f6, f7, f2⟩

theorem stop_animation_bound (p : Page) (live : Bool) (h : p.animate_network = some live) :
    ∃ q, stop_animation p = .done () q ∧ q.animation_running = false ∧
      q.animate_network = some false ∧ q.reconciled = p.reconciled ∧
      q.time_slider = p.time_slider := by
  refine ⟨({ p with animation_running := false, graph_manipulation_disabled := false,
                    animate_network := some false } : Page).log .clearInterval,
    by simp only [stop_animation, h], rfl, rfl, ?_, rfl⟩
  exact Page.reconciled_log _ _ (by intro i hi; cases hi)

theorem tick_of_cleared (random : Nat → ℚ) (p : Page) (h : p.animate_network = some false) :
    tick random p = p := by
  simp only [tick, h]

theorem ticks_of_cleared (random : Nat → ℚ) :
    ∀ (n : Nat) (p : Page), p.animate_network = some false → ticks random n p = p := by
  intro n
  induction n with
  | zero => intro p _; rfl
  | succ k ih =>
    intro p h
    simp only [ticks]
    rw [tick_of_cleared random p h]
    exact ih p h

/-- C14 as amended: a change of the time slider performs exactly one
`change_date` call, with the chosen position minus one, and stops a playing
animation first.  When the animation is playing (its timer is bound),
afterwards `animation_running` is false, the interval is cleared and later
ticks do nothing; when it is idle, it stays idle and the timer is untouched. -/
theorem time_slider_change_stops_animation (random : Nat → ℚ) (p : Page) (value : Int) :
    (p.animation_running = true → (∃ live, p.animate_network = some live) →
      (time_slider_change random value p).page.animation_running = false ∧
      (time_slider_change random value p).page.animate_network = some false ∧
      (time_slider_change random value p).page.reconciled = p.reconciled ++ [value - 1] ∧
      ∀ n, ticks random n (time_slider_change random value p).page
        = (time_slider_change random value p).page) ∧
    (p.animation_running = false →
      (time_slider_change random value p).page.animation_running = false ∧
      (time_slider_change random value p).page.animate_network = p.animate_network ∧
      (time_slider_change random value p).page.reconciled = p.reconciled ++ [value - 1]) := by
  constructor
  · rintro hrun ⟨live, hlive⟩
    obtain ⟨q, hq, q1, q2, q3, q4⟩ := stop_animation_bound { p with time_slider := value } live
      hlive
    have hcall : time_slider_change random value p = change_date random (value - 1) q := by
      have h1 : ({ p with time_slider := value } : Page).animation_running = true := hrun
      have h2 : q.time_slider = value := q4
      show (if ({ p with time_slider := value } : Page).animation_running = true then _ else _) = _
      rw [if_pos h1, hq]
      show change_date random (q.time_slider - 1) q = _
      rw [h2]
    obtain ⟨c1, c2, c3, _⟩ := change_date_frame random (value - 1) q
    rw [hcall]
    refine ⟨c2.trans q1, c3.trans q2, by rw [c1, q3]; rfl, ?_⟩
    intro n
    exact ticks_of_cleared random n _ (c3.trans q2)
  · intro hidle
    have hcall : time_slider_change random value p
        = change_date random (value - 1) { p with time_slider := value } := by
      simp only [time_slider_change, hidle]
      rfl
    obtain ⟨c1, c2, c3, _⟩ := change_date_frame random (value - 1) { p with time_slider := value }
    rw [hcall]
    exact ⟨c2.trans hidle, c3, c1⟩

/-- The witness of C14 as amended: the slider is moved to position 2 while the
animation plays on the page showing snapshot A. -/
theorem time_slider_change_stops_animation_witness :
    (pageA_playing.animation_running = true ∧
      ∃ live, pageA_playing.animate_network = some live) ∧
    (time_slider_change half 2 pageA_playing).page.animation_running = false ∧
    (time_slider_change half 2 pageA_playing).page.animate_network = some false :=
  ⟨⟨by decide, ⟨true, by decide⟩⟩,
    ((time_slider_change_stops_animation half pageA_playing 2).1 (by decide)
      ⟨true, by decide⟩).1,
    ((time_slider_change_stops_animation half pageA_playing 2).1 (by decide)
      ⟨true, by decide⟩).2.1⟩

/-- C14 as stated fails: on the page showing snapshot A with the animation
playing over the series A, B, moving the slider to position 2 leaves
`animation_running` false and the interval cleared, whereas the claim says the
animation is still playing and the pending tick is not cancelled.  The handler
stops the animation before it calls `change_date`. -/
theorem time_slider_change_stops_playing_animation :
    pageA_playing.animation_running = true ∧
    pageA_playing.animate_network = some true ∧
    (time_slider_change half 2 pageA_playing).page.animation_running = false ∧
    (time_slider_change half 2 pageA_playing).page.animate_network = some false ∧
    (time_slider_change half 2 pageA_playing).page.reconciled = [1] ∧
    (ticks half 3 (time_slider_change half 2 pageA_playing).page).reconciled = [1] := by
  decide

/-! ## The layout after `min_degree_filter` -/

theorem supervisor_loopKept : LoopKept (fun p => p.supervisor = none) where
  graph := fun _ _ h => h
  log := fun _ _ _ h => h
  random_calls := fun _ _ h => h
  delete_node_ids := fun _ _ h => h

/-- After `min_degree_filter` there is no layout supervisor, whatever the
state of the layout before the call and whether the call returns or throws:
the layout is killed on line 158 and nothing starts it again. -/
theorem min_degree_filter_kills_layout (random : Nat → ℚ) (v : String) (p : Page) :
    (min_degree_filter random v p).page.supervisor = none := by
  rw [min_degree_filter_eq]
  cases core_json_at p.core_json (p.time_slider - 1) with
  | none => rfl
  | some root_json =>
    simp only []
    have h1 := min_degree_filter_nodes_kept random supervisor_loopKept p.graph.nodeIds
      root_json.nodes (stop_force_atlas p).killForceAtlas2 rfl
    cases hn : min_degree_filter_nodes random p.graph.nodeIds root_json.nodes
        (stop_force_atlas p).killForceAtlas2 with
    | threw e p1 => rw [hn] at h1; exact h1
    | done u1 p1 =>
      rw [hn] at h1
      have h2 := min_degree_filter_edges_kept supervisor_loopKept p.graph.edgeIds
        root_json.edges p1 h1
      cases he : min_degree_filter_edges p.graph.edgeIds root_json.edges p1 with
      | threw e p2 => rw [he] at h2; simpa only [he] using h2
      | done u2 p2 =>
        rw [he] at h2
        have h3 := min_degree_filter_drop_kept supervisor_loopKept
          ((p2.graph.nodesArray.filter (fun node =>
            degree_below (p2.graph.degree node.id) (parseInt v))).map (·.id)) p2 h2
        cases hd : min_degree_filter_drop
            ((p2.graph.nodesArray.filter (fun node =>
              degree_below (p2.graph.degree node.id) (parseInt v))).map (·.id)) p2 with
        | threw e p3 => rw [hd] at h3; simpa only [he, hd] using h3
        | done u3 p3 => rw [hd] at h3; simpa only [he, hd] using h3

/-- C11, the code on the page showing snapshot A with the layout running:
`min_degree_filter` returns and the layout is no longer running.  The function
stops and kills the layout (lines 154-158) and has no statement that starts it
again; `restart_fa2` is set and never read. -/
theorem min_degree_filter_stops_running_layout :
    pageA_running.isForceAtlas2Running = true ∧
    (min_degree_filter half "1" pageA_running).completed = true ∧
    (min_degree_filter half "1" pageA_running).page.isForceAtlas2Running = false ∧
    (min_degree_filter half "1" pageA_running).page.supervisor = none := by
  decide

/-! ## `change_graph_settings` -/

/-- C12: an invalid numeric setting is ignored.  For an input of type
`number` whose value `parseFloat` reads as `NaN`, whatever its name,
`change_graph_settings` returns with `fa2config`, the settings of the sigma
instance, the page and the configuration of the layout supervisor exactly as
they were; only the alert box and the global `e_value` are written. -/
theorem change_graph_settings_ignores_invalid_number (random : Nat → ℚ) (e : InputElement)
    (w : Panel) (htype : e.type = "number") (hnan : (parseFloatText e.value).isNaN = true) :
    (change_graph_settings random e w).returned = true ∧
    (change_graph_settings random e w).panel.fa2config = w.fa2config ∧
    (change_graph_settings random e w).panel.settings = w.settings ∧
    (change_graph_settings random e w).panel.page = w.page ∧
    (change_graph_settings random e w).panel.supervisor_config = w.supervisor_config ∧
    (change_graph_settings random e w).panel.parameter_alert_box
      = "Invalid value for " ++ e.name := by
  simp [change_graph_settings, htype, hnan, PanelOutcome.returned, PanelOutcome.panel]

/-- The witness of C12: a number input named `gravity` holding the text abc. -/
theorem change_graph_settings_ignores_invalid_number_witness :
    (invalidGravityInput.type = "number" ∧
      (parseFloatText invalidGravityInput.value).isNaN = true) ∧
    (change_graph_settings half invalidGravityInput (Panel.initial pageA)).panel.fa2config
      = (Panel.initial pageA).fa2config :=
  ⟨⟨by decide, by decide⟩,
    (change_graph_settings_ignores_invalid_number half invalidGravityInput (Panel.initial pageA)
      (by decide) (by decide)).2.1⟩

theorem parseFloatText_five : parseFloatText "5" = .finite 5 := by
  simp [parseFloatText, isStrWhiteSpaceChar, startsWith, decimalValue, exponentValue]

/-- C13, the code on a number input named `slow-down` holding 5, after the
labels were switched on: `fa2config.slowDown` is set, and the rendering setting
`drawLabels` goes from true to false.  The case `slow-down` has no `break`, so
control falls into the case `show-labels`, which stores `e.checked`. -/
theorem slow_down_falls_through_to_show_labels :
    readKey panelLabelsOn.settings "drawLabels" = .boolean true ∧
    (change_graph_settings half slowDownInput panelLabelsOn).returned = true ∧
    readKey (change_graph_settings half slowDownInput panelLabelsOn).panel.fa2config "slowDown"
      = .number (.finite 5) ∧
    readKey (change_graph_settings half slowDownInput panelLabelsOn).panel.settings "drawLabels"
      = .boolean false := by
  refine ⟨by decide, by decide, ?_, by decide⟩
  rw [← parseFloatText_five]
  rfl

/-! ## The effects of one call of `change_network` -/

theorem effects_loopKept (base : List Effect) :
    LoopKept (fun p => ∃ es, p.effects = base ++ es ∧ ∀ e ∈ es, e.mutates = true) where
  graph := fun _ _ h => h
  log := fun p e he h => by
    obtain ⟨es, h1, h2⟩ := h
    refine ⟨es ++ [e], ?_, ?_⟩
    · show p.effects ++ [e] = _
      rw [h1, List.append_assoc]
    · intro e1 he1
      rcases List.mem_append.1 he1 with h3 | h3
      · exact h2 e1 h3
      · rw [List.mem_singleton.1 h3]; exact he
  random_calls := fun _ _ h => h
  delete_node_ids := fun _ _ h => h

/-- The effects of one call of `change_network`, in order: the layout is
stopped and killed, then come graph mutations only, and, when the call
returns, one refresh followed by the start of the layout.  A call that throws
ends after the mutations, without a refresh. -/
theorem change_network_effects_shape (random : Nat → ℚ) (p : Page) (t : Snapshot) :
    ∃ es, (∀ e ∈ es, e.mutates = true) ∧
      effectsSince p (change_network random (some t) p).page
        = [.stopForceAtlas2, .killForceAtlas2] ++ es ++
          (if (change_network random (some t) p).completed then [.refresh, .startForceAtlas2]
           else []) := by
  have hdrop : ∀ (q : Page) (es : List Effect), q.effects = p.effects ++ es →
      effectsSince p q = es := by
    intro q es h
    simp [effectsSince, h]
  have h0 : (stop_force_atlas p).killForceAtlas2.effects
      = p.effects ++ [.stopForceAtlas2, .killForceAtlas2] := by
    show (p.effects ++ [Effect.stopForceAtlas2]) ++ [Effect.killForceAtlas2] = _
    simp
  have hJ := effects_loopKept (p.effects ++ [.stopForceAtlas2, .killForceAtlas2])
  rw [change_network_eq]
  have h1 := change_network_nodes_kept random hJ p.graph.nodeIds t.nodes []
    (stop_force_atlas p).killForceAtlas2 ⟨[], by rw [h0, List.append_nil], by simp⟩
  cases hn : change_network_nodes random p.graph.nodeIds t.nodes []
      (stop_force_atlas p).killForceAtlas2 with
  | threw e p1 =>
    rw [hn] at h1
    obtain ⟨es, e1, e2⟩ := h1
    refine ⟨es, e2, ?_⟩
    simp only [Outcome.page, Outcome.completed] at e1 ⊢
    rw [hdrop p1 _ (by rw [e1, List.append_assoc])]
    simp
  | done added p1 =>
    rw [hn] at h1
    have h2 := change_network_clean_kept hJ added p.graph.nodeIds p1 h1
    cases hc : change_network_clean added p.graph.nodeIds p1 with
    | threw e p2 =>
      rw [hc] at h2
      obtain ⟨es, e1, e2⟩ := h2
      refine ⟨es, e2, ?_⟩
      simp only [hc, Outcome.page, Outcome.completed] at e1 ⊢
      rw [hdrop p2 _ (by rw [e1, List.append_assoc])]
      simp
    | done u2 p2 =>
      rw [hc] at h2
      have h3 := change_network_edges_kept hJ p2.graph.edgeIds t.edges [] p2 h2
      cases he : change_network_edges p2.graph.edgeIds t.edges [] p2 with
      | threw e p3 =>
        rw [he] at h3
        obtain ⟨es, e1, e2⟩ := h3
        refine ⟨es, e2, ?_⟩
        simp only [hc, he, Outcome.page, Outcome.completed] at e1 ⊢
        rw [hdrop p3 _ (by rw [e1, List.append_assoc])]
        simp
      | done u3 p3 =>
        rw [he] at h3
        obtain ⟨es, e1, e2⟩ := h3
        refine ⟨es, e2, ?_⟩
        simp only [hc, he, Outcome.page, Outcome.completed] at e1 ⊢
        have hfin : (start_force_atlas p3.refresh).effects
            = p.effects ++ ([Effect.stopForceAtlas2, Effect.killForceAtlas2] ++ es ++
                [Effect.refresh, Effect.startForceAtlas2]) := by
          show (p3.effects ++ [Effect.refresh]) ++ [Effect.startForceAtlas2] = _
          rw [e1]
          simp
        rw [hdrop _ _ hfin]
        simp

/-- A call of `change_network` that returns refreshes once, after all its
graph mutations; a call that throws does not refresh. -/
theorem change_network_refresh_count (random : Nat → ℚ) (p : Page) (t : Snapshot) :
    refreshCount (effectsSince p (change_network random (some t) p).page)
      = if (change_network random (some t) p).completed then 1 else 0 := by
  obtain ⟨es, h1, h2⟩ := change_network_effects_shape random p t
  have hes : es.count Effect.refresh = 0 := by
    rw [List.count_eq_zero]
    intro hmem
    have := h1 _ hmem
    cases this
  rw [h2]
  cases (change_network random (some t) p).completed <;>
    simp [refreshCount, List.count_append, hes]

/-- C15, the code on the scenario of section 8 (page showing A, target B, both
valid): the call throws at line 110 after the node loop; its effects are the
stop and the kill of the layout, the resize of n2 and the addition of n3, and
no refresh follows them. -/
theorem change_network_throw_skips_refresh :
    pageA.graph.WF ∧ snapshotB.Valid ∧
    effectsSince pageA (change_network half (some snapshotB) pageA).page
      = [.stopForceAtlas2, .killForceAtlas2, .setNodeSize "n2", .addNode "n3"] ∧
    refreshCount (effectsSince pageA (change_network half (some snapshotB) pageA).page) = 0 := by
  decide

/-! ## When `change_network` returns -/

/-- A call of `change_network` on a valid target returns exactly when
`delete_node_ids` is bound in the page or no displayed node is missing from
the target; otherwise line 110 throws. -/
theorem change_network_completes_iff (random : Nat → ℚ) (p : Page) (t : Snapshot)
    (hwf : p.graph.nodeIds.Nodup) (ht : t.Valid) :
    (change_network random (some t) p).completed = true ↔
      (p.delete_node_ids ≠ none ∨ ∀ id ∈ p.graph.nodeIds, id ∈ t.nodes.map (·.id)) := by
  constructor
  · intro hc
    by_contra hcon
    rw [not_or, not_not] at hcon
    obtain ⟨hdel, hmiss⟩ := hcon
    have hsubn : ((t.nodes.filter (fun r => !p.graph.nodeIds.contains r.id)).map (·.id)).Nodup :=
      ht.1.sublist (List.Sublist.map _ (List.filter_sublist _))
    obtain ⟨p1, extra, h1, _, _, _, h5⟩ := change_network_nodes_done random p.graph.nodeIds
      t.nodes [] (stop_force_atlas p).killForceAtlas2 (fun _ h => h) (fun _ _ h => h) hsubn
    have h5 : p1.delete_node_ids = none := by rw [h5]; exact hdel
    have hcl := (change_network_clean_unbound ([] ++ t.nodes.map (·.id)) p.graph.nodeIds p1 h5).2
    rw [change_network_eq, h1] at hc
    cases hq : change_network_clean ([] ++ t.nodes.map (·.id)) p.graph.nodeIds p1 with
    | threw e p2 =>
      simp only [hq, Outcome.completed] at hc
      cases hc
    | done u p2 =>
      rw [hq] at hcl
      exact hmiss (by simpa [Outcome.completed] using hcl)
  · intro h
    cases hc : (change_network random (some t) p).completed with
    | true => rfl
    | false =>
      obtain ⟨_, hdel, _, id, hid, _, hnot⟩ := (change_network_summary random p t hwf ht).2.2 hc
      rcases h with h | h
      · exact absurd hdel h
      · exact absurd (h id hid) hnot

/-- C17, the code on the scenario of section 8: the displayed graph A has no
dangling edge, the edges of target B only reference nodes of B, B lacks the
displayed node n1, and the call throws a ReferenceError at line 110; the final
refresh and the layout restart are not reached. -/
theorem change_network_raises_on_valid_input :
    pageA.graph.WF ∧ pageA.graph.NoDangling ∧ snapshotB.Valid ∧ snapshotB.Closed ∧
    "n1" ∈ pageA.graph.nodeIds ∧ "n1" ∉ snapshotB.nodes.map (fun (r : NodeRecord) => r.id) ∧
    (change_network half (some snapshotB) pageA).completed = false ∧
    (change_network half (some snapshotB) pageA).error
      = some (.referenceError "delete_node_ids") ∧
    Effect.refresh ∉ effectsSince pageA (change_network half (some snapshotB) pageA).page ∧
    Effect.startForceAtlas2 ∉
      effectsSince pageA (change_network half (some snapshotB) pageA).page := by
  decide

/-- C16, the code on the scenario of section 8 (page showing A, valid target
B): the node loop resizes n2 to the size of the target and adds n3, then line
110 throws; the edge e2 of the target is not displayed and the displayed edges
are still those of A. -/
theorem change_network_leaves_target_edge_out :
    pageA.graph.WF ∧ snapshotB.Valid ∧
    (change_network half (some snapshotB) pageA).completed = false ∧
    (change_network half (some snapshotB) pageA).page.graph.nodesArray.map
        (fun (n : Node) => (n.id, n.label, n.size)) = [("n1", "", 1), ("n2", "", 2), ("n3", "", 1)] ∧
    snapshotB.edges.map (fun (r : EdgeRecord) => r.id) = ["e2"] ∧
    "e2" ∉ (change_network half (some snapshotB) pageA).page.graph.edgeIds ∧
    (change_network half (some snapshotB) pageA).page.graph.edgesArray
      = pageA.graph.edgesArray := by
  decide

/-! ## Playback started on the last position -/

theorem animate_callback_eq (random : Nat → ℚ) (p : Page) :
    animate_callback random p =
      match change_date random (p.current_date + 1 - 1)
          { p with current_date := p.current_date + 1, time_slider := p.current_date + 1 } with
      | .threw e p1 => .threw e p1
      | .done _ p1 =>
        if p1.current_date ≥ p1.date_amount then stop_animation p1 else .done () p1 := rfl

/-- A call of `change_date` with an index past the end of the series, in a
series without a key named undefined, throws the TypeError of line 85. -/
theorem change_date_out_of_series (random : Nat → ℚ) (index : Int) (p : Page)
    (h : (p.core_json.length : Int) ≤ index) (hund : p.core_json.lookup "undefined" = none) :
    (change_date random index p).completed = false := by
  have hk : arrayAt (p.core_json.map Prod.fst) index = none := by
    have h0 : ¬ index < 0 := by omega
    simp only [arrayAt, if_neg h0]
    rw [List.getElem?_eq_none_iff, List.length_map]
    omega
  rw [change_date_eq, hk]
  show (change_network random (p.core_json.lookup "undefined") _).completed = false
  rw [hund]
  rfl

/-- One timer period of a live animation whose counter is past the end of the
series: the callback passes the counter to `change_date`, which throws, so the
test of line 293 is skipped and the animation stays live. -/
theorem tick_out_of_series (random : Nat → ℚ) (q : Page)
    (hlive : q.animate_network = some true)
    (h : (q.core_json.length : Int) ≤ q.current_date)
    (hund : q.core_json.lookup "undefined" = none) :
    (tick random q).animate_network = some true ∧
    (tick random q).animation_running = q.animation_running ∧
    (tick random q).core_json = q.core_json ∧
    (tick random q).current_date = q.current_date + 1 ∧
    (tick random q).reconciled = q.reconciled ++ [q.current_date] := by
  have hidx : q.current_date + 1 - 1 = q.current_date := by omega
  have hc := change_date_out_of_series random (q.current_date + 1 - 1)
    { q with current_date := q.current_date + 1, time_slider := q.current_date + 1 }
    (by rw [hidx]; exact h) hund
  obtain ⟨f1, f2, f3, f4, _, f6, _⟩ := change_date_frame random (q.current_date + 1 - 1)
    { q with current_date := q.current_date + 1, time_slider := q.current_date + 1 }
  have ht : tick random q = (animate_callback random q).page := by
    simp only [tick, hlive]
  rw [ht, animate_callback_eq]
  cases hd : change_date random (q.current_date + 1 - 1)
      { q with current_date := q.current_date + 1, time_slider := q.current_date + 1 } with
  | done u p1 =>
    rw [hd] at hc
    cases hc
  | threw e p1 =>
    rw [hd] at f1 f2 f3 f4 f6
    simp only [Outcome.page] at f1 f2 f3 f4 f6 ⊢
    refine ⟨by rw [f3]; exact hlive, f2, f4, f6, ?_⟩
    rw [f1, hidx]
    rfl

theorem ticks_out_of_series (random : Nat → ℚ) :
    ∀ (n : Nat) (q : Page), q.animate_network = some true →
      (q.core_json.length : Int) ≤ q.current_date →
      q.core_json.lookup "undefined" = none →
      (ticks random n q).animate_network = some true ∧
      (ticks random n q).animation_running = q.animation_running ∧
      (ticks random n q).reconciled
        = q.reconciled ++ (List.range n).map (fun (i : Nat) => q.current_date + (i : Int)) := by
  intro n
  induction n with
  | zero => intro q hlive _ _; exact ⟨hlive, rfl, by simp [ticks]⟩
  | succ k ih =>
    intro q hlive h hund
    obtain ⟨t1, t2, t3, t4, t5⟩ := tick_out_of_series random q hlive h hund
    obtain ⟨i1, i2, i3⟩ := ih (tick random q) t1 (by rw [t3, t4]; omega) (by rw [t3]; exact hund)
    refine ⟨i1, by rw [← t2]; exact i2, ?_⟩
    show (ticks random k (tick random q)).reconciled = _
    rw [i3, t5, t4, List.range_succ_eq_map, List.map_cons, List.map_map, List.append_assoc]
    congr 1
    simp only [List.singleton_append, Nat.cast_zero, add_zero, List.cons.injEq, true_and]
    apply List.map_congr_left
    intro i _
    simp only [Function.comp, Nat.cast_succ]
    omega

/-- A click on the animate button while idle, with the slider on or past the
last position of the series: every later timer period passes an index outside
the series to `change_date`, and the animation never returns to idle. -/
theorem animate_from_last_never_stops (random : Nat → ℚ) (p : Page)
    (hidle : p.animation_running = false)
    (hpos : (p.core_json.length : Int) ≤ p.time_slider)
    (hund : p.core_json.lookup "undefined" = none) (n : Nat) :
    (ticks random n (animate_button_click p).page).animate_network = some true ∧
    (ticks random n (animate_button_click p).page).animation_running = true ∧
    (ticks random n (animate_button_click p).page).reconciled
      = p.reconciled ++ (List.range n).map (fun (i : Nat) => p.time_slider + (i : Int)) := by
  have hq : (animate_button_click p).page = start_animation p.core_json p.time_slider p := by
    simp [animate_button_click, hidle, Outcome.page]
  have hr : (start_animation p.core_json p.time_slider p).reconciled = p.reconciled :=
    Page.reconciled_log _ _ (by intro i hi; cases hi)
  rw [hq]
  obtain ⟨a1, a2, a3⟩ := ticks_out_of_series random n
    (start_animation p.core_json p.time_slider p) rfl hpos hund
  exact ⟨a1, a2, by rw [a3, hr]; rfl⟩

/-- C18, the code on the series A, B (N = 2) with the slider on the last
position 2: after the click on the animate button the first timer period
passes index 2, outside [0, 2), to `change_date`, every later period passes
the next integer, and after any number of periods the animation is still
running with its timer live. -/
theorem playback_from_last_position_leaves_series :
    pageAtLast.core_json.length = 2 ∧ pageAtLast.time_slider = 2 ∧
    pageAtLast.animation_running = false ∧
    (tick half playingFromLast).reconciled = playingFromLast.reconciled ++ [2] ∧
    ∀ n : Nat,
      (ticks half n playingFromLast).animation_running = true ∧
      (ticks half n playingFromLast).animate_network = some true ∧
      (ticks half n playingFromLast).reconciled
        = playingFromLast.reconciled ++ (List.range n).map (fun (i : Nat) => (2 : Int) + (i : Int)) := by
  refine ⟨by decide, by decide, by decide, by decide, ?_⟩
  intro n
  obtain ⟨a1, a2, a3⟩ := animate_from_last_never_stops half pageAtLast (by decide) (by decide)
    (by decide) n
  have hr : playingFromLast.reconciled = pageAtLast.reconciled := by decide
  have hs : pageAtLast.time_slider = 2 := by decide
  rw [hs] at a3
  exact ⟨a2, a1, by rw [hr]; exact a3⟩

/-! ## The keys written by `change_graph_settings` -/

theorem readKey_assignKey_ne (o : List (String × SettingValue)) (k k1 : String)
    (v : SettingValue) (h : k1 ≠ k) : readKey (assignKey o k v) k1 = readKey o k1 := by
  have hb : (k1 == k) = false := by simpa using h
  induction o with
  | nil =>
    simp only [assignKey, readKey, List.lookup, hb]
  | cons kv rest ih =>
    obtain ⟨k0, w0⟩ := kv
    simp only [assignKey]
    by_cases h0 : k0 = k
    · subst h0
      simp only [beq_self_eq_true, if_true, readKey, List.lookup, hb]
    · have hb0 : (k0 == k) = false := by simpa using h0
      simp only [hb0, Bool.false_eq_true, if_false]
      by_cases h1 : k1 = k0
      · subst h1
        simp only [readKey, List.lookup, beq_self_eq_true]
      · have hb1 : (k1 == k0) = false := by simpa using h1
        simp only [readKey, List.lookup, hb1] at ih ⊢
        exact ih

theorem oneKey_assignKey (o : List (String × SettingValue)) (k : String) (v : SettingValue) :
    OneKey o (assignKey o k v) :=
  ⟨k, fun k1 h => readKey_assignKey_ne o k k1 v h⟩

theorem oneKey_refl (o : List (String × SettingValue)) : OneKey o o :=
  ⟨"", fun _ _ => rfl⟩

theorem change_graph_settings_switch_unknown (random : Nat → ℚ) (e : InputElement) (w : Panel)
    (h : e.name ∉ handledNames) : change_graph_settings_switch random e w = .done w := by
  simp only [handledNames, List.mem_cons, List.mem_singleton, List.not_mem_nil, or_false,
    not_or] at h
  unfold change_graph_settings_switch
  split <;> simp_all

theorem assign_fa2_e_value_one_key (key : String) (w : Panel) :
    (assign_fa2_e_value key w).panel.settings = w.settings ∧
    OneKey w.fa2config (assign_fa2_e_value key w).panel.fa2config := by
  unfold assign_fa2_e_value
  cases w.e_value with
  | none => exact ⟨rfl, oneKey_refl _⟩
  | some v => exact ⟨rfl, oneKey_assignKey _ _ _⟩

theorem assign_setting_e_value_one_key (key : String) (w : Panel) :
    (assign_setting_e_value key w).panel.fa2config = w.fa2config ∧
    OneKey w.settings (assign_setting_e_value key w).panel.settings := by
  unfold assign_setting_e_value
  cases w.e_value with
  | none => exact ⟨rfl, oneKey_refl _⟩
  | some v => exact ⟨rfl, oneKey_assignKey _ _ _⟩

theorem change_graph_settings_switch_one_key (random : Nat → ℚ) (e : InputElement) (w : Panel)
    (h : e.name ≠ "slow-down") :
    ((change_graph_settings_switch random e w).panel.settings = w.settings ∧
      OneKey w.fa2config (change_graph_settings_switch random e w).panel.fa2config) ∨
    ((change_graph_settings_switch random e w).panel.fa2config = w.fa2config ∧
      OneKey w.settings (change_graph_settings_switch random e w).panel.settings) := by
  unfold change_graph_settings_switch
  split
  · exact Or.inl (assign_fa2_e_value_one_key _ _)
  · exact Or.inl ⟨rfl, oneKey_assignKey _ _ _⟩
  · exact Or.inl (assign_fa2_e_value_one_key _ _)
  · exact Or.inl (assign_fa2_e_value_one_key _ _)
  · exact Or.inl ⟨rfl, oneKey_assignKey _ _ _⟩
  · exact Or.inl ⟨rfl, oneKey_assignKey _ _ _⟩
  · exact Or.inl ⟨rfl, oneKey_assignKey _ _ _⟩
  · exact Or.inl ⟨rfl, oneKey_assignKey _ _ _⟩
  · exact Or.inl (assign_fa2_e_value_one_key _ _)
  · rename_i hn
    exact absurd hn h
  · exact Or.inr ⟨rfl, oneKey_assignKey _ _ _⟩
  · exact Or.inr ⟨rfl, oneKey_assignKey _ _ _⟩
  · split
    · exact Or.inr ⟨rfl, oneKey_assignKey _ _ _⟩
    · exact Or.inr ⟨rfl, oneKey_assignKey _ _ _⟩
  · exact Or.inr ⟨rfl, oneKey_assignKey _ _ _⟩
  · exact Or.inr ⟨rfl, oneKey_assignKey _ _ _⟩
  · cases min_degree_filter random e.value w.page with
    | threw err p1 => exact Or.inl ⟨rfl, oneKey_refl _⟩
    | done u p1 => exact Or.inl ⟨rfl, oneKey_refl _⟩
  · exact Or.inr (assign_setting_e_value_one_key _ _)
  · exact Or.inr (assign_setting_e_value_one_key _ _)
  · exact Or.inr (assign_setting_e_value_one_key _ _)
  · exact Or.inr ⟨rfl, oneKey_assignKey _ _ _⟩
  · exact Or.inr ⟨rfl, oneKey_assignKey _ _ _⟩
  · exact Or.inl ⟨rfl, oneKey_refl _⟩


theorem change_graph_settings_panel (random : Nat → ℚ) (e : InputElement) (w : Panel) :
    ((change_graph_settings random e w).panel.fa2config = w.fa2config ∧
      (change_graph_settings random e w).panel.settings = w.settings) ∨
    ∃ w0 : Panel, w0.fa2config = w.fa2config ∧ w0.settings = w.settings ∧
      (change_graph_settings random e w).panel.fa2config
        = (change_graph_settings_switch random e w0).panel.fa2config ∧
      (change_graph_settings random e w).panel.settings
        = (change_graph_settings_switch random e w0).panel.settings := by
  have hsw : ∀ w0 : Panel,
      (match change_graph_settings_switch random e w0 with
        | .threw err w1 => PanelOutcome.threw err w1
        | .done w1 => PanelOutcome.done (reinitialise w1)).panel.fa2config
        = (change_graph_settings_switch random e w0).panel.fa2config ∧
      (match change_graph_settings_switch random e w0 with
        | .threw err w1 => PanelOutcome.threw err w1
        | .done w1 => PanelOutcome.done (reinitialise w1)).panel.settings
        = (change_graph_settings_switch random e w0).panel.settings := by
    intro w0
    generalize change_graph_settings_switch random e w0 = r
    cases r <;> exact ⟨rfl, rfl⟩
  by_cases ht : e.type = "number"
  · by_cases hn : (parseFloatText e.value).isNaN = true
    · left
      simp [change_graph_settings, ht, hn, PanelOutcome.panel]
    · right
      refine ⟨{ w with e_value := some (parseFloatText e.value) }, rfl, rfl, ?_⟩
      have hc : change_graph_settings random e w
          = match change_graph_settings_switch random e
              { w with e_value := some (parseFloatText e.value) } with
            | .threw err w1 => PanelOutcome.threw err w1
            | .done w1 => PanelOutcome.done (reinitialise w1) := by
        simp [change_graph_settings, ht, hn]
      rw [hc]
      exact hsw _
  · right
    refine ⟨w, rfl, rfl, ?_⟩
    have hc : change_graph_settings random e w
        = match change_graph_settings_switch random e w with
          | .threw err w1 => PanelOutcome.threw err w1
          | .done w1 => PanelOutcome.done (reinitialise w1) := by
      simp [change_graph_settings, ht]
    rw [hc]
    exact hsw _

/-- A name other than `slow-down` changes at most one key, of `fa2config` or
of the settings of the sigma instance, and leaves the other object as it was. -/
theorem change_graph_settings_one_key (random : Nat → ℚ) (e : InputElement) (w : Panel)
    (h : e.name ≠ "slow-down") :
    ((change_graph_settings random e w).panel.settings = w.settings ∧
      OneKey w.fa2config (change_graph_settings random e w).panel.fa2config) ∨
    ((change_graph_settings random e w).panel.fa2config = w.fa2config ∧
      OneKey w.settings (change_graph_settings random e w).panel.settings) := by
  rcases change_graph_settings_panel random e w with ⟨h1, h2⟩ | ⟨w0, h1, h2, h3, h4⟩
  · exact Or.inl ⟨h2, by rw [h1]; exact oneKey_refl _⟩
  · rw [h3, h4, ← h1, ← h2]
    exact change_graph_settings_switch_one_key random e w0 h

/-- A name that is not one of the handled keys changes no field of `fa2config`
and no setting of the sigma instance. -/
theorem change_graph_settings_unknown_name (random : Nat → ℚ) (e : InputElement) (w : Panel)
    (h : e.name ∉ handledNames) :
    (change_graph_settings random e w).panel.fa2config = w.fa2config ∧
    (change_graph_settings random e w).panel.settings = w.settings := by
  rcases change_graph_settings_panel random e w with h0 | ⟨w0, h1, h2, h3, h4⟩
  · exact h0
  · rw [h3, h4, change_graph_settings_switch_unknown random e w0 h]
    exact ⟨h1, h2⟩

/-! ## Sizes and labels after a call that returns -/

theorem change_network_nodes_sizes (random : Nat → ℚ) (E : List String) :
    ∀ (recs : List NodeRecord) (acc : List String) (p : Page) (added : List String) (p1 : Page),
      (recs.map (·.id)).Nodup →
      change_network_nodes random E recs acc p = .done added p1 →
      ∀ r ∈ recs, ∀ n ∈ p1.graph.nodesArray, n.id = r.id →
        n.size = r.size ∧ (r.id ∉ E → n.label = r.label) := by
  intro recs
  induction recs with
  | nil => intro _ _ _ _ _ _ r hr; cases hr
  | cons r0 rest ih =>
    intro acc p added p1 hnd h r hr n hn hid
    rw [List.map_cons, List.nodup_cons] at hnd
    have step : ∃ p0 acc0, change_network_nodes random E rest acc0 p0 = .done added p1 ∧
        ∀ n ∈ p0.graph.nodesArray, n.id = r0.id →
          n.size = r0.size ∧ (r0.id ∉ E → n.label = r0.label) := by
      simp only [change_network_nodes] at h
      split at h
      · split at h
        · rename_i p0 hp0
          obtain ⟨g, hg, rfl⟩ := Page.addNode_page_ok hp0
          obtain ⟨hnot, hnodes, _⟩ := Graph.addNode_ok hg
          refine ⟨_, _, h, ?_⟩
          intro m hm hmid
          have hm : m ∈ g.nodesArray := hm
          rw [hnodes, List.mem_append, List.mem_singleton] at hm
          rcases hm with hm | hm
          · have hin : m.id ∈ List.map (fun (x : Node) => x.id) _ :=
              List.mem_map_of_mem (fun (x : Node) => x.id) hm
            rw [hmid] at hin
            exact absurd hin hnot
          · subst hm
            exact ⟨rfl, fun _ => rfl⟩
        · cases h
      · rename_i hc
        split at h
        · rename_i p0 hp0
          obtain ⟨g, hg, rfl⟩ := Page.setNodeSize_page_ok hp0
          obtain ⟨_, hnodes, _⟩ := Graph.setNodeSize_ok hg
          refine ⟨_, _, h, ?_⟩
          intro m hm hmid
          have hm : m ∈ g.nodesArray := hm
          rw [hnodes, List.mem_map] at hm
          obtain ⟨m0, _, rfl⟩ := hm
          refine ⟨?_, fun hE => absurd hE (by simpa using hc)⟩
          by_cases h0 : m0.id = r0.id
          · simp [h0, parseFloat]
          · have hb : (m0.id == r0.id) = false := by simpa using h0
            simp only [hb] at hmid
            exact absurd hmid h0
        · cases h
    obtain ⟨p0, acc0, h0, hfirst⟩ := step
    rcases List.mem_cons.1 hr with hr0 | hr1
    · subst hr0
      have hinv := change_network_nodes_inv random
        (fun g => ∀ n ∈ g.nodesArray, n.id = r.id →
          n.size = r.size ∧ (r.id ∉ E → n.label = r.label)) E rest
        (by
          intro g r1 k g1 hr1 _ hg hI m hm hmid
          obtain ⟨_, hnodes, _⟩ := Graph.addNode_ok hg
          rw [hnodes, List.mem_append, List.mem_singleton] at hm
          rcases hm with hm | hm
          · exact hI m hm hmid
          · subst hm
            have hin : r1.id ∈ List.map (fun (x : NodeRecord) => x.id) rest :=
              List.mem_map_of_mem (fun (x : NodeRecord) => x.id) hr1
            rw [show r1.id = r.id from hmid] at hin
            exact absurd hin hnd.1)
        (by
          intro g r1 g1 hr1 _ hg hI m hm hmid
          obtain ⟨_, hnodes, _⟩ := Graph.setNodeSize_ok hg
          rw [hnodes, List.mem_map] at hm
          obtain ⟨m0, hm0, rfl⟩ := hm
          have hne : r1.id ≠ r.id := by
            intro heq
            have hin : r1.id ∈ List.map (fun (x : NodeRecord) => x.id) rest :=
              List.mem_map_of_mem (fun (x : NodeRecord) => x.id) hr1
            rw [heq] at hin
            exact hnd.1 hin
          by_cases hx : m0.id = r1.id
          · have hb : (m0.id == r1.id) = true := by simpa using hx
            simp only [hb, if_true] at hmid
            exact absurd (hx.symm.trans hmid) hne
          · have hb : (m0.id == r1.id) = false := by simpa using hx
            simp only [hb] at hmid ⊢
            exact hI m0 hm0 hmid)
        rest acc0 p0 (fun _ h => h) hfirst
      rw [h0] at hinv
      exact hinv n hn hid
    · exact ih acc0 p0 added p1 hnd.2 h0 r hr1 n hn hid


theorem change_network_edges_sizes (existing : List String) :
    ∀ (recs : List EdgeRecord) (acc : List String) (p : Page) (added : List String) (p3 : Page),
      (recs.map (·.id)).Nodup →
      change_network_edges existing recs acc p = .done added p3 →
      ∀ r ∈ recs, ∀ e ∈ p3.graph.edgesArray, e.id = r.id →
        e.size = r.size ∧
        (r.id ∉ existing → e.label = r.label ∧ e.source = r.source ∧ e.target = r.target) := by
  intro recs
  induction recs with
  | nil => intro _ _ _ _ _ _ r hr; cases hr
  | cons r0 rest ih =>
    intro acc p added p3 hnd h r hr e he hid
    rw [List.map_cons, List.nodup_cons] at hnd
    have step : ∃ p0 acc0, change_network_edges existing rest acc0 p0 = .done added p3 ∧
        ∀ e ∈ p0.graph.edgesArray, e.id = r0.id →
          e.size = r0.size ∧
          (r0.id ∉ existing →
            e.label = r0.label ∧ e.source = r0.source ∧ e.target = r0.target) := by
      simp only [change_network_edges] at h
      split at h
      · split at h
        · rename_i p0 hp0
          obtain ⟨g, hg, rfl⟩ := Page.addEdge_page_ok hp0
          obtain ⟨_, _, hnot, _, hedges⟩ := Graph.addEdge_ok hg
          refine ⟨_, _, h, ?_⟩
          intro m hm hmid
          have hm : m ∈ g.edgesArray := hm
          rw [hedges, List.mem_append, List.mem_singleton] at hm
          rcases hm with hm | hm
          · have hin : m.id ∈ List.map (fun (x : Edge) => x.id) _ :=
              List.mem_map_of_mem (fun (x : Edge) => x.id) hm
            rw [hmid] at hin
            exact absurd hin hnot
          · subst hm
            exact ⟨rfl, fun _ => ⟨rfl, rfl, rfl⟩⟩
        · cases h
      · rename_i hc
        split at h
        · rename_i p0 hp0
          obtain ⟨g, hg, rfl⟩ := Page.setEdgeSize_page_ok hp0
          obtain ⟨_, _, hedges⟩ := Graph.setEdgeSize_ok hg
          refine ⟨_, _, h, ?_⟩
          intro m hm hmid
          have hm : m ∈ g.edgesArray := hm
          rw [hedges, List.mem_map] at hm
          obtain ⟨m0, _, rfl⟩ := hm
          refine ⟨?_, fun hE => absurd hE (by simpa using hc)⟩
          by_cases h0 : m0.id = r0.id
          · simp [h0, parseFloat]
          · have hb : (m0.id == r0.id) = false := by simpa using h0
            simp only [hb] at hmid
            exact absurd hmid h0
        · cases h
    obtain ⟨p0, acc0, h0, hfirst⟩ := step
    rcases List.mem_cons.1 hr with hr0 | hr1
    · subst hr0
      have hinv := change_network_edges_inv
        (fun g => ∀ e ∈ g.edgesArray, e.id = r.id →
          e.size = r.size ∧
          (r.id ∉ existing → e.label = r.label ∧ e.source = r.source ∧ e.target = r.target))
        existing rest
        (by
          intro g r1 g1 hr1 _ hg hI m hm hmid
          obtain ⟨_, _, _, _, hedges⟩ := Graph.addEdge_ok hg
          rw [hedges, List.mem_append, List.mem_singleton] at hm
          rcases hm with hm | hm
          · exact hI m hm hmid
          · subst hm
            have hin : r1.id ∈ List.map (fun (x : EdgeRecord) => x.id) rest :=
              List.mem_map_of_mem (fun (x : EdgeRecord) => x.id) hr1
            rw [show r1.id = r.id from hmid] at hin
            exact absurd hin hnd.1)
        (by
          intro g r1 g1 hr1 _ hg hI m hm hmid
          obtain ⟨_, _, hedges⟩ := Graph.setEdgeSize_ok hg
          rw [hedges, List.mem_map] at hm
          obtain ⟨m0, hm0, rfl⟩ := hm
          have hne : r1.id ≠ r.id := by
            intro heq
            have hin : r1.id ∈ List.map (fun (x : EdgeRecord) => x.id) rest :=
              List.mem_map_of_mem (fun (x : EdgeRecord) => x.id) hr1
            rw [heq] at hin
            exact hnd.1 hin
          by_cases hx : m0.id = r1.id
          · have hb : (m0.id == r1.id) = true := by simpa using hx
            simp only [hb, if_true] at hmid
            exact absurd (hx.symm.trans hmid) hne
          · have hb : (m0.id == r1.id) = false := by simpa using hx
            simp only [hb] at hmid ⊢
            exact hI m0 hm0 hmid)
        rest acc0 p0 (fun _ h => h) hfirst
      rw [h0] at hinv
      exact hinv e he hid
    · exact ih acc0 p0 added p3 hnd.2 h0 r hr1 e he hid

/-- A node that was displayed before a call of `change_network` and still is
one after it has the label it had, whether the call returns or throws. -/
theorem change_network_keeps_node_labels (random : Nat → ℚ) (p : Page) (t : Snapshot) :
    ∀ n ∈ (change_network random (some t) p).page.graph.nodesArray, n.id ∈ p.graph.nodeIds →
      ∃ n0 ∈ p.graph.nodesArray, n0.id = n.id ∧ n0.label = n.label := by
  refine change_network_graph_inv random
    (fun g => ∀ n ∈ g.nodesArray, n.id ∈ p.graph.nodeIds →
      ∃ n0 ∈ p.graph.nodesArray, n0.id = n.id ∧ n0.label = n.label) t p ?_ ?_ ?_ ?_ ?_ ?_
  · intro g r k g1 _ hnew hg hI m hm hmid
    obtain ⟨_, hnodes, _⟩ := Graph.addNode_ok hg
    rw [hnodes, List.mem_append, List.mem_singleton] at hm
    rcases hm with hm | hm
    · exact hI m hm hmid
    · subst hm
      exact absurd hmid hnew
  · intro g r g1 _ _ hg hI m hm hmid
    obtain ⟨_, hnodes, _⟩ := Graph.setNodeSize_ok hg
    rw [hnodes, List.mem_map] at hm
    obtain ⟨m0, hm0, rfl⟩ := hm
    by_cases hx : m0.id = r.id
    · have hb : (m0.id == r.id) = true := by simpa using hx
      simp only [hb, if_true] at hmid ⊢
      exact hI m0 hm0 hmid
    · have hb : (m0.id == r.id) = false := by simpa using hx
      simp only [hb] at hmid ⊢
      exact hI m0 hm0 hmid
  · intro g id g1 _ hg hI m hm hmid
    obtain ⟨_, hnodes, _⟩ := Graph.dropNode_ok hg
    rw [hnodes] at hm
    exact hI m (List.mem_of_mem_eraseP hm) hmid
  · intro g r g1 _ hg hI m hm hmid
    obtain ⟨_, _, _, hnodes, _⟩ := Graph.addEdge_ok hg
    rw [hnodes] at hm
    exact hI m hm hmid
  · intro g r g1 _ hg hI m hm hmid
    obtain ⟨_, hnodes, _⟩ := Graph.setEdgeSize_ok hg
    rw [hnodes] at hm
    exact hI m hm hmid
  · intro n hn _
    exact ⟨n, hn, rfl, rfl⟩


/-- A call of `change_network` on a valid target that lacks no displayed node:
the call returns; every node and every edge of the target is displayed with
the size given in the target; an item that was displayed before has the label
(and, an edge, the source and the target) it had; an item that was not carries
those of the target. -/
theorem change_network_converges (random : Nat → ℚ) (p : Page) (t : Snapshot)
    (hwf : p.graph.nodeIds.Nodup) (ht : t.Valid)
    (hall : ∀ id ∈ p.graph.nodeIds, id ∈ t.nodes.map (·.id)) :
    (change_network random (some t) p).completed = true ∧
    (∀ r ∈ t.nodes, r.id ∈ (change_network random (some t) p).page.graph.nodeIds ∧
      ∀ n ∈ (change_network random (some t) p).page.graph.nodesArray, n.id = r.id →
        n.size = r.size ∧ (r.id ∉ p.graph.nodeIds → n.label = r.label)) ∧
    (∀ n ∈ (change_network random (some t) p).page.graph.nodesArray, n.id ∈ p.graph.nodeIds →
      ∃ n0 ∈ p.graph.nodesArray, n0.id = n.id ∧ n0.label = n.label) ∧
    (∀ r ∈ t.edges, r.id ∈ (change_network random (some t) p).page.graph.edgeIds ∧
      ∀ e ∈ (change_network random (some t) p).page.graph.edgesArray, e.id = r.id →
        e.size = r.size ∧
        (r.id ∉ p.graph.edgeIds →
          e.label = r.label ∧ e.source = r.source ∧ e.target = r.target)) ∧
    (∀ e ∈ (change_network random (some t) p).page.graph.edgesArray, e.id ∈ p.graph.edgeIds →
      ∃ e0 ∈ p.graph.edgesArray,
        e0.id = e.id ∧ e0.label = e.label ∧ e0.source = e.source ∧ e0.target = e.target) := by
  have hc := (change_network_completes_iff random p t hwf ht).2 (Or.inr hall)
  obtain ⟨s1, s2, _⟩ := change_network_summary random p t hwf ht
  obtain ⟨_, s3⟩ := s2 hc
  have hsubn : ((t.nodes.filter (fun r => !p.graph.nodeIds.contains r.id)).map (·.id)).Nodup :=
    ht.1.sublist (List.Sublist.map _ (List.filter_sublist _))
  obtain ⟨p1, extra, h1, _, _, h4, _⟩ := change_network_nodes_done random p.graph.nodeIds
    t.nodes [] (stop_force_atlas p).killForceAtlas2 (fun _ h => h) (fun _ _ h => h) hsubn
  have h4 : p1.graph.edgesArray = p.graph.edgesArray := h4
  have hcl := change_network_clean_nothing ([] ++ t.nodes.map (·.id)) p.graph.nodeIds p1
    (by simpa using hall)
  have heq := change_network_eq random t p
  rw [h1] at heq
  simp only [hcl] at heq
  cases he : change_network_edges p1.graph.edgeIds t.edges [] p1 with
  | threw e p3 =>
    rw [he] at heq
    rw [heq] at hc
    cases hc
  | done u3 p3 =>
    rw [he] at heq
    have hG : (change_network random (some t) p).page.graph = p3.graph := by rw [heq]; rfl
    have hE1 : p1.graph.edgeIds = p.graph.edgeIds := by simp only [Graph.edgeIds, h4]
    have hN3 : p3.graph.nodesArray = p1.graph.nodesArray := by
      have := change_network_edges_inv (fun g => g.nodesArray = p1.graph.nodesArray)
        p1.graph.edgeIds t.edges
        (fun g r g1 _ _ hg hI => (Graph.addEdge_ok hg).2.2.2.1.trans hI)
        (fun g r g1 _ _ hg hI => (Graph.setEdgeSize_ok hg).2.1.trans hI)
        t.edges [] p1 (fun _ h => h) rfl
      rw [he] at this
      exact this
    have hNs := change_network_nodes_sizes random p.graph.nodeIds t.nodes [] _ _ p1 ht.1 h1
    have hEs := change_network_edges_sizes p1.graph.edgeIds t.edges [] p1 u3 p3 ht.2.1 he
    have hEl := change_network_edges_inv
      (fun g => ∀ e ∈ g.edgesArray, e.id ∈ p1.graph.edgeIds →
        ∃ e0 ∈ p1.graph.edgesArray,
          e0.id = e.id ∧ e0.label = e.label ∧ e0.source = e.source ∧ e0.target = e.target)
      p1.graph.edgeIds t.edges
      (by
        intro g r g1 _ hnew hg hI m hm hmid
        obtain ⟨_, _, _, _, hedges⟩ := Graph.addEdge_ok hg
        rw [hedges, List.mem_append, List.mem_singleton] at hm
        rcases hm with hm | hm
        · exact hI m hm hmid
        · subst hm
          exact absurd hmid hnew)
      (by
        intro g r g1 _ _ hg hI m hm hmid
        obtain ⟨_, _, hedges⟩ := Graph.setEdgeSize_ok hg
        rw [hedges, List.mem_map] at hm
        obtain ⟨m0, hm0, rfl⟩ := hm
        by_cases hx : m0.id = r.id
        · have hb : (m0.id == r.id) = true := by simpa using hx
          simp only [hb, if_true] at hmid ⊢
          exact hI m0 hm0 hmid
        · have hb : (m0.id == r.id) = false := by simpa using hx
          simp only [hb] at hmid ⊢
          exact hI m0 hm0 hmid)
      t.edges [] p1 (fun _ h => h) (fun e he _ => ⟨e, he, rfl, rfl, rfl, rfl⟩)
    rw [he] at hEl
    have hEl : ∀ e ∈ p3.graph.edgesArray, e.id ∈ p1.graph.edgeIds →
        ∃ e0 ∈ p1.graph.edgesArray,
          e0.id = e.id ∧ e0.label = e.label ∧ e0.source = e.source ∧ e0.target = e.target := hEl
    refine ⟨hc, ?_, change_network_keeps_node_labels random p t, ?_, ?_⟩
    · intro r hr
      refine ⟨s1 r hr, ?_⟩
      rw [hG, hN3]
      exact hNs r hr
    · intro r hr
      refine ⟨s3 r hr, ?_⟩
      rw [hG, ← hE1]
      exact hEs r hr
    · rw [hG, ← hE1, ← h4]
      exact hEl

end SigmaNetwork
